import Mathlib

/-!
# andrej.sh: content parsing, aggregation and projection

A shallow embedding of the Go sources `pkg/books/books.go`, `cmd/build/main.go`
and `handlers/rss.go`.

Conventions of the embedding:

* a Go `string` is a list of Unicode code points (`Str`); the inputs considered are
  valid UTF-8 texts, on which the byte-level functions of package `strings` used here
  (`Index`, `SplitN`, `TrimSpace`, `Trim`, `Fields`) act exactly as their code-point
  versions below;
* a Go `int` is a 64-bit two's-complement integer, held in an `Int` and wrapped with
  `wrap64` where the source adds;
* a Go `float64` is held as a dyadic number `m * 2 ^ e` (`F64`), every operation being
  the exact operation followed by IEEE-754 round-to-nearest-even to 53 significant bits;
* the file system and the clock are explicit arguments.
-/

namespace Site

/-- A Go string, as the list of its code points. -/
abbrev Str := List Char

/-! ## Package `strings` -/

/-- Go `unicode.IsSpace`. -/
def isSpace (c : Char) : Bool :=
  let n := c.toNat
  (9 ≤ n && n ≤ 13) || n == 32 || n == 0x85 || n == 0xA0 || n == 0x1680 ||
  (0x2000 ≤ n && n ≤ 0x200A) || n == 0x2028 || n == 0x2029 || n == 0x202F ||
  n == 0x205F || n == 0x3000

/-- Go `strings.HasPrefix`. -/
def HasPrefix (s pre : Str) : Bool := pre.isPrefixOf s

/-- Go `strings.Index`: the position of the first occurrence of `sep` in `s`;
`none` stands for the result `-1`. -/
def Index : Str → Str → Option Nat
  | [], sep => if sep = [] then some 0 else none
  | c :: cs, sep =>
    if HasPrefix (c :: cs) sep then some 0 else (Index cs sep).map (· + 1)

/-- Loop of Go `strings.Count` for a non-empty `substr`: find the next occurrence,
count it, continue after it. The first argument bounds the number of iterations. -/
def countLoop (substr : Str) : Nat → Str → Nat
  | 0, _ => 0
  | fuel + 1, s =>
    match Index s substr with
    | none => 0
    | some i => 1 + countLoop substr fuel (s.drop (i + substr.length))

/-- Go `strings.Count`: the number of non-overlapping instances of `substr` in `s`
(one more than the number of code points when `substr` is empty). Each iteration of the
loop removes at least one character, so `s.length` iterations are enough. -/
def Count (s substr : Str) : Nat :=
  if substr = [] then s.length + 1 else countLoop substr s.length s

/-- Go `strings.explode`: the first `n - 1` code points as strings of their own, then the
rest. -/
def explode : Str → Nat → List Str
  | _, 0 => []
  | s, 1 => [s]
  | [], _ + 2 => [[]]
  | c :: cs, n + 2 => [c] :: explode cs (n + 1)

/-- Loop of Go `strings.genSplit` (with `sepSave = 0`): at most `k` cuts at the successive
first occurrences of `sep`, the remainder being the last element. -/
def genSplitLoop (sep : Str) : Nat → Str → List Str
  | 0, s => [s]
  | k + 1, s =>
    match Index s sep with
    | none => [s]
    | some m => s.take m :: genSplitLoop sep k (s.drop (m + sep.length))

/-- Go `strings.SplitN`. The library caps `n` at the byte length plus one, the model at the
number of code points plus one: both caps only avoid allocating more parts than a text can
have, a text holding fewer occurrences of a non-empty separator than it has code points
(see `genSplitLoop_fuel`). -/
def SplitN (s sep : Str) (n : Int) : List Str :=
  if n = 0 then []
  else if sep = [] then
    explode s (if n < 0 ∨ n > s.length then s.length else n.toNat)
  else
    let n1 : Nat := if n < 0 then Count s sep + 1 else n.toNat
    let n2 : Nat := if n1 > s.length + 1 then s.length + 1 else n1
    genSplitLoop sep (n2 - 1) s

/-- Go `strings.Split`. -/
def Split (s sep : Str) : List Str := SplitN s sep (-1)

/-- Go `strings.TrimSpace`. -/
def TrimSpace (s : Str) : Str := (s.dropWhile isSpace).rdropWhile isSpace

/-- Go `strings.Trim`: all leading and trailing code points contained in `cutset` are
removed. -/
def Trim (s cutset : Str) : Str :=
  (s.dropWhile (fun c => cutset.contains c)).rdropWhile (fun c => cutset.contains c)

/-- Scanning loop of `strings.Fields`; `cur` is the field being read, reversed. -/
def fieldsAux : Str → Str → List Str
  | cur, [] => if cur = [] then [] else [cur.reverse]
  | cur, c :: cs =>
    if isSpace c then
      (if cur = [] then fieldsAux [] cs else cur.reverse :: fieldsAux [] cs)
    else fieldsAux (c :: cur) cs

/-- Go `strings.Fields`: the maximal runs of non-space code points. -/
def Fields (s : Str) : List Str := fieldsAux [] s

/-- The frontmatter delimiter `---`. -/
def delim : Str := ['-', '-', '-']

/-- Go `strings.TrimSuffix`. -/
def TrimSuffix (s suffix : Str) : Str :=
  if suffix.isSuffixOf s then s.take (s.length - suffix.length) else s

/-- Loop of Go `filepath.Ext`, from the end of the path towards its start: the suffix
beginning at the last dot of the last path element, empty when that element has no dot.
The argument is the path reversed, `acc` the characters passed so far. -/
def extAux : Str → Str → Str
  | [], _ => []
  | c :: cs, acc =>
    if c = '/' then [] else if c = '.' then c :: acc else extAux cs (c :: acc)

/-- Go `filepath.Ext` (with `/` as path separator). -/
def Ext (path : Str) : Str := extAux path.reverse []

/-- Go `filepath.Join(dir, name)` for a clean directory path and an entry name returned by
`os.ReadDir`, where `Clean` changes nothing. -/
def Join (dir name : Str) : Str := dir ++ ['/'] ++ name

/-! ## Integers and decimal text -/

/-- Two's-complement wrap-around of a Go `int` (64 bits). -/
def wrap64 (x : Int) : Int := (x + 2 ^ 63) % 2 ^ 64 - 2 ^ 63

/-- A decimal digit, as ASCII. -/
def isDigit (c : Char) : Bool := 48 ≤ c.toNat && c.toNat ≤ 57

/-- The value of a run of decimal digits. -/
def digitsValue (ds : Str) : Nat := ds.foldl (fun a c => 10 * a + (c.toNat - 48)) 0

/-- The decimal digits of a natural number, most significant first; the first argument
bounds the number of digits. -/
def natDigits : Nat → Nat → Str
  | 0, _ => []
  | fuel + 1, n =>
    if n < 10 then [Char.ofNat (48 + n)]
    else natDigits fuel (n / 10) ++ [Char.ofNat (48 + n % 10)]

/-- Go `strconv.Itoa` (the `%d` verb of `fmt.Sprintf`). -/
def itoa (x : Int) : Str :=
  if x < 0 then '-' :: natDigits (x.natAbs + 1) x.natAbs else natDigits (x.natAbs + 1) x.natAbs

/-- Go `time.appendInt`: decimal text of `x`, zero-padded to `width` digits, with a
leading minus sign when negative. -/
def appendInt (x : Int) (width : Nat) : Str :=
  let ds := natDigits (x.natAbs + 1) x.natAbs
  let padded := List.replicate (width - ds.length) '0' ++ ds
  if x < 0 then '-' :: padded else padded

/-- Go `fmt` `(*ss).SkipSpace` as run by `Sscanf`: leading spaces are dropped, a newline
among them is an error. -/
def skipSpace : Str → Option Str
  | [] => some []
  | c :: cs =>
    if c = '\n' then none
    else if isSpace c then skipSpace cs
    else some (c :: cs)

/-- Go `fmt.Sscanf(value, "%d", &x)`: `some i` when the scan stores `i` in `x`, `none` when
it fails and leaves `x` untouched. After optional leading spaces come an optional sign and
at least one decimal digit; the digits are read greedily, what follows them is ignored,
and a number outside the 64-bit range is an error. -/
def Sscanf_d (value : Str) : Option Int :=
  match skipSpace value with
  | none => none
  | some s =>
    let neg : Bool := s.head? = some '-'
    let s1 : Str := if s.head? = some '-' ∨ s.head? = some '+' then s.tail else s
    let ds := s1.takeWhile isDigit
    if ds = [] then none
    else
      let i : Int := if neg then -(digitsValue ds : Int) else (digitsValue ds : Int)
      if -(2 : Int) ^ 63 ≤ i ∧ i < (2 : Int) ^ 63 then some i else none

/-! ## Package `time` -/

/-- A Go `time.Time`: an instant (`sec` seconds and `nsec` nanoseconds after
January 1, year 1, 00:00:00 UTC) seen in a location whose offset east of UTC at that
instant is `offset` seconds. Monotonic clock readings are not modelled: no value compared
in this program carries one. -/
structure Time where
  sec : Int
  nsec : Nat
  offset : Int
deriving DecidableEq, Repr

namespace Time

/-- The zero `time.Time`: January 1, year 1, 00:00:00 UTC. -/
def zero : Time := ⟨0, 0, 0⟩

/-- Go `Time.After`. -/
def After (t u : Time) : Bool :=
  decide (t.sec > u.sec) || (decide (t.sec = u.sec) && decide (t.nsec > u.nsec))

/-- Leap years of the proleptic Gregorian calendar. -/
def isLeap (year : Int) : Bool :=
  year % 4 = 0 && (year % 100 ≠ 0 || year % 400 = 0)

/-- Go `time.daysBefore`: days of a non-leap year before month `month` (1 to 13). -/
def daysBefore (month : Nat) : Int :=
  match month with
  | 1 => 0 | 2 => 31 | 3 => 59 | 4 => 90 | 5 => 120 | 6 => 151 | 7 => 181
  | 8 => 212 | 9 => 243 | 10 => 273 | 11 => 304 | 12 => 334 | _ => 365

/-- Go `time.daysIn`. -/
def daysIn (month : Nat) (year : Int) : Int :=
  if month = 2 ∧ isLeap year then 29 else daysBefore (month + 1) - daysBefore month

/-- Days from January 1, year 1 to the given civil date. -/
def daysSinceEpoch (year : Int) (month : Nat) (day : Int) : Int :=
  let y := year - 1
  365 * y + y / 4 - y / 100 + y / 400 + daysBefore month +
    (if isLeap year ∧ month ≥ 3 then 1 else 0) + (day - 1)

/-- Go `time.Date(year, month, day, 0, 0, 0, 0, time.UTC)` for a valid date. -/
def Date (year : Int) (month : Nat) (day : Int) : Time :=
  ⟨daysSinceEpoch year month day * 86400, 0, 0⟩

/-- Seconds since January 1, year 1 on the clock of the value's location. -/
def localSec (t : Time) : Int := t.sec + t.offset

/-- Year and day of the year (from 0) of a day count since January 1, year 1. -/
def yearDay (d : Int) : Int × Int :=
  let n400 := d / 146097
  let d1 := d % 146097
  let n100 := min (d1 / 36524) 3
  let d2 := d1 - 36524 * n100
  let n4 := d2 / 1461
  let d3 := d2 % 1461
  let n1 := min (d3 / 365) 3
  (400 * n400 + 100 * n100 + 4 * n4 + n1 + 1, d3 - 365 * n1)

/-- Go `Time.Year`. -/
def Year (t : Time) : Int := (yearDay (t.localSec / 86400)).1

/-- Month (1 to 12) and day of the month of day `yday` (from 0) of `year`. -/
def monthDay (year yday : Int) : Nat × Int :=
  let leap : Int := if isLeap year then 1 else 0
  if yday < 31 then (1, yday + 1)
  else if yday < 59 + leap then (2, yday - 31 + 1)
  else
    let y := yday - leap
    if y < 90 then (3, y - 59 + 1)
    else if y < 120 then (4, y - 90 + 1)
    else if y < 151 then (5, y - 120 + 1)
    else if y < 181 then (6, y - 151 + 1)
    else if y < 212 then (7, y - 181 + 1)
    else if y < 243 then (8, y - 212 + 1)
    else if y < 273 then (9, y - 243 + 1)
    else if y < 304 then (10, y - 273 + 1)
    else if y < 334 then (11, y - 304 + 1)
    else (12, y - 334 + 1)

/-- Go `Time.Month`. -/
def Month (t : Time) : Nat :=
  let yd := yearDay (t.localSec / 86400)
  (monthDay yd.1 yd.2).1

/-- Go `Time.Day`. -/
def Day (t : Time) : Int :=
  let yd := yearDay (t.localSec / 86400)
  (monthDay yd.1 yd.2).2

/-- Go `Time.Weekday`, Sunday being 0; January 1, year 1 is a Monday. -/
def Weekday (t : Time) : Int := (t.localSec / 86400 + 1) % 7

/-- Abbreviated day names of package `time`. -/
def shortDayName (w : Int) : Str :=
  if w = 0 then "Sun".toList else if w = 1 then "Mon".toList
  else if w = 2 then "Tue".toList else if w = 3 then "Wed".toList
  else if w = 4 then "Thu".toList else if w = 5 then "Fri".toList
  else "Sat".toList

/-- Abbreviated month names of package `time`. -/
def shortMonthName (m : Nat) : Str :=
  match m with
  | 1 => "Jan".toList | 2 => "Feb".toList | 3 => "Mar".toList | 4 => "Apr".toList
  | 5 => "May".toList | 6 => "Jun".toList | 7 => "Jul".toList | 8 => "Aug".toList
  | 9 => "Sep".toList | 10 => "Oct".toList | 11 => "Nov".toList | _ => "Dec".toList

/-- Go `t.Format("2006-01-02")`. -/
def FormatDate (t : Time) : Str :=
  appendInt t.Year 4 ++ ['-'] ++ appendInt t.Month 2 ++ ['-'] ++ appendInt t.Day 2

/-- Go `t.Format(time.RFC1123Z)`, the layout `Mon, 02 Jan 2006 15:04:05 -0700`. -/
def FormatRFC1123Z (t : Time) : Str :=
  let secOfDay := t.localSec % 86400
  let zone := Int.tdiv t.offset 60
  shortDayName t.Weekday ++ [',', ' '] ++ appendInt t.Day 2 ++ [' '] ++
  shortMonthName t.Month ++ [' '] ++ appendInt t.Year 4 ++ [' '] ++
  appendInt (secOfDay / 3600) 2 ++ [':'] ++ appendInt (secOfDay % 3600 / 60) 2 ++ [':'] ++
  appendInt (secOfDay % 60) 2 ++ [' '] ++
  (if zone < 0 then '-' :: (appendInt (-zone / 60) 2 ++ appendInt (-zone % 60) 2)
   else '+' :: (appendInt (zone / 60) 2 ++ appendInt (zone % 60) 2))

/-- Go `time.Parse("2006-01-02", value)`: four digits, `-`, two digits of a month from 01
to 12, `-`, two digits of a day that exists in that month, and nothing else; the result is
midnight UTC of that day, `none` stands for the error. -/
def Parse (value : Str) : Option Time :=
  match value with
  | [y1, y2, y3, y4, s1, m1, m2, s2, d1, d2] =>
    if isDigit y1 && isDigit y2 && isDigit y3 && isDigit y4 && s1 = '-' &&
        isDigit m1 && isDigit m2 && s2 = '-' && isDigit d1 && isDigit d2 then
      let year : Int := digitsValue [y1, y2, y3, y4]
      let month : Nat := digitsValue [m1, m2]
      let day : Int := digitsValue [d1, d2]
      if month < 1 ∨ 12 < month then none
      else if day < 1 ∨ day > daysIn month year then none
      else some (Date year month day)
    else none
  | _ => none

end Time

/-! ## `float64` -/

/-- Number of binary digits of `n`, the first argument bounding the recursion. -/
def bitLenAux : Nat → Nat → Nat
  | 0, _ => 0
  | fuel + 1, n => if n = 0 then 0 else 1 + bitLenAux fuel (n / 2)

/-- Number of binary digits of `n`. -/
def bitLen (n : Nat) : Nat := bitLenAux n n

/-- A finite `float64`, as the dyadic number `m * 2 ^ e`. All values computed in this
program are finite and of normal magnitude (they come from 64-bit integers, one division
by a positive integer and products with 100 and 1.25), so infinities, NaN and subnormal
numbers are not represented. -/
structure F64 where
  m : Int
  e : Int
deriving DecidableEq, Repr

namespace F64

/-- IEEE-754 round-to-nearest, ties-to-even, of the magnitude `n * 2 ^ e` to 53
significant bits. -/
def roundNat (n : Nat) (e : Int) : Nat × Int :=
  if n < 2 ^ 53 then (n, e)
  else
    let k := bitLen n - 53
    let q := n / 2 ^ k
    let r := n % 2 ^ k
    let half := 2 ^ (k - 1)
    if r > half ∨ (r = half ∧ q % 2 = 1) then (q + 1, e + k) else (q, e + k)

/-- Rounding of the signed dyadic number `m * 2 ^ e` to a `float64`. -/
def round (m e : Int) : F64 :=
  let r := roundNat m.natAbs e
  ⟨if m < 0 then -(r.1 : Int) else r.1, r.2⟩

/-- Go conversion `float64(i)` of an integer. -/
def ofInt (i : Int) : F64 := round i 0

/-- Go `x * y` on `float64`. -/
def mul (x y : F64) : F64 := round (x.m * y.m) (x.e + y.e)

/-- Go `x / y` on `float64`, for `y` different from zero (the only division of the program
is guarded by `Pages > 0`). The numerator is shifted so that the integer quotient has at
least 55 bits; a sticky bit records a non-zero remainder; the result is then rounded. -/
def div (x y : F64) : F64 :=
  let a := x.m.natAbs
  let b := y.m.natAbs
  let s := 55 + bitLen b - bitLen a
  let q := a * 2 ^ s / b
  let sticky := if a * 2 ^ s % b = 0 then 0 else 1
  let mag : Int := ((2 * q + sticky : Nat) : Int)
  round (if (x.m < 0) = (y.m < 0) then mag else -mag) (x.e - y.e - s - 1)

/-- Go `x < y` on `float64`. -/
def lt (x y : F64) : Bool :=
  let e := min x.e y.e
  decide (x.m * 2 ^ (x.e - e).toNat < y.m * 2 ^ (y.e - e).toNat)

/-- Go `x <= y` on `float64`. -/
def le (x y : F64) : Bool := !(lt y x)

/-- Go conversion `int(x)`: the fraction is discarded (truncation toward zero). A value
outside the 64-bit range is implementation-defined in Go; it is given here the result of
the amd64 conversion instruction, the least integer. -/
def toInt (x : F64) : Int :=
  let v : Int := if 0 ≤ x.e then x.m * 2 ^ x.e.toNat else Int.tdiv x.m (2 ^ (-x.e).toNat)
  if -(2 : Int) ^ 63 ≤ v ∧ v < (2 : Int) ^ 63 then v else -(2 : Int) ^ 63

/-- The `float64` of a decimal constant `num / den` of the source, such as `0.9`. -/
def ofDecimal (num den : Int) : F64 := div (ofInt num) (ofInt den)

end F64

/-! ## Sorting -/

/-- Inner loop of Go `sort.insertionSortLessFunc`: the new element `x` is swapped with its
left neighbour `y` as long as `less x y`. The sorted part is given last element first. -/
def insertLeft {α : Type} (less : α → α → Bool) (x : α) : List α → List α
  | [] => [x]
  | y :: ys => if less x y then y :: insertLeft less x ys else x :: y :: ys

/-- Go `sort.Slice(s, less)`, by the insertion sort the library runs on short slices
(12 elements or fewer). On longer slices the library's pattern-defeating quicksort may
order elements that are equivalent under `less` differently. -/
def sortSlice {α : Type} (less : α → α → Bool) (s : List α) : List α :=
  (s.foldl (fun sorted x => insertLeft less x sorted) []).reverse

/-! ## Files -/

/-- The part of the file system the program reads. -/
structure FS where
  /-- Whether `os.Stat` succeeds. -/
  stat : Str → Bool
  /-- Go `os.ReadDir`: the entry names, sorted; `none` on error. -/
  readDir : Str → Option (List Str)
  /-- Go `os.ReadFile`: the content; `none` on error. -/
  readFile : Str → Option Str

/-- Errors returned by the parsers and loaders. -/
inductive Err where
  /-- An error of `os.ReadFile` or `os.ReadDir`. -/
  | io
  /-- The error `invalid frontmatter format`. -/
  | invalidFrontmatter
  /-- An error of the markdown converter. -/
  | render
deriving DecidableEq, Repr

/-! ## `pkg/books/books.go` -/

/-- Go `books.BookStats`. -/
structure BookStats where
  Title : Str := []
  Author : Str := []
  Progress : F64 := ⟨0, 0⟩
  Pages : Int := 0
  CurrentPage : Int := 0
  Status : Str := []
  LastRead : Time := Time.zero
  Started : Time := Time.zero
  Finished : Time := Time.zero
  TotalReadingTime : Int := 0
deriving DecidableEq, Repr

/-- Go `books.ReadingStats`. -/
structure ReadingStats where
  CurrentBooks : List BookStats := []
  FinishedBooks : List BookStats := []
  TotalBooks : Int := 0
  TotalPagesRead : Int := 0
  TotalReadingTime : Int := 0
  BooksThisYear : Int := 0
deriving DecidableEq, Repr

/-- Go `books.MinutesPerPage`, the constant 1.25. -/
def MinutesPerPage : F64 := ⟨5, -2⟩

/-- Body of the loop over the frontmatter lines in `parseBookFile` (lines 125-162). -/
def bookLine (book : BookStats) (line0 : Str) : BookStats :=
  let line := TrimSpace line0
  if line = [] then book
  else
    match Index line [':'] with
    | none => book
    | some colonIdx =>
      let key := TrimSpace (line.take colonIdx)
      let value := Trim (TrimSpace (line.drop (colonIdx + 1))) ['"']
      if key = "title".toList then { book with Title := value }
      else if key = "author".toList then { book with Author := value }
      else if key = "pages".toList then
        match Sscanf_d value with
        | some i => { book with Pages := i }
        | none => book
      else if key = "current_page".toList then
        match Sscanf_d value with
        | some i => { book with CurrentPage := i }
        | none => book
      else if key = "started".toList then
        match Time.Parse value with
        | some t => { book with Started := t }
        | none => book
      else if key = "last_updated".toList then
        match Time.Parse value with
        | some t => { book with LastRead := t }
        | none => book
      else if key = "finished".toList then
        match Time.Parse value with
        | some t => { book with Finished := t }
        | none => book
      else book

/-- The `switch key` of `parseBookFile` (lines 140-161) on its own: the record after a
line with the given key and normalised value. -/
def bookField (book : BookStats) (key value : Str) : BookStats :=
  if key = "title".toList then { book with Title := value }
  else if key = "author".toList then { book with Author := value }
  else if key = "pages".toList then
    match Sscanf_d value with
    | some i => { book with Pages := i }
    | none => book
  else if key = "current_page".toList then
    match Sscanf_d value with
    | some i => { book with CurrentPage := i }
    | none => book
  else if key = "started".toList then
    match Time.Parse value with
    | some t => { book with Started := t }
    | none => book
  else if key = "last_updated".toList then
    match Time.Parse value with
    | some t => { book with LastRead := t }
    | none => book
  else if key = "finished".toList then
    match Time.Parse value with
    | some t => { book with Finished := t }
    | none => book
  else book

/-- Progress computation of `parseBookFile` (lines 164-169). -/
def withProgress (book : BookStats) : BookStats :=
  if book.Pages > 0 then
    let p := F64.mul (F64.div (F64.ofInt book.CurrentPage) (F64.ofInt book.Pages))
      (F64.ofInt 100)
    if F64.lt (F64.ofInt 100) p then { book with Progress := F64.ofInt 100 }
    else { book with Progress := p }
  else book

/-- Reading time computation of `parseBookFile` (line 171). -/
def withReadingTime (book : BookStats) : BookStats :=
  { book with TotalReadingTime := F64.toInt (F64.mul (F64.ofInt book.CurrentPage) MinutesPerPage) }

/-- The part of `parseBookFile` after the split (lines 121-173): the record built from the
frontmatter block. -/
def bookFromFrontmatter (frontmatter : Str) : BookStats :=
  withReadingTime (withProgress ((Split frontmatter ['\n']).foldl bookLine {}))

/-- Go `books.parseBookFile`, on the content read from the file. -/
def parseBookContent (content : Str) : Except Err BookStats :=
  let parts := SplitN content delim 3
  if parts.length < 3 then .error Err.invalidFrontmatter
  else .ok (bookFromFrontmatter (parts.getD 1 []))

/-- Go `books.parseBookFile`. -/
def parseBookFile (fs : FS) (filePath : Str) : Except Err BookStats :=
  match fs.readFile filePath with
  | none => .error Err.io
  | some content => parseBookContent content

/-- The directory `content/books/reading`. -/
def readingDir : Str := "content/books/reading".toList

/-- The directory `content/books/finished`. -/
def finishedDir : Str := "content/books/finished".toList

/-- Body of the loop over the reading directory in `LoadBooksFromMarkdown`
(lines 51-66). -/
def readingStep (fs : FS) (stats : ReadingStats) (name : Str) : ReadingStats :=
  if Ext name ≠ ".md".toList then stats
  else
    match parseBookFile fs (Join readingDir name) with
    | .error _ => stats
    | .ok book0 =>
      let book := { book0 with Status := "reading".toList }
      { stats with
        CurrentBooks := stats.CurrentBooks ++ [book]
        TotalBooks := wrap64 (stats.TotalBooks + 1)
        TotalPagesRead := wrap64 (stats.TotalPagesRead + book.CurrentPage)
        TotalReadingTime := wrap64 (stats.TotalReadingTime + book.TotalReadingTime) }

/-- Body of the loop over the finished directory in `LoadBooksFromMarkdown`
(lines 76-96). -/
def finishedStep (fs : FS) (currentYear : Int) (stats : ReadingStats) (name : Str) :
    ReadingStats :=
  if Ext name ≠ ".md".toList then stats
  else
    match parseBookFile fs (Join finishedDir name) with
    | .error _ => stats
    | .ok book0 =>
      let book := { book0 with Status := "finished".toList, Progress := F64.ofInt 100 }
      { stats with
        FinishedBooks := stats.FinishedBooks ++ [book]
        TotalBooks := wrap64 (stats.TotalBooks + 1)
        TotalPagesRead := wrap64 (stats.TotalPagesRead + book.CurrentPage)
        TotalReadingTime := wrap64 (stats.TotalReadingTime + book.TotalReadingTime)
        BooksThisYear :=
          if book.Finished.Year = currentYear then wrap64 (stats.BooksThisYear + 1)
          else stats.BooksThisYear }

/-- Go `books.LoadBooksFromMarkdown`; `now` is the value of `time.Now()`. -/
def LoadBooksFromMarkdown (fs : FS) (now : Time) : Except Err ReadingStats :=
  let currentYear := now.Year
  let stats0 : ReadingStats := {}
  let afterReading : Except Err ReadingStats :=
    if fs.stat readingDir then
      match fs.readDir readingDir with
      | none => .error Err.io
      | some files => .ok (files.foldl (readingStep fs) stats0)
    else .ok stats0
  match afterReading with
  | .error e => .error e
  | .ok stats1 =>
    let afterFinished : Except Err ReadingStats :=
      if fs.stat finishedDir then
        match fs.readDir finishedDir with
        | none => .error Err.io
        | some files => .ok (files.foldl (finishedStep fs currentYear) stats1)
      else .ok stats1
    match afterFinished with
    | .error e => .error e
    | .ok stats2 =>
      .ok { stats2 with
        CurrentBooks := sortSlice (fun a b => a.LastRead.After b.LastRead) stats2.CurrentBooks
        FinishedBooks :=
          sortSlice (fun a b => a.Finished.After b.Finished) stats2.FinishedBooks }

/-! ## `cmd/build/main.go` and `handlers/rss.go` -/

/-- Go `BlogPost` of `cmd/build/main.go`. The handlers package uses a struct of the same
name, declared outside the files at hand, of which `handlers/rss.go` sets and reads the
fields `Slug`, `Title`, `Date`, `RawDate` and `Excerpt`; it is given the same shape. -/
structure BlogPost where
  Title : Str := []
  Date : Str := []
  RawDate : Time := Time.zero
  Slug : Str := []
  Excerpt : Str := []
  Content : Str := []
  ReadingTime : Str := []
deriving DecidableEq, Repr

/-- Go `Item` (both packages). -/
structure Item where
  Title : Str
  Link : Str
  Description : Str
  PubDate : Str
  GUID : Str
deriving DecidableEq, Repr

/-- Go `AtomLink`. -/
structure AtomLink where
  Href : Str
  Rel : Str
  Type_ : Str
deriving DecidableEq, Repr

/-- Go `Channel`. -/
structure Channel where
  Title : Str
  Link : Str
  Description : Str
  Language : Str
  AtomLink : AtomLink
  LastBuildDate : Str
  Items : List Item
deriving DecidableEq, Repr

/-- Go `RSSFeed`. -/
structure RSSFeed where
  Version : Str
  AtomNS : Str
  Channel : Channel
deriving DecidableEq, Repr

/-- Go `URL` of the sitemap. -/
structure URL where
  Loc : Str
  LastMod : Str := []
  ChangeFreq : Str := []
  Priority : F64 := ⟨0, 0⟩
deriving DecidableEq, Repr

/-- Go `URLSet`. -/
structure URLSet where
  XMLNS : Str
  URLs : List URL
deriving DecidableEq, Repr

/-- The directory `content/blog`. -/
def blogDir : Str := "content/blog".toList

/-- Body of the loop over the frontmatter lines in `parseBlogPost`
(`cmd/build/main.go`, lines 483-508). -/
def postLine (post : BlogPost) (line0 : Str) : BlogPost :=
  let line := TrimSpace line0
  if line = [] then post
  else
    let parts := SplitN line [':'] 2
    if parts.length ≠ 2 then post
    else
      let key := TrimSpace (parts.getD 0 [])
      let value := Trim (TrimSpace (parts.getD 1 [])) ['"']
      if key = "title".toList then { post with Title := value }
      else if key = "date".toList then
        match Time.Parse value with
        | some parsedDate => { post with Date := value, RawDate := parsedDate }
        | none => { post with Date := value }
      else if key = "excerpt".toList then { post with Excerpt := value }
      else post

/-- The part of `parseBlogPost` after the split (lines 478-541), for the frontmatter block
and the trimmed body; `convert` is the markdown converter (`md.Convert`), `none` being its
error. -/
def postFromParts (convert : Str → Option Str) (slug frontmatter markdown : Str) :
    Except Err BlogPost :=
  let post := (Split frontmatter ['\n']).foldl postLine { Slug := slug }
  match convert markdown with
  | none => .error Err.render
  | some html =>
    let wordCount : Int := (Fields markdown).length
    let readingMinutes := max (wordCount / 200) 1
    .ok { post with Content := html, ReadingTime := itoa readingMinutes ++ " min read".toList }

/-- Go `parseBlogPost` of `cmd/build/main.go`, on the content read from the file. -/
def parseBlogContent (convert : Str → Option Str) (content slug : Str) :
    Except Err BlogPost :=
  let parts := SplitN content delim 3
  if parts.length < 3 then .error Err.invalidFrontmatter
  else postFromParts convert slug (parts.getD 1 []) (TrimSpace (parts.getD 2 []))

/-- Go `parseBlogPost` of `cmd/build/main.go`. -/
def parseBlogPost (convert : Str → Option Str) (fs : FS) (filePath slug : Str) :
    Except Err BlogPost :=
  match fs.readFile filePath with
  | none => .error Err.io
  | some content => parseBlogContent convert content slug

/-- Go `loadBlogPosts` of `cmd/build/main.go`. -/
def loadBlogPosts (convert : Str → Option Str) (fs : FS) : Except Err (List BlogPost) :=
  match fs.readDir blogDir with
  | none => .error Err.io
  | some files =>
    .ok (files.foldl (fun posts name =>
      if Ext name ≠ ".md".toList then posts
      else
        match parseBlogPost convert fs (Join blogDir name) (TrimSuffix name ".md".toList) with
        | .error _ => posts
        | .ok post => posts ++ [post]) [])

/-- Body of the loop over the frontmatter lines in `parseBlogPostMetadata`
(`handlers/rss.go`, lines 147-172). -/
def metadataLine (post : BlogPost) (line0 : Str) : BlogPost :=
  let line := TrimSpace line0
  if line = [] then post
  else
    let parts := SplitN line [':'] 2
    if parts.length ≠ 2 then post
    else
      let key := TrimSpace (parts.getD 0 [])
      let value := Trim (TrimSpace (parts.getD 1 [])) ['"']
      if key = "title".toList then { post with Title := value }
      else if key = "date".toList then
        match Time.Parse value with
        | some parsedDate => { post with Date := value, RawDate := parsedDate }
        | none => { post with Date := value }
      else if key = "excerpt".toList then { post with Excerpt := value }
      else post

/-- Go `parseBlogPostMetadata` of `handlers/rss.go`: a content without two delimiters gives
the empty post and no error (line 140). -/
def parseBlogPostMetadata (fs : FS) (filePath slug : Str) : Except Err BlogPost :=
  match fs.readFile filePath with
  | none => .error Err.io
  | some content =>
    let parts := SplitN content delim 3
    if parts.length < 3 then .ok {}
    else .ok ((Split (parts.getD 1 []) ['\n']).foldl metadataLine { Slug := slug })

/-- Go `loadBlogPostsForRSS` of `handlers/rss.go`. -/
def loadBlogPostsForRSS (fs : FS) : Except Err (List BlogPost) :=
  match fs.readDir blogDir with
  | none => .error Err.io
  | some files =>
    .ok (files.foldl (fun posts name =>
      if Ext name ≠ ".md".toList then posts
      else
        match parseBlogPostMetadata fs (Join blogDir name) (TrimSuffix name ".md".toList) with
        | .error _ => posts
        | .ok post => posts ++ [post]) [])

/-- The sort of the posts, `sort.Slice(posts, ...)` with
`posts[i].RawDate.After(posts[j].RawDate)` as `less`, the same text in `main`
(`cmd/build/main.go`, lines 181-183) and in `RSS` (`handlers/rss.go`, lines 53-55). -/
def sortPosts (posts : List BlogPost) : List BlogPost :=
  sortSlice (fun a b => a.RawDate.After b.RawDate) posts

/-- The link prefix `https://andrej.sh/blog/`. -/
def blogBase : Str := "https://andrej.sh/blog/".toList

/-- The item built from a post, the same text in `buildRSSFeed` (lines 340-346) and in
`RSS` (lines 59-65). -/
def itemOf (post : BlogPost) : Item :=
  { Title := post.Title
    Link := blogBase ++ post.Slug
    Description := post.Excerpt
    PubDate := post.RawDate.FormatRFC1123Z
    GUID := blogBase ++ post.Slug }

/-- The loop building the items (`items = append(items, ...)` for each post). -/
def feedItems (posts : List BlogPost) : List Item :=
  posts.foldl (fun items post => items ++ [itemOf post]) []

/-- The `lastBuildDate` of both feed builders: the time of the call, replaced by the date
of `posts[0]` when there is a post. -/
def lastBuildDate (now : Time) (posts : List BlogPost) : Str :=
  match posts with
  | [] => now.FormatRFC1123Z
  | post :: _ => post.RawDate.FormatRFC1123Z

/-- The feed value assembled by both builders. -/
def feedOf (now : Time) (posts : List BlogPost) : RSSFeed :=
  { Version := "2.0".toList
    AtomNS := "http://www.w3.org/2005/Atom".toList
    Channel :=
      { Title := "Andrej Acevski".toList
        Link := "https://andrej.sh".toList
        Description := ("breaking code, building tools. software engineer writing about " ++
          "go, typescript, and making things that work.").toList
        Language := "en-us".toList
        AtomLink :=
          { Href := "https://andrej.sh/rss.xml".toList
            Rel := "self".toList
            Type_ := "application/rss+xml".toList }
        LastBuildDate := lastBuildDate now posts
        Items := feedItems posts } }

/-- Go `buildRSSFeed` of `cmd/build/main.go`: the feed that is marshalled and written to
`rss.xml`; `now` is the value of `time.Now()`. -/
def buildRSSFeed (now : Time) (posts : List BlogPost) : RSSFeed := feedOf now posts

/-- Go `RSS` of `handlers/rss.go`: the feed that is marshalled into the response, `none`
when loading fails (status 500). -/
def RSS (fs : FS) (now : Time) : Option RSSFeed :=
  match loadBlogPostsForRSS fs with
  | .error _ => none
  | .ok posts => some (feedOf now (sortPosts posts))

/-- Go `buildSitemap` of `cmd/build/main.go`: the URL set that is marshalled and written
to `sitemap.xml`. -/
def buildSitemap (posts : List BlogPost) : URLSet :=
  let urls : List URL :=
    [ { Loc := "https://andrej.sh/".toList, ChangeFreq := "weekly".toList,
        Priority := F64.ofInt 1 },
      { Loc := "https://andrej.sh/blog".toList, ChangeFreq := "weekly".toList,
        Priority := F64.ofDecimal 9 10 },
      { Loc := "https://andrej.sh/books".toList, ChangeFreq := "monthly".toList,
        Priority := F64.ofDecimal 8 10 } ]
  { XMLNS := "http://www.sitemaps.org/schemas/sitemap/0.9".toList
    URLs := posts.foldl (fun urls post => urls ++
      [{ Loc := blogBase ++ post.Slug
         LastMod := post.RawDate.FormatDate
         ChangeFreq := "monthly".toList
         Priority := F64.ofDecimal 7 10 }]) urls }

/-- The blog part of `main` in `cmd/build/main.go` (lines 177-183, 241 and 320): the posts
are loaded and sorted, the feed is built from the sorted posts when loading succeeded, the
sitemap is built in both cases (from no post when loading failed). -/
def mainBlog (convert : Str → Option Str) (fs : FS) (now : Time) : Option RSSFeed × URLSet :=
  match loadBlogPosts convert fs with
  | .error _ => (none, buildSitemap [])
  | .ok posts0 =>
    let posts := sortPosts posts0
    (some (buildRSSFeed now posts), buildSitemap posts)

/-! ## Concrete inputs -/

/-- A file system with the given directory listings and files, and nothing else. -/
def fsOf (dirs : List (Str × List Str)) (files : List (Str × Str)) : FS :=
  { stat := fun d => (dirs.lookup d).isSome
    readDir := fun d => (dirs.lookup d)
    readFile := fun f => (files.lookup f) }

/-- The file system `fs` with the listing of the directory `dir` replaced by `names`. -/
def FS.withListing (fs : FS) (dir : Str) (names : List Str) : FS :=
  { fs with readDir := fun d => if d = dir then some names else fs.readDir d }

/-- The path of the book file of the concrete inputs below. -/
def bookPath : Str := "content/books/reading/b.md".toList

/-- A reading directory with one book whose `current_page` is negative. -/
def negativePageFS : FS :=
  fsOf [(readingDir, ["b.md".toList])]
    [(bookPath, "---\ntitle: N\npages: 10\ncurrent_page: -5\n---\n".toList)]

/-- A reading directory with one book at page 3. -/
def threePagesFS : FS :=
  fsOf [(readingDir, ["b.md".toList])]
    [(bookPath, "---\ntitle: T\npages: 10\ncurrent_page: 3\n---\n".toList)]

/-- A reading directory with one book at page 100 of 300. -/
def hundredPagesFS : FS :=
  fsOf [(readingDir, ["b.md".toList])]
    [(bookPath, "---\ntitle: H\npages: 300\ncurrent_page: 100\n---\n".toList)]

/-- A reading directory with one book whose `current_page` is 1801439850948199, the least
page count from which the product with 1.25 is no longer exact in `float64`. -/
def hugePageFS : FS :=
  fsOf [(readingDir, ["b.md".toList])]
    [(bookPath, "---\ntitle: G\ncurrent_page: 1801439850948199\n---\n".toList)]

/-- The path of the post of the concrete inputs below. -/
def postPath : Str := "content/blog/p.md".toList

/-- The content of a post whose body has five fields, one of them a third `---`. -/
def postContent : Str :=
  "---\ntitle: \"P\"\ndate: 2024-06-01\n---\n\none --- two\nthree four\n".toList

/-- The content of a document without closing `---`. -/
def malformedContent : Str := "---\ntitle: Q\n".toList

/-- A blog directory with the post `p.md` and the malformed file `q.md`. -/
def blogFS : FS :=
  fsOf [(blogDir, ["p.md".toList, "q.md".toList])]
    [(postPath, postContent), ("content/blog/q.md".toList, malformedContent)]

/-- The post parsed from `p.md` of `blogFS` with the converter `idConvert`. -/
def parsedPost : BlogPost :=
  { Title := "P".toList, Date := "2024-06-01".toList, RawDate := Time.Date 2024 6 1,
    Slug := "p".toList, Content := "one --- two\nthree four".toList,
    ReadingTime := "1 min read".toList }

/-- Book directories with a well-formed book and a malformed file in the reading
directory. -/
def malformedBookFS : FS :=
  fsOf [(readingDir, ["b.md".toList, "bad.md".toList]), (finishedDir, [])]
    [(bookPath, "---\ntitle: H\npages: 300\ncurrent_page: 100\n---\n".toList),
     ("content/books/reading/bad.md".toList, malformedContent)]

/-- A markdown converter that returns its input, for the concrete inputs. -/
def idConvert (markdown : Str) : Option Str := some markdown

/-- Book directories with one book being read and two finished books, the second of them
without `pages` and without `finished` date, and a file that is not markdown. -/
def libraryFS : FS :=
  fsOf [(readingDir, ["notes.txt".toList, "r.md".toList]),
        (finishedDir, ["f.md".toList, "g.md".toList])]
    [("content/books/reading/r.md".toList,
      "---\ntitle: R\npages: 300\ncurrent_page: 100\nlast_updated: 2024-05-01\n---\n".toList),
     ("content/books/finished/f.md".toList,
      "---\ntitle: F\npages: 200\ncurrent_page: 50\nfinished: 2024-03-05\n---\n".toList),
     ("content/books/finished/g.md".toList, "---\ntitle: G\ncurrent_page: 8\n---\n".toList)]

/-- A value of `time.Now()` in the year 2024: July 1, 2024, 00:00:00 UTC. -/
def mid2024 : Time := Time.Date 2024 7 1

/-- A reading directory with two books whose `current_page` is 5000000000000000000 each. -/
def overflowFS : FS :=
  fsOf [(readingDir, ["a.md".toList, "b.md".toList])]
    [("content/books/reading/a.md".toList,
      "---\ntitle: A\ncurrent_page: 5000000000000000000\n---\n".toList),
     ("content/books/reading/b.md".toList,
      "---\ntitle: B\ncurrent_page: 5000000000000000000\n---\n".toList)]

/-- The statistics loaded from `libraryFS` in 2024. -/
def libraryStats : ReadingStats :=
  { CurrentBooks :=
      [{ Title := "R".toList, Pages := 300, CurrentPage := 100, Status := "reading".toList,
         Progress := ⟨4691249611844266, -47⟩, LastRead := Time.Date 2024 5 1,
         TotalReadingTime := 125 }]
    FinishedBooks :=
      [{ Title := "F".toList, Pages := 200, CurrentPage := 50, Status := "finished".toList,
         Progress := ⟨100, 0⟩, Finished := Time.Date 2024 3 5, TotalReadingTime := 62 },
       { Title := "G".toList, Pages := 0, CurrentPage := 8, Status := "finished".toList,
         Progress := ⟨100, 0⟩, TotalReadingTime := 10 }]
    TotalBooks := 3
    TotalPagesRead := 158
    TotalReadingTime := 197
    BooksThisYear := 1 }

/-- The statistics loaded from `overflowFS`. -/
def overflowStats : ReadingStats :=
  { CurrentBooks :=
      [{ Title := "A".toList, CurrentPage := 5000000000000000000,
         Status := "reading".toList, TotalReadingTime := 6250000000000000000 },
       { Title := "B".toList, CurrentPage := 5000000000000000000,
         Status := "reading".toList, TotalReadingTime := 6250000000000000000 }]
    TotalBooks := 2
    TotalPagesRead := -8446744073709551616
    TotalReadingTime := -5946744073709551616 }

/-- The post read from `p.md` of `blogFS` by `parseBlogPostMetadata`. -/
def parsedMetadata : BlogPost :=
  { Title := "P".toList, Date := "2024-06-01".toList, RawDate := Time.Date 2024 6 1,
    Slug := "p".toList }

/-- A reading directory with one book whose title is written with two layers of quotes and
whose author is written with an opening quote only. -/
def quotedFS : FS :=
  fsOf [(readingDir, ["b.md".toList])]
    [(bookPath, "---\ntitle: \"\"a\"\"\nauthor: \"b\n---\n".toList)]

/-- The content of a book file whose integer and date fields cannot be read. -/
def badFieldsContent : Str :=
  "---\ntitle: T\npages: abc\ncurrent_page:\nstarted: 2024-13-01\nfinished: soon\n---\n".toList

/-- A reading directory with the book file `badFieldsContent`. -/
def badFieldsFS : FS := fsOf [(readingDir, ["b.md".toList])] [(bookPath, badFieldsContent)]

/-- A reading directory with one book whose integer fields begin with a number and go on
with other text. -/
def prefixFS : FS :=
  fsOf [(readingDir, ["b.md".toList])]
    [(bookPath, "---\npages: 12abc\ncurrent_page: 7 of 12\n---\n".toList)]

/-- A reading directory with one book whose `pages` and `finished` fields are each written
twice, first with a value that can be read and then with one that cannot. -/
def duplicateFS : FS :=
  fsOf [(readingDir, ["b.md".toList])]
    [(bookPath,
      "---\npages: 10\npages: ten\nfinished: 2024-03-05\nfinished: soon\n---\n".toList)]

/-- The metadata of a post: the post without its rendered content and reading time, the two
fields that `handlers/rss.go` never sets. -/
def metadataOf (post : BlogPost) : BlogPost :=
  { post with Content := [], ReadingTime := [] }

/-- The content of a post dated 2024-01-01 with an excerpt. -/
def earlierContent : Str :=
  "---\ntitle: A\ndate: 2024-01-01\nexcerpt: \"first\"\n---\nbody text\n".toList

/-- A blog directory with two well-formed posts, `a.md` of 2024-01-01 and `p.md` of
2024-06-01, and a file that is not markdown. -/
def twoPostsFS : FS :=
  fsOf [(blogDir, ["a.md".toList, "notes.txt".toList, "p.md".toList])]
    [("content/blog/a.md".toList, earlierContent), (postPath, postContent)]

/-- The post parsed from `a.md` of `twoPostsFS` with the converter `idConvert`. -/
def earlierPost : BlogPost :=
  { Title := "A".toList, Date := "2024-01-01".toList, RawDate := Time.Date 2024 1 1,
    Slug := "a".toList, Excerpt := "first".toList, Content := "body text".toList,
    ReadingTime := "1 min read".toList }

/-- A post dated 2024-01-01. -/
def exJan : BlogPost :=
  { Slug := "jan".toList, Date := "2024-01-01".toList, RawDate := Time.Date 2024 1 1 }

/-- A post dated 2024-06-01. -/
def exJun : BlogPost :=
  { Slug := "jun".toList, Date := "2024-06-01".toList, RawDate := Time.Date 2024 6 1 }

/-- A post without date. -/
def exUndated : BlogPost := { Slug := "undated".toList }

/-- A blog directory with a post dated in the year 0000 and a post without date. -/
def yearZeroFS : FS :=
  fsOf [(blogDir, ["a.md".toList, "b.md".toList])]
    [("content/blog/a.md".toList, "---\ntitle: old\ndate: 0000-06-01\n---\ntext".toList),
     ("content/blog/b.md".toList, "---\ntitle: undated\n---\ntext".toList)]

/-- The post read from `a.md` of `yearZeroFS`. -/
def yearZeroOld : BlogPost :=
  { Slug := "a".toList, Title := "old".toList, Date := "0000-06-01".toList,
    RawDate := Time.Date 0 6 1 }

/-- The post read from `b.md` of `yearZeroFS`. -/
def yearZeroUndated : BlogPost := { Slug := "b".toList, Title := "undated".toList }

end Site

namespace Site

/-! ## Facts about `Index` and `SplitN` -/

theorem HasPrefix_iff (s pre : Str) : HasPrefix s pre = true ↔ ∃ t, s = pre ++ t := by
  unfold HasPrefix
  rw [List.isPrefixOf_iff_prefix]
  constructor
  · rintro ⟨t, ht⟩; exact ⟨t, ht.symm⟩
  · rintro ⟨t, ht⟩; exact ⟨t, ht.symm⟩

/-- When `Index` finds `sep` at `m`, the text splits there, and no occurrence starts
earlier. -/
theorem Index_some (sep : Str) : ∀ (s : Str) (m : Nat), Index s sep = some m →
    s = s.take m ++ sep ++ s.drop (m + sep.length) ∧
    ∀ x y, s = x ++ sep ++ y → m ≤ x.length := by
  intro s
  induction s with
  | nil =>
    intro m h
    simp only [Index] at h
    split at h
    · rename_i hs; subst hs; cases h; simp
    · cases h
  | cons c cs ih =>
    intro m h
    simp only [Index] at h
    split at h
    · rename_i hp
      cases h
      obtain ⟨t, ht⟩ := (HasPrefix_iff _ _).1 hp
      refine ⟨?_, fun _ _ _ => Nat.zero_le _⟩
      rw [ht]; simp
    · rename_i hp
      cases hi : Index cs sep with
      | none => rw [hi] at h; cases h
      | some k =>
        rw [hi] at h
        simp only [Option.map_some', Option.some.injEq] at h
        subst h
        obtain ⟨h1, h2⟩ := ih k hi
        refine ⟨?_, ?_⟩
        · simp only [List.take_succ_cons, List.cons_append]
          rw [show k + 1 + sep.length = (k + sep.length) + 1 by omega, List.drop_succ_cons]
          exact congrArg (c :: ·) h1
        · intro x y hxy
          cases x with
          | nil =>
            exfalso
            apply hp
            rw [HasPrefix_iff]
            exact ⟨y, by simpa using hxy⟩
          | cons a x =>
            simp only [List.cons_append, List.cons.injEq] at hxy
            have := h2 x y (by simpa using hxy.2)
            simp only [List.length_cons]; omega

/-- When `Index` finds nothing, `sep` does not occur. -/
theorem Index_none (sep : Str) : ∀ (s : Str), Index s sep = none →
    ¬ ∃ x y, s = x ++ sep ++ y := by
  intro s
  induction s with
  | nil =>
    intro h
    simp only [Index] at h
    split at h
    · cases h
    · rename_i hs
      rintro ⟨x, y, hxy⟩
      apply hs
      have h3 := congrArg List.length hxy
      simp only [List.length_nil, List.length_append] at h3
      exact List.length_eq_zero.1 (by omega)
  | cons c cs ih =>
    intro h
    simp only [Index] at h
    split at h
    · cases h
    · rename_i hp
      cases hi : Index cs sep with
      | some k => rw [hi] at h; cases h
      | none =>
        rintro ⟨x, y, hxy⟩
        cases x with
        | nil =>
          apply hp
          rw [HasPrefix_iff]
          exact ⟨y, by simpa using hxy⟩
        | cons a x =>
          simp only [List.cons_append, List.cons.injEq] at hxy
          exact ih hi ⟨x, y, by simpa using hxy.2⟩

/-- A text too short to hold the separator has no occurrence of it. -/
theorem Index_short (sep s : Str) (h : s.length < sep.length) : Index s sep = none := by
  cases hi : Index s sep with
  | none => rfl
  | some m =>
    have h1 := (Index_some sep s m hi).1
    have h2 := congrArg List.length h1
    simp only [List.length_append] at h2
    omega

/-- With the limit 3 and the separator `---`, `SplitN` makes at most two cuts. -/
theorem SplitN_delim_three (s : Str) : SplitN s delim 3 = genSplitLoop delim 2 s := by
  unfold SplitN
  have hd : delim ≠ [] := by decide
  simp only [hd, if_false]
  norm_num
  by_cases hlen : 3 > s.length + 1
  · have hnone : Index s delim = none := Index_short delim s (by simp [delim]; omega)
    have hc : (s.length : Int) + 1 < 3 := by omega
    rw [if_pos hc]
    have : s.length = 0 ∨ s.length = 1 := by omega
    rcases this with h0 | h1
    · simp [h0, genSplitLoop, hnone]
    · simp [h1, genSplitLoop, hnone]
  · have hc : ¬ ((s.length : Int) + 1 < 3) := by omega
    rw [if_neg hc]
    rfl

/-- The two outcomes of the split of a document at `---`: either the delimiter does not
occur twice and fewer than three parts come out, or exactly three parts come out, cut at the
first occurrence and at the first occurrence after it. -/
theorem split_cases (s : Str) :
    ((¬ ∃ a b c, s = a ++ delim ++ b ++ delim ++ c) ∧ (SplitN s delim 3).length < 3) ∨
    (∃ a b c, s = a ++ delim ++ b ++ delim ++ c ∧
      (∀ x y, s = x ++ delim ++ y → a.length ≤ x.length) ∧
      (∀ x y, b ++ delim ++ c = x ++ delim ++ y → b.length ≤ x.length) ∧
      SplitN s delim 3 = [a, b, c]) := by
  rw [SplitN_delim_three]
  cases h1 : Index s delim with
  | none =>
    left
    refine ⟨?_, by simp [genSplitLoop, h1]⟩
    rintro ⟨a, b, c, habc⟩
    exact Index_none delim s h1 ⟨a, b ++ delim ++ c, by simp [habc]⟩
  | some m =>
    obtain ⟨hs, hmin⟩ := Index_some delim s m h1
    cases h2 : Index (s.drop (m + delim.length)) delim with
    | none =>
      left
      refine ⟨?_, by simp [genSplitLoop, h1, h2]⟩
      rintro ⟨a, b, c, habc⟩
      have hma : m ≤ a.length := hmin a (b ++ delim ++ c) (by simp [habc])
      apply Index_none delim _ h2
      refine ⟨(a ++ delim ++ b).drop (m + delim.length), c, ?_⟩
      have hle : m + delim.length ≤ (a ++ delim ++ b).length := by
        simp only [List.length_append]; omega
      rw [habc]
      simp only [List.append_assoc]
      rw [← List.append_assoc a, ← List.append_assoc (a ++ delim),
        List.drop_append_of_le_length (by simpa using hle)]
      simp
    | some k =>
      obtain ⟨hs2, hmin2⟩ := Index_some delim _ k h2
      right
      refine ⟨s.take m, (s.drop (m + delim.length)).take k,
        (s.drop (m + delim.length)).drop (k + delim.length), ?_, ?_, ?_, ?_⟩
      · conv_lhs => rw [hs, hs2]
        simp [List.append_assoc]
      · intro x y hxy
        exact (List.length_take_le m s).trans (hmin x y hxy)
      · intro x y hxy
        rw [← hs2] at hxy
        exact (List.length_take_le k _).trans (hmin2 x y hxy)
      · simp [genSplitLoop, h1, h2]

/-- The part of `parseBlogPost` after the split never reports a malformed document. -/
theorem postFromParts_ne_invalid (convert : Str → Option Str) (slug fm md : Str) :
    postFromParts convert slug fm md ≠ .error Err.invalidFrontmatter := by
  unfold postFromParts
  cases convert md <;> simp

/-- C1. Frontmatter split of `parseBookFile` and of the build-time `parseBlogPost`: on a
file that was read, each fails with the malformed-document error exactly when the content
does not hold two non-overlapping occurrences of `---`; otherwise the content is
`a ++ "---" ++ b ++ "---" ++ c` with the first `---` the first occurrence in the content
and the second the first occurrence after it, the book record is the one built from the
single metadata block `b`, and the post is the one built from `b` and from the body `c`
(later `---` included) trimmed of surrounding whitespace, which is a post whenever the
markdown converter returns. -/
theorem C1_frontmatter_split (fs : FS) (convert : Str → Option Str)
    (filePath slug content : Str) (hread : fs.readFile filePath = some content) :
    (parseBookFile fs filePath = .error Err.invalidFrontmatter ↔
      ¬ ∃ a b c, content = a ++ delim ++ b ++ delim ++ c) ∧
    (parseBlogPost convert fs filePath slug = .error Err.invalidFrontmatter ↔
      ¬ ∃ a b c, content = a ++ delim ++ b ++ delim ++ c) ∧
    ((∃ a b c, content = a ++ delim ++ b ++ delim ++ c) →
      ∃ a b c, content = a ++ delim ++ b ++ delim ++ c ∧
        (∀ x y, content = x ++ delim ++ y → a.length ≤ x.length) ∧
        (∀ x y, b ++ delim ++ c = x ++ delim ++ y → b.length ≤ x.length) ∧
        parseBookFile fs filePath = .ok (bookFromFrontmatter b) ∧
        parseBlogPost convert fs filePath slug = postFromParts convert slug b (TrimSpace c) ∧
        (∀ html, convert (TrimSpace c) = some html →
          ∃ post, parseBlogPost convert fs filePath slug = .ok post)) := by
  have hbook : parseBookFile fs filePath = parseBookContent content := by
    simp [parseBookFile, hread]
  have hblog : parseBlogPost convert fs filePath slug = parseBlogContent convert content slug := by
    simp [parseBlogPost, hread]
  rw [hbook, hblog]
  rcases split_cases content with ⟨hno, hlen⟩ | ⟨a, b, c, habc, hmin1, hmin2, hsplit⟩
  · refine ⟨?_, ?_, fun h => absurd h hno⟩
    · have hb : parseBookContent content = .error Err.invalidFrontmatter := by
        simp [parseBookContent, hlen]
      rw [hb]; exact ⟨fun _ => hno, fun _ => rfl⟩
    · have hb : parseBlogContent convert content slug = .error Err.invalidFrontmatter := by
        simp [parseBlogContent, hlen]
      rw [hb]; exact ⟨fun _ => hno, fun _ => rfl⟩
  · have hex : ∃ a b c, content = a ++ delim ++ b ++ delim ++ c := ⟨a, b, c, habc⟩
    have h1 : parseBookContent content = .ok (bookFromFrontmatter b) := by
      simp [parseBookContent, hsplit]
    have h2 : parseBlogContent convert content slug =
        postFromParts convert slug b (TrimSpace c) := by
      simp [parseBlogContent, hsplit]
    refine ⟨?_, ?_, fun _ => ⟨a, b, c, habc, hmin1, hmin2, h1, h2, ?_⟩⟩
    · rw [h1]
      constructor
      · intro h; cases h
      · intro h; exact absurd hex h
    · rw [h2]
      constructor
      · intro h; exact absurd h (postFromParts_ne_invalid _ _ _ _)
      · intro h; exact absurd hex h
    · intro html hc
      rw [h2]
      simp [postFromParts, hc]

/-! ## Progress -/

theorem F64.round_m_nonneg (m e : Int) (h : 0 ≤ m) : 0 ≤ (F64.round m e).m := by
  unfold F64.round
  simp only [not_lt.2 h, if_false]
  exact Int.ofNat_nonneg _

theorem F64.div_m_nonneg (x y : F64) (hx : 0 ≤ x.m) (hy : 0 ≤ y.m) : 0 ≤ (F64.div x y).m := by
  unfold F64.div
  simp only [not_lt.2 hx, not_lt.2 hy, if_true]
  exact F64.round_m_nonneg _ _ (Int.ofNat_nonneg _)

theorem F64.mul_m_nonneg (x y : F64) (hx : 0 ≤ x.m) (hy : 0 ≤ y.m) : 0 ≤ (F64.mul x y).m :=
  F64.round_m_nonneg _ _ (Int.mul_nonneg hx hy)

theorem F64.zero_le_of_m_nonneg (x : F64) (hx : 0 ≤ x.m) : F64.le (F64.ofInt 0) x = true := by
  have h0 : F64.ofInt 0 = ⟨0, 0⟩ := by decide
  rw [h0]
  unfold F64.le F64.lt
  simp only [Bool.not_eq_true', decide_eq_false_iff_not, not_lt, zero_mul]
  exact Int.mul_nonneg hx (by positivity)

/-- A line of the frontmatter never writes the progress. -/
theorem bookLine_Progress (book : BookStats) (line : Str) :
    (bookLine book line).Progress = book.Progress := by
  unfold bookLine
  simp only
  repeat' split
  all_goals rfl

theorem foldl_bookLine_Progress (lines : List Str) : ∀ book : BookStats,
    (lines.foldl bookLine book).Progress = book.Progress := by
  induction lines with
  | nil => intro book; rfl
  | cons l ls ih => intro book; rw [List.foldl_cons, ih, bookLine_Progress]

/-- Bounds of the progress of the record built from a frontmatter block. -/
theorem bookFromFrontmatter_Progress (fm : Str) :
    F64.le (bookFromFrontmatter fm).Progress (F64.ofInt 100) = true ∧
    ((0 ≤ (bookFromFrontmatter fm).CurrentPage ∨ (bookFromFrontmatter fm).Pages ≤ 0) →
      F64.le (F64.ofInt 0) (bookFromFrontmatter fm).Progress = true) := by
  unfold bookFromFrontmatter
  generalize hb : (Split fm ['\n']).foldl bookLine {} = b
  have hp : b.Progress = ⟨0, 0⟩ := by rw [← hb, foldl_bookLine_Progress]
  unfold withReadingTime withProgress
  by_cases hpages : b.Pages > 0
  · simp only [hpages, if_true]
    split
    · dsimp only
      exact ⟨by decide, fun _ => by decide⟩
    · rename_i hlt
      dsimp only
      refine ⟨by simpa [F64.le] using hlt, ?_⟩
      rintro (hcp | hpg)
      · apply F64.zero_le_of_m_nonneg
        apply F64.mul_m_nonneg _ _ _ (by decide)
        exact F64.div_m_nonneg _ _ (F64.round_m_nonneg _ _ hcp) (F64.round_m_nonneg _ _ hpages.le)
      · exact absurd hpg (by simpa using hpages)
  · simp only [hpages, if_false, hp]
    exact ⟨by decide, fun _ => by decide⟩

/-! ## Sorting -/

theorem insertLeft_perm {α : Type} (less : α → α → Bool) (x : α) :
    ∀ l : List α, (insertLeft less x l).Perm (x :: l) := by
  intro l
  induction l with
  | nil => exact List.Perm.refl _
  | cons y ys ih =>
    unfold insertLeft
    split
    · exact ((List.Perm.cons y ih).trans (List.Perm.swap x y ys))
    · exact List.Perm.refl _

theorem foldl_insertLeft_perm {α : Type} (less : α → α → Bool) (s : List α) :
    ∀ acc : List α,
      (s.foldl (fun sorted x => insertLeft less x sorted) acc).Perm (s.reverse ++ acc) := by
  induction s with
  | nil => intro acc; exact List.Perm.refl _
  | cons x xs ih =>
    intro acc
    rw [List.foldl_cons, List.reverse_cons, List.append_assoc]
    exact (ih _).trans (List.Perm.append_left _ (insertLeft_perm less x acc))

/-- The sort returns a permutation of the slice. -/
theorem sortSlice_perm {α : Type} (less : α → α → Bool) (s : List α) :
    (sortSlice less s).Perm s := by
  unfold sortSlice
  refine (List.reverse_perm _).trans ?_
  have := foldl_insertLeft_perm less s []
  rw [List.append_nil] at this
  exact this.trans (List.reverse_perm s)

theorem insertLeft_pairwise {α : Type} (less : α → α → Bool)
    (hasym : ∀ a b, less a b = true → less b a = false)
    (hnt : ∀ a b c, less a c = true → less a b = true ∨ less b c = true) (x : α) :
    ∀ l : List α, l.Pairwise (fun a b => less a b = false) →
      (insertLeft less x l).Pairwise (fun a b => less a b = false) := by
  intro l
  induction l with
  | nil => intro _; simp [insertLeft]
  | cons y ys ih =>
    intro hp
    rw [List.pairwise_cons] at hp
    unfold insertLeft
    split
    · rename_i hxy
      rw [List.pairwise_cons]
      refine ⟨?_, ih hp.2⟩
      intro w hw
      rcases (List.mem_cons.1 ((insertLeft_perm less x ys).subset hw)) with h | h
      · subst h; exact hasym _ _ hxy
      · exact hp.1 w h
    · rename_i hxy
      rw [List.pairwise_cons]
      refine ⟨?_, List.pairwise_cons.2 hp⟩
      intro w hw
      rcases List.mem_cons.1 hw with h | h
      · subst h; simpa using hxy
      · cases hxw : less x w with
        | false => rfl
        | true =>
          rcases hnt x y w hxw with h1 | h1
          · exact absurd h1 hxy
          · rw [hp.1 w h] at h1; cases h1

theorem foldl_insertLeft_pairwise {α : Type} (less : α → α → Bool)
    (hasym : ∀ a b, less a b = true → less b a = false)
    (hnt : ∀ a b c, less a c = true → less a b = true ∨ less b c = true) (s : List α) :
    ∀ acc : List α, acc.Pairwise (fun a b => less a b = false) →
      (s.foldl (fun sorted x => insertLeft less x sorted) acc).Pairwise
        (fun a b => less a b = false) := by
  induction s with
  | nil => intro acc h; exact h
  | cons x xs ih =>
    intro acc h
    rw [List.foldl_cons]
    exact ih _ (insertLeft_pairwise less hasym hnt x acc h)

/-- The sort leaves no element after one it is `less` than, when `less` is a strict weak
order. -/
theorem sortSlice_sorted {α : Type} (less : α → α → Bool)
    (hasym : ∀ a b, less a b = true → less b a = false)
    (hnt : ∀ a b c, less a c = true → less a b = true ∨ less b c = true) (s : List α) :
    (sortSlice less s).Pairwise (fun a b => less b a = false) := by
  unfold sortSlice
  rw [List.pairwise_reverse]
  exact foldl_insertLeft_pairwise less hasym hnt s [] List.Pairwise.nil

theorem Time.After_asymm (t u : Time) (h : t.After u = true) : u.After t = false := by
  unfold Time.After at *
  simp only [Bool.or_eq_true, Bool.and_eq_true, decide_eq_true_eq, Bool.or_eq_false_iff,
    Bool.and_eq_false_iff, decide_eq_false_iff_not] at *
  omega

theorem Time.After_negtrans (t u v : Time) (h : t.After v = true) :
    t.After u = true ∨ u.After v = true := by
  unfold Time.After at *
  simp only [Bool.or_eq_true, Bool.and_eq_true, decide_eq_true_eq] at *
  omega

/-! ## Dates and post ordering -/

theorem char_of_toNat (c : Char) (n : Nat) (h : c.toNat = n) : c = Char.ofNat n := by
  rw [← h, Char.ofNat_toNat]

theorem daysSinceEpoch_pos (Y M D : Nat) (hY : 1 ≤ Y) (hM1 : 1 ≤ M) (hM2 : M ≤ 12) (hD : 1 ≤ D)
    (hne : ¬ (Y = 1 ∧ M = 1 ∧ D = 1)) : 0 < Time.daysSinceEpoch (Y : Int) M (D : Int) := by
  unfold Time.daysSinceEpoch
  have hleap : (0 : Int) ≤ (if Time.isLeap (Y : Int) = true ∧ M ≥ 3 then 1 else 0) := by
    split <;> omega
  generalize (if Time.isLeap (Y : Int) = true ∧ M ≥ 3 then (1 : Int) else 0) = lp at hleap
  have hb : (0 : Int) ≤ Time.daysBefore M ∧ (M ≠ 1 → 0 < Time.daysBefore M) := by
    interval_cases M <;> simp [Time.daysBefore]
  obtain ⟨hb1, hb2⟩ := hb
  generalize Time.daysBefore M = db at hb1 hb2
  simp only
  by_cases h1 : M = 1
  · omega
  · have := hb2 h1
    omega

/-- A date that parses, is not of the year 0000 and is not 0001-01-01, is later than the
zero time. -/
theorem Parse_after_zero (v : Str) (t : Time) (h : Time.Parse v = some t)
    (hy : v.take 4 ≠ "0000".toList) (hv : v ≠ "0001-01-01".toList) : t.After Time.zero = true := by
  unfold Time.Parse at h
  split at h
  · rename_i y1 y2 y3 y4 s1 m1 m2 s2 d1 d2
    split at h
    · rename_i hd
      simp only [Bool.and_eq_true, decide_eq_true_eq, isDigit] at hd
      obtain ⟨⟨⟨⟨⟨⟨⟨⟨⟨hy1, hy2⟩, hy3⟩, hy4⟩, hs1⟩, hm1⟩, hm2⟩, hs2⟩, hd1⟩, hd2⟩ := hd
      simp only [digitsValue, List.foldl_cons, List.foldl_nil] at h
      split at h
      · cases h
      · split at h
        · cases h
        · rename_i hm hday
          cases h
          have hpos := daysSinceEpoch_pos
            (10 * (10 * (10 * (10 * 0 + (y1.toNat - 48)) + (y2.toNat - 48)) + (y3.toNat - 48)) + (y4.toNat - 48))
            (10 * (10 * 0 + (m1.toNat - 48)) + (m2.toNat - 48))
            (10 * (10 * 0 + (d1.toNat - 48)) + (d2.toNat - 48))
            (by
              by_contra hc
              apply hy
              have e1 := char_of_toNat y1 48 (by omega)
              have e2 := char_of_toNat y2 48 (by omega)
              have e3 := char_of_toNat y3 48 (by omega)
              have e4 := char_of_toNat y4 48 (by omega)
              subst e1 e2 e3 e4
              rfl)
            (by omega) (by omega) (by omega)
            (by
              rintro ⟨hY, hM, hD⟩
              apply hv
              have e1 := char_of_toNat y1 48 (by omega)
              have e2 := char_of_toNat y2 48 (by omega)
              have e3 := char_of_toNat y3 48 (by omega)
              have e4 := char_of_toNat y4 49 (by omega)
              have e5 := char_of_toNat m1 48 (by omega)
              have e6 := char_of_toNat m2 49 (by omega)
              have e7 := char_of_toNat d1 48 (by omega)
              have e8 := char_of_toNat d2 49 (by omega)
              subst e1 e2 e3 e4 e5 e6 e7 e8 hs1 hs2
              rfl)
          unfold Time.After Time.Date Time.zero
          simp only [Bool.or_eq_true, decide_eq_true_eq]
          left
          push_cast at hpos ⊢
          omega
    · cases h
  · cases h

/-- C6 (amended). Post ordering: the sort applied before rendering and feed projection
yields a permutation of the loaded posts in which `rawDate` is non-increasing; no post
whose `rawDate` is later than the zero time comes after a post with zero `rawDate` (absent
or unparseable date); a date that parses is later than the zero time unless it is of the
year 0000 or is 0001-01-01; posts dated 2024-01-01, 2024-06-01 and one undated, in any
order, are sorted as 2024-06-01, 2024-01-01, undated. -/
theorem C6_post_ordering (posts : List BlogPost) :
    (sortPosts posts).Perm posts ∧
    (sortPosts posts).Pairwise (fun a b => b.RawDate.After a.RawDate = false) ∧
    (sortPosts posts).Pairwise
      (fun a b => a.RawDate = Time.zero → b.RawDate.After Time.zero = false) ∧
    (∀ v t, Time.Parse v = some t → v.take 4 ≠ "0000".toList → v ≠ "0001-01-01".toList →
      t.After Time.zero = true) ∧
    (Time.Parse "2024-01-01".toList = some exJan.RawDate ∧
      Time.Parse "2024-06-01".toList = some exJun.RawDate ∧
      exUndated.RawDate = Time.zero ∧
      ∀ l ∈ [[exJan, exJun, exUndated], [exJan, exUndated, exJun], [exJun, exJan, exUndated],
          [exJun, exUndated, exJan], [exUndated, exJan, exJun], [exUndated, exJun, exJan]],
        sortPosts l = [exJun, exJan, exUndated]) := by
  have hsorted : (sortPosts posts).Pairwise (fun a b => b.RawDate.After a.RawDate = false) :=
    sortSlice_sorted (fun a b : BlogPost => a.RawDate.After b.RawDate)
      (fun a b => Time.After_asymm a.RawDate b.RawDate)
      (fun a b c => Time.After_negtrans a.RawDate b.RawDate c.RawDate) posts
  refine ⟨sortSlice_perm _ posts, hsorted, ?_, Parse_after_zero, ?_⟩
  · exact hsorted.imp (fun {a b} h hz => by rw [hz] at h; exact h)
  · refine ⟨by rfl, by rfl, by rfl, by decide⟩

/-- C6, counterexample to the claim as stated: `a.md` carries the parseable date
0000-06-01, `b.md` carries no date, and the sort puts the undated post first. -/
theorem C6_undated_before_dated :
    loadBlogPostsForRSS yearZeroFS = .ok [yearZeroOld, yearZeroUndated] ∧
    Time.Parse "0000-06-01".toList = some yearZeroOld.RawDate ∧
    yearZeroUndated.RawDate = Time.zero ∧
    sortPosts [yearZeroOld, yearZeroUndated] = [yearZeroUndated, yearZeroOld] := by
  refine ⟨by rfl, by rfl, by rfl, by decide⟩

/-! ## Formatting of dates -/

/-- The year and the day of the year are read back from the day count of a civil date. -/
theorem Time.yearDay_daysSinceEpoch (y yd : Int) (h0 : 0 ≤ yd)
    (h1 : yd < 365 + (if Time.isLeap y = true then 1 else 0)) :
    Time.yearDay (365 * (y - 1) + (y - 1) / 4 - (y - 1) / 100 + (y - 1) / 400 + yd) = (y, yd) := by
  have hleap : Time.isLeap y = true ↔ (y % 4 = 0 ∧ (y % 100 ≠ 0 ∨ y % 400 = 0)) := by
    simp [Time.isLeap]
  have h1b : yd < 365 ∨ (yd = 365 ∧ y % 4 = 0 ∧ (y % 100 ≠ 0 ∨ y % 400 = 0)) := by
    by_cases hl : Time.isLeap y = true
    · rw [if_pos hl] at h1
      have := hleap.mp hl
      omega
    · rw [if_neg hl] at h1
      omega
  clear h1 hleap
  obtain ⟨a, b, c, e, hy, hb0, hb3, hc0, hc24, he0, he3⟩ :
      ∃ a b c e : Int, y - 1 = 400 * a + 100 * b + 4 * c + e ∧ 0 ≤ b ∧ b ≤ 3 ∧ 0 ≤ c ∧
        c ≤ 24 ∧ 0 ≤ e ∧ e ≤ 3 :=
    ⟨(y - 1) / 400, (y - 1) % 400 / 100, (y - 1) % 100 / 4, (y - 1) % 4,
      by omega, by omega, by omega, by omega, by omega, by omega, by omega⟩
  have q4 : (y - 1) / 4 = 100 * a + 25 * b + c := by omega
  have q100 : (y - 1) / 100 = 4 * a + b := by omega
  have q400 : (y - 1) / 400 = a := by omega
  have hd : 365 * (y - 1) + (y - 1) / 4 - (y - 1) / 100 + (y - 1) / 400 + yd =
      146097 * a + (36524 * b + 1461 * c + 365 * e + yd) := by
    rw [q4, q100, q400, hy]; ring
  have hyd : yd < 365 ∨ (yd = 365 ∧ e = 3 ∧ (c ≠ 24 ∨ b = 3)) := by omega
  rw [hd]
  have hy2 : y = 400 * a + 100 * b + 4 * c + e + 1 := by omega
  clear hd q4 q100 q400 h1b hy
  subst hy2
  unfold Time.yearDay
  simp only
  have s1 : (146097 * a + (36524 * b + 1461 * c + 365 * e + yd)) / 146097 = a := by omega
  have s2 : (146097 * a + (36524 * b + 1461 * c + 365 * e + yd)) % 146097 =
      36524 * b + 1461 * c + 365 * e + yd := by omega
  rw [s1, s2]
  have s3 : min ((36524 * b + 1461 * c + 365 * e + yd) / 36524) 3 = b := by omega
  rw [s3]
  have s4 : 36524 * b + 1461 * c + 365 * e + yd - 36524 * b = 1461 * c + 365 * e + yd := by
    ring
  rw [s4]
  have s5 : (1461 * c + 365 * e + yd) / 1461 = c := by omega
  have s6 : (1461 * c + 365 * e + yd) % 1461 = 365 * e + yd := by omega
  rw [s5, s6]
  have s7 : min ((365 * e + yd) / 365) 3 = e := by omega
  rw [s7]
  ext
  · simp only
  · simp only
    ring

/-- The month and the day of the month are read back from the day of the year. -/
theorem Time.monthDay_of_yday (y : Int) (M : Nat) (D yd lp : Int)
    (hlp : lp = if Time.isLeap y = true then 1 else 0) (hlp01 : lp = 0 ∨ lp = 1)
    (h : (M = 1 ∧ yd = D - 1 ∧ D ≤ 31) ∨ (M = 2 ∧ yd = 31 + (D - 1) ∧ D ≤ 28 + lp) ∨
      (M = 3 ∧ yd = 59 + lp + (D - 1) ∧ D ≤ 31) ∨ (M = 4 ∧ yd = 90 + lp + (D - 1) ∧ D ≤ 30) ∨
      (M = 5 ∧ yd = 120 + lp + (D - 1) ∧ D ≤ 31) ∨ (M = 6 ∧ yd = 151 + lp + (D - 1) ∧ D ≤ 30) ∨
      (M = 7 ∧ yd = 181 + lp + (D - 1) ∧ D ≤ 31) ∨ (M = 8 ∧ yd = 212 + lp + (D - 1) ∧ D ≤ 31) ∨
      (M = 9 ∧ yd = 243 + lp + (D - 1) ∧ D ≤ 30) ∨ (M = 10 ∧ yd = 273 + lp + (D - 1) ∧ D ≤ 31) ∨
      (M = 11 ∧ yd = 304 + lp + (D - 1) ∧ D ≤ 30) ∨ (M = 12 ∧ yd = 334 + lp + (D - 1) ∧ D ≤ 31))
    (hD1 : 1 ≤ D) :
    Time.monthDay y yd = (M, D) := by
  unfold Time.monthDay
  rw [← hlp]
  dsimp only
  rcases h with h | h | h | h | h | h | h | h | h | h | h | h <;>
    obtain ⟨hM, hyd, hD⟩ := h <;> subst hM <;>
    (repeat (first | rw [if_pos (by omega)] | rw [if_neg (by omega)])) <;>
    (refine Prod.ext rfl ?_; dsimp only; omega)

/-- The civil date of `time.Date(y, M, D, ...)` for an existing day is `y`, `M`, `D`. -/
theorem Time.Date_civil (y : Int) (M : Nat) (D : Int) (hM1 : 1 ≤ M) (hM2 : M ≤ 12)
    (hD1 : 1 ≤ D) (hD2 : D ≤ Time.daysIn M y) :
    (Time.Date y M D).Year = y ∧ (Time.Date y M D).Month = M ∧ (Time.Date y M D).Day = D := by
  obtain ⟨lp, hlp⟩ : ∃ lp : Int, lp = if Time.isLeap y = true then 1 else 0 := ⟨_, rfl⟩
  have hlp01 : lp = 0 ∨ lp = 1 := by
    rw [hlp]; split <;> simp
  obtain ⟨yd, hyd⟩ : ∃ yd : Int, yd =
      Time.daysBefore M + (if Time.isLeap y = true ∧ M ≥ 3 then 1 else 0) + (D - 1) := ⟨_, rfl⟩
  have hlp3 : (if Time.isLeap y = true ∧ M ≥ 3 then (1 : Int) else 0) =
      if M ≥ 3 then lp else 0 := by
    rw [hlp]
    by_cases hl : Time.isLeap y = true <;> by_cases h3 : M ≥ 3 <;> simp [hl, h3]
  have hin : Time.daysIn M y = if M = 2 then 28 + lp else
      Time.daysBefore (M + 1) - Time.daysBefore M := by
    unfold Time.daysIn
    rw [hlp]
    by_cases hl : Time.isLeap y = true <;> by_cases h2 : M = 2 <;> simp [hl, h2]
    all_goals rfl
  rw [hlp3] at hyd
  rw [hin] at hD2
  have tb : (M = 1 ∧ yd = D - 1 ∧ D ≤ 31) ∨ (M = 2 ∧ yd = 31 + (D - 1) ∧ D ≤ 28 + lp) ∨
      (M = 3 ∧ yd = 59 + lp + (D - 1) ∧ D ≤ 31) ∨ (M = 4 ∧ yd = 90 + lp + (D - 1) ∧ D ≤ 30) ∨
      (M = 5 ∧ yd = 120 + lp + (D - 1) ∧ D ≤ 31) ∨ (M = 6 ∧ yd = 151 + lp + (D - 1) ∧ D ≤ 30) ∨
      (M = 7 ∧ yd = 181 + lp + (D - 1) ∧ D ≤ 31) ∨ (M = 8 ∧ yd = 212 + lp + (D - 1) ∧ D ≤ 31) ∨
      (M = 9 ∧ yd = 243 + lp + (D - 1) ∧ D ≤ 30) ∨ (M = 10 ∧ yd = 273 + lp + (D - 1) ∧ D ≤ 31) ∨
      (M = 11 ∧ yd = 304 + lp + (D - 1) ∧ D ≤ 30) ∨
      (M = 12 ∧ yd = 334 + lp + (D - 1) ∧ D ≤ 31) := by
    interval_cases M <;> simp [Time.daysBefore] at hyd hD2 ⊢ <;> omega
  have hmd := Time.monthDay_of_yday y M D yd lp hlp hlp01 tb hD1
  have r0 : 0 ≤ yd := by omega
  have r1 : yd < 365 + (if Time.isLeap y = true then 1 else 0) := by rw [← hlp]; omega
  have hy := Time.yearDay_daysSinceEpoch y yd r0 r1
  have hsec : (Time.Date y M D).localSec / 86400 =
      365 * (y - 1) + (y - 1) / 4 - (y - 1) / 100 + (y - 1) / 400 + yd := by
    have hdays : Time.daysSinceEpoch y M D =
        365 * (y - 1) + (y - 1) / 4 - (y - 1) / 100 + (y - 1) / 400 + yd := by
      simp only [Time.daysSinceEpoch]
      rw [hyd, ← hlp3]
      ring
    simp only [Time.Date, Time.localSec]
    omega
  refine ⟨?_, ?_, ?_⟩
  · simp only [Time.Year, hsec, hy]
  · simp only [Time.Month, hsec, hy, hmd]
  · simp only [Time.Day, hsec, hy, hmd]

/-- The decimal digits do not depend on the bound of the recursion, once it is large
enough. -/
theorem natDigits_fuel : ∀ (f1 f2 n : Nat), n < f1 → n < f2 →
    natDigits f1 n = natDigits f2 n := by
  intro f1
  induction f1 with
  | zero => intro f2 n h; omega
  | succ f ih =>
    intro f2 n h1 h2
    cases f2 with
    | zero => omega
    | succ g =>
      unfold natDigits
      split
      · rfl
      · rw [ih g (n / 10) (by omega) (by omega)]

theorem natDigits_step (n : Nat) :
    natDigits (n + 1) n =
      if n < 10 then [Char.ofNat (48 + n)]
      else natDigits (n / 10 + 1) (n / 10) ++ [Char.ofNat (48 + n % 10)] := by
  conv_lhs => unfold natDigits
  split
  · rfl
  · rw [natDigits_fuel n (n / 10 + 1) (n / 10) (by omega) (by omega)]

theorem natDigits_length_pos (n : Nat) : 0 < (natDigits (n + 1) n).length := by
  rw [natDigits_step]
  split <;> simp

theorem digitsValue_snoc (ds : Str) (c : Char) :
    digitsValue (ds ++ [c]) = 10 * digitsValue ds + (c.toNat - 48) := by
  simp [digitsValue, List.foldl_append]

theorem digitChar_eq (c : Char) (h : isDigit c = true) : Char.ofNat (48 + (c.toNat - 48)) = c := by
  simp only [isDigit, Bool.and_eq_true, decide_eq_true_eq] at h
  have : 48 + (c.toNat - 48) = c.toNat := by omega
  rw [this, Char.ofNat_toNat]

/-- The zero-padded decimal text of the value of a run of digits is the run itself. -/
theorem padded_digitsValue (ds : Str) :
    (∀ c ∈ ds, isDigit c = true) → ds ≠ [] →
    List.replicate (ds.length - (natDigits (digitsValue ds + 1) (digitsValue ds)).length) '0' ++
      natDigits (digitsValue ds + 1) (digitsValue ds) = ds ∧
    (natDigits (digitsValue ds + 1) (digitsValue ds)).length ≤ ds.length := by
  induction ds using List.reverseRecOn with
  | nil => intro _ h; exact absurd rfl h
  | append_singleton init c ih =>
    intro hds _
    have hc : isDigit c = true := hds c (by simp)
    have hinit : ∀ x ∈ init, isDigit x = true := fun x hx => hds x (by simp [hx])
    have hcn : c.toNat - 48 < 10 := by
      simp only [isDigit, Bool.and_eq_true, decide_eq_true_eq] at hc
      omega
    rw [digitsValue_snoc, natDigits_step]
    by_cases hnil : init = []
    · subst hnil
      have hv : digitsValue [] = 0 := rfl
      rw [hv]
      simp only [Nat.mul_zero, Nat.zero_add]
      rw [if_pos hcn, digitChar_eq c hc]
      simp
    · obtain ⟨ih1, ih2⟩ := ih hinit hnil
      by_cases h10 : 10 * digitsValue init + (c.toNat - 48) < 10
      · rw [if_pos h10]
        have hv : digitsValue init = 0 := by omega
        rw [hv] at ih1 ih2
        have hnd : natDigits (0 + 1) 0 = ['0'] := by rfl
        rw [hnd] at ih1 ih2
        simp only [List.length_singleton] at ih1 ih2
        rw [hv]
        simp only [Nat.mul_zero, Nat.zero_add]
        rw [digitChar_eq c hc]
        constructor
        · simp only [List.length_append, List.length_singleton, Nat.add_sub_cancel]
          have : List.replicate init.length '0' = init := by
            have e : init.length = (init.length - 1) + 1 := by omega
            rw [e, List.replicate_succ']
            simpa using ih1
          rw [this]
        · simp
      · rw [if_neg h10]
        have hq : (10 * digitsValue init + (c.toNat - 48)) / 10 = digitsValue init := by omega
        have hr : (10 * digitsValue init + (c.toNat - 48)) % 10 = c.toNat - 48 := by omega
        rw [hq, hr, digitChar_eq c hc]
        constructor
        · simp only [List.length_append, List.length_singleton, Nat.add_sub_add_right]
          rw [← List.append_assoc, ih1]
        · simp only [List.length_append, List.length_singleton]
          omega

theorem appendInt_digitsValue (ds : Str) (hds : ∀ c ∈ ds, isDigit c = true) (hne : ds ≠ []) :
    appendInt (digitsValue ds : Int) ds.length = ds := by
  unfold appendInt
  have hna : ((digitsValue ds : Nat) : Int).natAbs = digitsValue ds := Int.natAbs_ofNat _
  have hnn : ¬ ((digitsValue ds : Nat) : Int) < 0 := by omega
  simp only [hna, if_neg hnn]
  exact (padded_digitsValue ds hds hne).1

/-- A date that parses is formatted back to its own text: `t.Format("2006-01-02")` of the
result of `time.Parse("2006-01-02", s)` is `s`. -/
theorem Time.FormatDate_Parse (s : Str) (t : Time) (h : Time.Parse s = some t) :
    t.FormatDate = s := by
  unfold Time.Parse at h
  split at h
  · rename_i y1 y2 y3 y4 s1 m1 m2 s2 d1 d2
    split at h
    · rename_i hd
      simp only [Bool.and_eq_true, decide_eq_true_eq] at hd
      obtain ⟨⟨⟨⟨⟨⟨⟨⟨⟨hy1, hy2⟩, hy3⟩, hy4⟩, hs1⟩, hm1⟩, hm2⟩, hs2⟩, hd1⟩, hd2⟩ := hd
      dsimp only at h
      split at h
      · cases h
      · split at h
        · cases h
        · rename_i hm hday
          cases h
          have hM1 : 1 ≤ digitsValue [m1, m2] := by omega
          have hM2 : digitsValue [m1, m2] ≤ 12 := by omega
          have hD1 : (1 : Int) ≤ (digitsValue [d1, d2] : Int) := by omega
          have hD2 : (digitsValue [d1, d2] : Int) ≤
              Time.daysIn (digitsValue [m1, m2]) (digitsValue [y1, y2, y3, y4] : Int) := by
            omega
          obtain ⟨cy, cm, cd⟩ := Time.Date_civil _ _ _ hM1 hM2 hD1 hD2
          have ey := appendInt_digitsValue [y1, y2, y3, y4]
            (by intro c hc; simp at hc; rcases hc with e | e | e | e <;> rw [e] <;> assumption)
            (by simp)
          have em := appendInt_digitsValue [m1, m2]
            (by intro c hc; simp at hc; rcases hc with e | e <;> rw [e] <;> assumption)
            (by simp)
          have ed := appendInt_digitsValue [d1, d2]
            (by intro c hc; simp at hc; rcases hc with e | e <;> rw [e] <;> assumption)
            (by simp)
          simp only [List.length_cons, List.length_nil] at ey em ed
          unfold Time.FormatDate
          rw [cy, cm, cd, ey, em, ed, hs1, hs2]
          rfl
    · cases h
  · cases h

/-! ## Feed and sitemap projection -/

theorem foldl_append_singleton {α β : Type} (f : α → β) (l : List α) :
    ∀ acc : List β, l.foldl (fun acc x => acc ++ [f x]) acc = acc ++ l.map f := by
  induction l with
  | nil => intro acc; simp
  | cons x xs ih => intro acc; rw [List.foldl_cons, ih]; simp

theorem feedItems_eq_map (posts : List BlogPost) : feedItems posts = posts.map itemOf := by
  unfold feedItems
  rw [foldl_append_singleton itemOf posts []]
  rfl

/-- C8. Feed projection: the item list of `buildRSSFeed` has one item per post, in the
same order, the item of a post carrying its title, its excerpt as description, the link
`https://andrej.sh/blog/` followed by its slug, and that link again as GUID (with the
rendered date as `pubDate`); the request-time feed and the build-time feed are this
projection of the sorted loaded posts. -/
theorem C8_feed_projection (now : Time) (posts : List BlogPost) :
    (buildRSSFeed now posts).Channel.Items =
      posts.map (fun p =>
        { Title := p.Title
          Link := "https://andrej.sh/blog/".toList ++ p.Slug
          Description := p.Excerpt
          PubDate := p.RawDate.FormatRFC1123Z
          GUID := "https://andrej.sh/blog/".toList ++ p.Slug }) ∧
    (buildRSSFeed now posts).Channel.Items.length = posts.length ∧
    (∀ it ∈ (buildRSSFeed now posts).Channel.Items, it.GUID = it.Link) ∧
    (∀ fs, loadBlogPostsForRSS fs = .ok posts →
      ∃ feed, RSS fs now = some feed ∧
        feed.Channel.Items = (buildRSSFeed now (sortPosts posts)).Channel.Items) ∧
    (∀ convert fs, loadBlogPosts convert fs = .ok posts →
      (mainBlog convert fs now).1 = some (buildRSSFeed now (sortPosts posts))) := by
  have hitems : (buildRSSFeed now posts).Channel.Items = posts.map itemOf := by
    simp [buildRSSFeed, feedOf, feedItems_eq_map]
  refine ⟨?_, ?_, ?_, ?_, ?_⟩
  · rw [hitems]; rfl
  · rw [hitems, List.length_map]
  · intro it hit
    rw [hitems, List.mem_map] at hit
    obtain ⟨p, _, hp⟩ := hit
    rw [← hp]; rfl
  · intro fs hload
    exact ⟨feedOf now (sortPosts posts), by simp [RSS, hload], rfl⟩
  · intro convert fs hload
    simp [mainBlog, hload]

/-- C9. Sitemap projection: the URL set of `buildSitemap` for `n` posts (none included) has
`3 + n` entries: the home, blog index and books index entries with priorities 1.0, 0.9,
0.8 and change frequencies weekly, weekly, monthly, then one entry per post in list order
with `loc` `https://andrej.sh/blog/<slug>`, `lastmod` the `rawDate` as `YYYY-MM-DD`,
`changefreq` monthly and priority 0.7; `main` builds it from the sorted posts, or from no
post when loading failed. The `lastmod` text is the year in four digits, the month and the
day in two, joined by `-`: for a `rawDate` parsed from a date text it is that very text,
for the zero time it is `0001-01-01`, and the posts `parsedPost` (2024-06-01) and the
empty post get `2024-06-01` and `0001-01-01`. The priorities are the `float64` numbers
nearest to 1, 0.9, 0.8 and 0.7, with significands `0x1CCCCCCCCCCCCD`, `0x1999999999999A`
and `0x16666666666666` at exponent -53 for the last three. -/
theorem C9_sitemap_projection (posts : List BlogPost) :
    (buildSitemap posts).URLs =
      [ { Loc := "https://andrej.sh/".toList, LastMod := [], ChangeFreq := "weekly".toList,
          Priority := F64.ofInt 1 },
        { Loc := "https://andrej.sh/blog".toList, LastMod := [], ChangeFreq := "weekly".toList,
          Priority := F64.ofDecimal 9 10 },
        { Loc := "https://andrej.sh/books".toList, LastMod := [],
          ChangeFreq := "monthly".toList, Priority := F64.ofDecimal 8 10 } ] ++
      posts.map (fun p =>
        { Loc := "https://andrej.sh/blog/".toList ++ p.Slug
          LastMod := p.RawDate.FormatDate
          ChangeFreq := "monthly".toList
          Priority := F64.ofDecimal 7 10 }) ∧
    (buildSitemap posts).URLs.length = 3 + posts.length ∧
    (buildSitemap []).URLs.length = 3 ∧
    (∀ convert fs now, loadBlogPosts convert fs = .ok posts →
      (mainBlog convert fs now).2 = buildSitemap (sortPosts posts)) ∧
    (∀ convert fs now e, loadBlogPosts convert fs = .error e →
      (mainBlog convert fs now).2 = buildSitemap []) ∧
    (∀ t : Time, t.FormatDate =
      appendInt t.Year 4 ++ ['-'] ++ appendInt t.Month 2 ++ ['-'] ++ appendInt t.Day 2) ∧
    (∀ (s : Str) (t : Time), Time.Parse s = some t →
      t.FormatDate = s ∧ s.length = 10 ∧
      ∀ p : BlogPost, p.RawDate = t →
        (buildSitemap [p]).URLs.map (fun u => u.LastMod) = [[], [], [], s]) ∧
    Time.zero.FormatDate = "0001-01-01".toList ∧
    (buildSitemap [parsedPost, {}]).URLs.map (fun u => u.LastMod) =
      [[], [], [], "2024-06-01".toList, "0001-01-01".toList] ∧
    (buildSitemap [parsedPost, {}]).URLs.map (fun u => u.Priority) =
      [⟨1, 0⟩, ⟨0x1CCCCCCCCCCCCD, -53⟩, ⟨0x1999999999999A, -53⟩, ⟨0x16666666666666, -53⟩,
       ⟨0x16666666666666, -53⟩] := by
  have hurls : (buildSitemap posts).URLs =
      [ { Loc := "https://andrej.sh/".toList, LastMod := [], ChangeFreq := "weekly".toList,
          Priority := F64.ofInt 1 },
        { Loc := "https://andrej.sh/blog".toList, LastMod := [], ChangeFreq := "weekly".toList,
          Priority := F64.ofDecimal 9 10 },
        { Loc := "https://andrej.sh/books".toList, LastMod := [],
          ChangeFreq := "monthly".toList, Priority := F64.ofDecimal 8 10 } ] ++
      posts.map (fun p =>
        { Loc := "https://andrej.sh/blog/".toList ++ p.Slug
          LastMod := p.RawDate.FormatDate
          ChangeFreq := "monthly".toList
          Priority := F64.ofDecimal 7 10 }) := by
    unfold buildSitemap
    simp only
    rw [foldl_append_singleton]
    rfl
  refine ⟨hurls, ?_, by rfl, ?_, ?_, fun _ => rfl, ?_, by rfl, by rfl, by decide⟩
  · rw [hurls]; simp; omega
  · intro convert fs now hload
    simp [mainBlog, hload]
  · intro convert fs now e hload
    simp [mainBlog, hload]
  · intro s t hparse
    have hfmt := Time.FormatDate_Parse s t hparse
    refine ⟨hfmt, ?_, ?_⟩
    · unfold Time.Parse at hparse
      split at hparse
      · rfl
      · cases hparse
    · intro p hp
      rw [← hfmt, ← hp]
      rfl

/-- C9, witness: the sitemap of the post `parsedPost`, whose date `2024-06-01` parses, and
of the empty post has five entries, the last two with `lastmod` `2024-06-01` and
`0001-01-01`. -/
theorem C9_sitemap_projection_witness :
    Time.Parse "2024-06-01".toList = some parsedPost.RawDate ∧
    parsedPost.RawDate.FormatDate = "2024-06-01".toList ∧
    (buildSitemap [parsedPost, {}]).URLs.length = 3 + 2 ∧
    (buildSitemap [parsedPost, {}]).URLs.map (fun u => u.Loc) =
      ["https://andrej.sh/".toList, "https://andrej.sh/blog".toList,
       "https://andrej.sh/books".toList, "https://andrej.sh/blog/p".toList,
       "https://andrej.sh/blog/".toList] ∧
    (buildSitemap [parsedPost, {}]).URLs.map (fun u => u.LastMod) =
      [[], [], [], "2024-06-01".toList, "0001-01-01".toList] :=
  ⟨by rfl,
   ((C9_sitemap_projection [parsedPost, {}]).2.2.2.2.2.2.1 "2024-06-01".toList
      parsedPost.RawDate (by rfl)).1,
   (C9_sitemap_projection [parsedPost, {}]).2.1,
   by rfl,
   (C9_sitemap_projection [parsedPost, {}]).2.2.2.2.2.2.2.2.1⟩

/-! ## Loading the books -/

/-- A content without two delimiters is rejected by `parseBookFile`. -/
theorem parseBookFile_malformed (fs : FS) (filePath content : Str)
    (hread : fs.readFile filePath = some content)
    (hbad : ¬ ∃ a b c, content = a ++ delim ++ b ++ delim ++ c) :
    parseBookFile fs filePath = .error Err.invalidFrontmatter := by
  rcases split_cases content with ⟨_, hlen⟩ | ⟨a, b, c, habc, _⟩
  · simp [parseBookFile, hread, parseBookContent, hlen]
  · exact absurd ⟨a, b, c, habc⟩ hbad

theorem readingStep_withListing (fs : FS) (dir : Str) (names : List Str) :
    readingStep (fs.withListing dir names) = readingStep fs := by
  funext stats name
  rfl

theorem finishedStep_withListing (fs : FS) (dir : Str) (names : List Str) (year : Int) :
    finishedStep (fs.withListing dir names) year = finishedStep fs year := by
  funext stats name
  rfl

/-- C10. A book file with malformed frontmatter (the content does not hold two `---`) in
the reading or in the finished directory contributes nothing: `LoadBooksFromMarkdown`
returns exactly what it returns when the file is removed from the directory listing, the
same lists (so the file is in neither) and the same totals. -/
theorem C10_malformed_book_skipped (fs : FS) (now : Time) (dir : Str)
    (before after : List Str) (name content : Str)
    (hdir : dir = readingDir ∨ dir = finishedDir)
    (hlist : fs.readDir dir = some (before ++ name :: after))
    (hread : fs.readFile (Join dir name) = some content)
    (hbad : ¬ ∃ a b c, content = a ++ delim ++ b ++ delim ++ c) :
    LoadBooksFromMarkdown fs now =
      LoadBooksFromMarkdown (fs.withListing dir (before ++ after)) now := by
  have hparse := parseBookFile_malformed fs _ content hread hbad
  have hne : readingDir ≠ finishedDir := by decide
  unfold LoadBooksFromMarkdown
  simp only [readingStep_withListing, finishedStep_withListing]
  rcases hdir with hd | hd
  · subst hd
    have hstep : ∀ st, readingStep fs st name = st := by
      intro st
      unfold readingStep
      split
      · rfl
      · rw [hparse]
    have h1 : (fs.withListing readingDir (before ++ after)).readDir readingDir =
        some (before ++ after) := by simp [FS.withListing]
    have h2 : (fs.withListing readingDir (before ++ after)).readDir finishedDir =
        fs.readDir finishedDir := by
      simp [FS.withListing, hne.symm]
    have h3 : (fs.withListing readingDir (before ++ after)).stat = fs.stat := rfl
    rw [h1, h2, h3, hlist]
    simp only [List.foldl_append, List.foldl_cons, hstep]
  · subst hd
    have hstep : ∀ st, finishedStep fs now.Year st name = st := by
      intro st
      unfold finishedStep
      split
      · rfl
      · rw [hparse]
    have h1 : (fs.withListing finishedDir (before ++ after)).readDir finishedDir =
        some (before ++ after) := by simp [FS.withListing]
    have h2 : (fs.withListing finishedDir (before ++ after)).readDir readingDir =
        fs.readDir readingDir := by
      simp [FS.withListing, hne]
    have h3 : (fs.withListing finishedDir (before ++ after)).stat = fs.stat := rfl
    rw [h1, h2, h3, hlist]
    simp only [List.foldl_append, List.foldl_cons, hstep]

/-- A record returned by `parseBookFile` is the record of a frontmatter block. -/
theorem parseBookFile_ok (fs : FS) (filePath : Str) (book : BookStats)
    (h : parseBookFile fs filePath = .ok book) : ∃ fm, book = bookFromFrontmatter fm := by
  unfold parseBookFile at h
  cases hr : fs.readFile filePath with
  | none => rw [hr] at h; cases h
  | some content =>
    rw [hr] at h
    simp only [parseBookContent] at h
    split at h
    · cases h
    · cases h; exact ⟨_, rfl⟩

/-- Invariant of the loop over the reading directory. -/
theorem foldl_readingStep_inv (fs : FS) (Qc Qf : BookStats → Prop)
    (hQ : ∀ path b0, parseBookFile fs path = .ok b0 →
      Qc { b0 with Status := "reading".toList }) :
    ∀ (files : List Str) (st : ReadingStats),
      (∀ b ∈ st.CurrentBooks, Qc b) → (∀ b ∈ st.FinishedBooks, Qf b) →
      (∀ b ∈ (files.foldl (readingStep fs) st).CurrentBooks, Qc b) ∧
      (∀ b ∈ (files.foldl (readingStep fs) st).FinishedBooks, Qf b) := by
  intro files
  induction files with
  | nil => intro st h1 h2; exact ⟨h1, h2⟩
  | cons name rest ih =>
    intro st h1 h2
    rw [List.foldl_cons]
    apply ih
    · unfold readingStep
      split
      · exact h1
      · cases hp : parseBookFile fs (Join readingDir name) with
        | error e => exact h1
        | ok b0 =>
          intro b hb
          simp only [List.mem_append, List.mem_singleton] at hb
          rcases hb with hb | hb
          · exact h1 b hb
          · rw [hb]; exact hQ _ b0 hp
    · unfold readingStep
      split
      · exact h2
      · cases hp : parseBookFile fs (Join readingDir name) with
        | error e => exact h2
        | ok b0 => exact h2

/-- Invariant of the loop over the finished directory. -/
theorem foldl_finishedStep_inv (fs : FS) (year : Int) (Qc Qf : BookStats → Prop)
    (hQ : ∀ path b0, parseBookFile fs path = .ok b0 →
      Qf { b0 with Status := "finished".toList, Progress := F64.ofInt 100 }) :
    ∀ (files : List Str) (st : ReadingStats),
      (∀ b ∈ st.CurrentBooks, Qc b) → (∀ b ∈ st.FinishedBooks, Qf b) →
      (∀ b ∈ (files.foldl (finishedStep fs year) st).CurrentBooks, Qc b) ∧
      (∀ b ∈ (files.foldl (finishedStep fs year) st).FinishedBooks, Qf b) := by
  intro files
  induction files with
  | nil => intro st h1 h2; exact ⟨h1, h2⟩
  | cons name rest ih =>
    intro st h1 h2
    rw [List.foldl_cons]
    apply ih
    · unfold finishedStep
      split
      · exact h1
      · cases hp : parseBookFile fs (Join finishedDir name) with
        | error e => exact h1
        | ok b0 => exact h1
    · unfold finishedStep
      split
      · exact h2
      · cases hp : parseBookFile fs (Join finishedDir name) with
        | error e => exact h2
        | ok b0 =>
          intro b hb
          simp only [List.mem_append, List.mem_singleton] at hb
          rcases hb with hb | hb
          · exact h2 b hb
          · rw [hb]; exact hQ _ b0 hp

/-- What holds of every record marked `reading`, respectively `finished`, holds of every
record of the lists returned by `LoadBooksFromMarkdown`. -/
theorem LoadBooksFromMarkdown_inv (fs : FS) (now : Time) (Qc Qf : BookStats → Prop)
    (hQc : ∀ path b0, parseBookFile fs path = .ok b0 →
      Qc { b0 with Status := "reading".toList })
    (hQf : ∀ path b0, parseBookFile fs path = .ok b0 →
      Qf { b0 with Status := "finished".toList, Progress := F64.ofInt 100 })
    (stats : ReadingStats) (h : LoadBooksFromMarkdown fs now = .ok stats) :
    (∀ b ∈ stats.CurrentBooks, Qc b) ∧ (∀ b ∈ stats.FinishedBooks, Qf b) := by
  unfold LoadBooksFromMarkdown at h
  simp only at h
  have h0 : (∀ b ∈ ({} : ReadingStats).CurrentBooks, Qc b) ∧
      (∀ b ∈ ({} : ReadingStats).FinishedBooks, Qf b) :=
    ⟨fun b hb => (by cases hb), fun b hb => (by cases hb)⟩
  have hfin : ∀ st1 : ReadingStats, ((∀ b ∈ st1.CurrentBooks, Qc b) ∧
      (∀ b ∈ st1.FinishedBooks, Qf b)) →
      ∀ st2, (if fs.stat finishedDir = true then
          match fs.readDir finishedDir with
          | none => Except.error Err.io
          | some files => Except.ok (files.foldl (finishedStep fs now.Year) st1)
        else Except.ok st1) = Except.ok st2 →
      (∀ b ∈ st2.CurrentBooks, Qc b) ∧ (∀ b ∈ st2.FinishedBooks, Qf b) := by
    intro st1 hst1 st2 h2
    split at h2
    · cases hd : fs.readDir finishedDir with
      | none => rw [hd] at h2; cases h2
      | some files =>
        rw [hd] at h2
        cases h2
        exact foldl_finishedStep_inv fs now.Year Qc Qf hQf files st1 hst1.1 hst1.2
    · cases h2; exact hst1
  have hsort : ∀ st2 : ReadingStats, ((∀ b ∈ st2.CurrentBooks, Qc b) ∧
      (∀ b ∈ st2.FinishedBooks, Qf b)) →
      (∀ b ∈ sortSlice (fun a b => a.LastRead.After b.LastRead) st2.CurrentBooks, Qc b) ∧
      (∀ b ∈ sortSlice (fun a b => a.Finished.After b.Finished) st2.FinishedBooks, Qf b) :=
    fun st2 hst2 =>
      ⟨fun b hb => hst2.1 b ((sortSlice_perm _ _).subset hb),
       fun b hb => hst2.2 b ((sortSlice_perm _ _).subset hb)⟩
  split at h
  · cases h
  · rename_i st1 hst1
    have hst1inv : (∀ b ∈ st1.CurrentBooks, Qc b) ∧ (∀ b ∈ st1.FinishedBooks, Qf b) := by
      split at hst1
      · cases hd : fs.readDir readingDir with
        | none => rw [hd] at hst1; cases hst1
        | some files =>
          rw [hd] at hst1
          cases hst1
          exact foldl_readingStep_inv fs Qc Qf hQc files _ h0.1 h0.2
      · cases hst1; exact h0
    split at h
    · cases h
    · rename_i st2 hst2
      cases h
      exact hsort st2 (hfin st1 hst1inv st2 hst2)

/-- C2 (amended). For every book file with well-formed frontmatter, the record produced by
`parseBookFile` has `progress <= 100`, and `0 <= progress` when its `current_page` is not
negative or its `pages` is not positive; the same holds of every record of the lists
returned by `LoadBooksFromMarkdown`. -/
theorem C2_progress_bounds (fs : FS) (filePath : Str) (book : BookStats)
    (h : parseBookFile fs filePath = .ok book) :
    F64.le book.Progress (F64.ofInt 100) = true ∧
    ((0 ≤ book.CurrentPage ∨ book.Pages ≤ 0) → F64.le (F64.ofInt 0) book.Progress = true) ∧
    (∀ now stats, LoadBooksFromMarkdown fs now = .ok stats →
      ∀ b ∈ stats.CurrentBooks ++ stats.FinishedBooks,
        F64.le b.Progress (F64.ofInt 100) = true ∧
        ((0 ≤ b.CurrentPage ∨ b.Pages ≤ 0) → F64.le (F64.ofInt 0) b.Progress = true)) := by
  have hone : ∀ path b0, parseBookFile fs path = .ok b0 →
      F64.le b0.Progress (F64.ofInt 100) = true ∧
      ((0 ≤ b0.CurrentPage ∨ b0.Pages ≤ 0) → F64.le (F64.ofInt 0) b0.Progress = true) := by
    intro path b0 hb0
    obtain ⟨fm, hfm⟩ := parseBookFile_ok fs path b0 hb0
    rw [hfm]
    exact bookFromFrontmatter_Progress fm
  refine ⟨(hone _ _ h).1, (hone _ _ h).2, ?_⟩
  intro now stats hload b hb
  have hinv := LoadBooksFromMarkdown_inv fs now
    (fun b => F64.le b.Progress (F64.ofInt 100) = true ∧
      ((0 ≤ b.CurrentPage ∨ b.Pages ≤ 0) → F64.le (F64.ofInt 0) b.Progress = true))
    (fun b => F64.le b.Progress (F64.ofInt 100) = true ∧
      ((0 ≤ b.CurrentPage ∨ b.Pages ≤ 0) → F64.le (F64.ofInt 0) b.Progress = true))
    (fun path b0 hb0 => hone path b0 hb0)
    (fun path b0 hb0 => ⟨(by decide : F64.le (F64.ofInt 100) (F64.ofInt 100) = true),
      fun _ => (by decide : F64.le (F64.ofInt 0) (F64.ofInt 100) = true)⟩)
    stats hload
  rcases List.mem_append.1 hb with hb | hb
  · exact hinv.1 b hb
  · exact hinv.2 b hb

/-- C2, witness: the bounds at a book at page 100 of 300. -/
theorem C2_progress_bounds_witness :
    parseBookFile hundredPagesFS bookPath =
      .ok { Title := "H".toList, Pages := 300, CurrentPage := 100,
            Progress := ⟨4691249611844266, -47⟩, TotalReadingTime := 125 } ∧
    F64.le (⟨4691249611844266, -47⟩ : F64) (F64.ofInt 100) = true ∧
    F64.le (F64.ofInt 0) (⟨4691249611844266, -47⟩ : F64) = true :=
  ⟨by rfl,
   (C2_progress_bounds hundredPagesFS bookPath
      { Title := "H".toList, Pages := 300, CurrentPage := 100,
        Progress := ⟨4691249611844266, -47⟩, TotalReadingTime := 125 } (by rfl)).1,
   (C2_progress_bounds hundredPagesFS bookPath
      { Title := "H".toList, Pages := 300, CurrentPage := 100,
        Progress := ⟨4691249611844266, -47⟩, TotalReadingTime := 125 } (by rfl)).2.1
      (Or.inl (by decide))⟩

/-- C2, counterexample to the claim as stated: a book file with `pages: 10` and
`current_page: -5` is parsed without error into a record whose progress is -50
(`-50 * 2 ^ 47 * 2 ^ -47`), so that `0 <= progress` fails, and the record is in
`currentBooks`. -/
theorem C2_negative_progress :
    ∃ book, parseBookFile negativePageFS bookPath = .ok book ∧
      book.Pages = 10 ∧ book.CurrentPage = -5 ∧
      book.Progress = ⟨-50 * 2 ^ 47, -47⟩ ∧
      F64.le (F64.ofInt 0) book.Progress = false ∧
      (LoadBooksFromMarkdown negativePageFS Time.zero).map (fun stats => stats.CurrentBooks) =
        .ok [{ book with Status := "reading".toList }] :=
  ⟨{ Title := "N".toList, Pages := 10, CurrentPage := -5,
     Progress := ⟨-7036874417766400, -47⟩, TotalReadingTime := -6 },
   by rfl, by rfl, by rfl, by decide, by decide, by rfl⟩

/-! ## Reading time -/

/-- A dyadic number of fewer than 54 significant bits is a `float64`: rounding keeps it. -/
theorem F64.round_exact (m e : Int) (h : m.natAbs < 2 ^ 53) : F64.round m e = ⟨m, e⟩ := by
  unfold F64.round F64.roundNat
  simp only [h, if_true]
  congr 1
  split <;> omega

/-- The product of a page count with 1.25, truncated, in the range where the `float64`
operations are exact. -/
theorem readingTime_exact (cp : Int) (h : (5 * cp).natAbs < 2 ^ 53) :
    F64.toInt (F64.mul (F64.ofInt cp) MinutesPerPage) = Int.tdiv (5 * cp) 4 := by
  have h1 : F64.ofInt cp = ⟨cp, 0⟩ := F64.round_exact cp 0 (by omega)
  have h2 : F64.mul (F64.ofInt cp) MinutesPerPage = ⟨5 * cp, -2⟩ := by
    rw [h1]
    unfold F64.mul MinutesPerPage
    simp only
    rw [show cp * 5 = 5 * cp by ring, show (0 : Int) + -2 = -2 by norm_num]
    exact F64.round_exact _ _ h
  rw [h2]
  unfold F64.toInt
  simp only
  have h3 : ¬ ((0 : Int) ≤ -2) := by decide
  rw [if_neg h3]
  have h4 : ((2 : Int) ^ (- (-2 : Int)).toNat) = 4 := by decide
  rw [h4]
  have hb : -(2 : Int) ^ 63 ≤ Int.tdiv (5 * cp) 4 ∧ Int.tdiv (5 * cp) 4 < (2 : Int) ^ 63 := by
    have hn : (Int.tdiv (5 * cp) 4).natAbs ≤ (5 * cp).natAbs := by
      rw [Int.natAbs_tdiv]; exact Nat.div_le_self _ _
    constructor <;> omega
  rw [if_pos hb]

/-- The reading time of a record is computed from its final `current_page`. -/
theorem bookFromFrontmatter_TotalReadingTime (fm : Str) :
    (bookFromFrontmatter fm).TotalReadingTime =
      F64.toInt (F64.mul (F64.ofInt (bookFromFrontmatter fm).CurrentPage) MinutesPerPage) := by
  unfold bookFromFrontmatter withReadingTime withProgress
  simp only

theorem floor_five_quarters (n : Int) : ⌊(n : ℚ) * 1.25⌋ = 5 * n / 4 := by
  rw [Int.floor_eq_iff]
  have h1 : (5 * n / 4) * 4 ≤ 5 * n := Int.ediv_mul_le _ (by decide)
  have h2 : 5 * n < (5 * n / 4 + 1) * 4 := Int.lt_ediv_add_one_mul_self _ (by decide)
  have h1q : (((5 * n / 4) * 4 : Int) : ℚ) ≤ ((5 * n : Int) : ℚ) := by exact_mod_cast h1
  have h2q : (((5 * n : Int)) : ℚ) < (((5 * n / 4 + 1) * 4 : Int) : ℚ) := by exact_mod_cast h2
  push_cast at h1q h2q ⊢
  constructor <;> linarith

/-- The reading time of a parsed record, in the range where the `float64` product is
exact. -/
theorem parsed_TotalReadingTime (fs : FS) (filePath : Str) (book : BookStats)
    (h : parseBookFile fs filePath = .ok book)
    (hb : (5 * book.CurrentPage).natAbs < 2 ^ 53) :
    book.TotalReadingTime = Int.tdiv (5 * book.CurrentPage) 4 := by
  obtain ⟨fm, hfm⟩ := parseBookFile_ok fs filePath book h
  subst hfm
  rw [bookFromFrontmatter_TotalReadingTime]
  exact readingTime_exact _ hb

/-- C3 (amended). For every book record produced by `parseBookFile` whose `currentPage`
is below 2^53 / 5 in magnitude (where the `float64` product is exact), `totalReadingTime`
is `currentPage * 1.25` truncated toward zero, the quotient of `5 * currentPage` by 4
rounded toward zero, not the product rounded to the nearest integer. -/
theorem C3_reading_time_truncation (fs : FS) (filePath : Str) (book : BookStats)
    (h : parseBookFile fs filePath = .ok book)
    (hb : (5 * book.CurrentPage).natAbs < 2 ^ 53) :
    book.TotalReadingTime = Int.tdiv (5 * book.CurrentPage) 4 :=
  parsed_TotalReadingTime fs filePath book h hb

/-- C3, witness: a book at page 3. -/
theorem C3_reading_time_truncation_witness :
    parseBookFile threePagesFS bookPath =
      .ok { Title := "T".toList, Pages := 10, CurrentPage := 3,
            Progress := ⟨8444249301319680, -48⟩, TotalReadingTime := 3 } ∧
    (5 * (3 : Int)).natAbs < 2 ^ 53 ∧ (3 : Int) = Int.tdiv (5 * 3) 4 :=
  ⟨by rfl, by decide,
   C3_reading_time_truncation threePagesFS bookPath
     { Title := "T".toList, Pages := 10, CurrentPage := 3,
       Progress := ⟨8444249301319680, -48⟩, TotalReadingTime := 3 } (by rfl) (by decide)⟩

/-- C3, counterexample to the claim as stated: a book file with `current_page: 3` gets
`totalReadingTime` 3, while 3 * 1.25 = 3.75 rounded to the nearest integer is 4. -/
theorem C3_not_rounded_to_nearest :
    ∃ book, parseBookFile threePagesFS bookPath = .ok book ∧
      book.CurrentPage = 3 ∧ book.TotalReadingTime = 3 ∧
      round ((book.CurrentPage : ℚ) * 1.25) = 4 ∧
      book.TotalReadingTime ≠ round ((book.CurrentPage : ℚ) * 1.25) := by
  have hround : round (((3 : Int) : ℚ) * 1.25) = 4 := by
    rw [round_eq, Int.floor_eq_iff]
    norm_num
  refine ⟨{ Title := "T".toList, Pages := 10, CurrentPage := 3,
            Progress := ⟨8444249301319680, -48⟩, TotalReadingTime := 3 },
    by rfl, by rfl, by rfl, hround, ?_⟩
  show (3 : Int) ≠ round (((3 : Int) : ℚ) * 1.25)
  rw [hround]
  decide

/-- C4 (amended). For every book file with well-formed frontmatter and a `current_page`
that is not negative and below 2^53 / 5 (at most 1801439850948198), `parseBookFile` sets
`totalReadingTime` to `currentPage * 1.25` rounded toward zero, that is
`floor(5 * currentPage / 4)`; a book with `current_page: 100` gets 125. -/
theorem C4_reading_time_floor (fs : FS) (filePath : Str) (book : BookStats)
    (h : parseBookFile fs filePath = .ok book)
    (h0 : 0 ≤ book.CurrentPage) (hb : 5 * book.CurrentPage < 2 ^ 53) :
    book.TotalReadingTime = 5 * book.CurrentPage / 4 ∧
    book.TotalReadingTime = ⌊(book.CurrentPage : ℚ) * 1.25⌋ ∧
    (book.CurrentPage = 100 → book.TotalReadingTime = 125) := by
  have h1 : book.TotalReadingTime = Int.tdiv (5 * book.CurrentPage) 4 :=
    parsed_TotalReadingTime fs filePath book h (by omega)
  have h2 : book.TotalReadingTime = 5 * book.CurrentPage / 4 := by
    rw [h1, Int.tdiv_eq_ediv (by omega) (by decide)]
  refine ⟨h2, ?_, ?_⟩
  · rw [floor_five_quarters]; exact h2
  · intro h100
    rw [h2, h100]
    decide

/-- C4, witness: a book at page 100. -/
theorem C4_reading_time_floor_witness :
    parseBookFile hundredPagesFS bookPath =
      .ok { Title := "H".toList, Pages := 300, CurrentPage := 100,
            Progress := ⟨4691249611844266, -47⟩, TotalReadingTime := 125 } ∧
    (0 : Int) ≤ 100 ∧ 5 * (100 : Int) < 2 ^ 53 ∧ (125 : Int) = 5 * 100 / 4 :=
  ⟨by rfl, by decide, by decide,
   (C4_reading_time_floor hundredPagesFS bookPath
     { Title := "H".toList, Pages := 300, CurrentPage := 100,
       Progress := ⟨4691249611844266, -47⟩, TotalReadingTime := 125 }
     (by rfl) (by decide) (by decide)).1⟩

/-- C4, counterexample to the claim as stated: with `current_page: 1801439850948199` the
`float64` product 2251799813685248.75 is rounded to 2251799813685249 before the
truncation, one more than `floor(5 * currentPage / 4)`. -/
theorem C4_large_page_count :
    ∃ book, parseBookFile hugePageFS bookPath = .ok book ∧
      book.CurrentPage = 1801439850948199 ∧ 0 ≤ book.CurrentPage ∧
      book.TotalReadingTime = 2251799813685249 ∧
      5 * book.CurrentPage / 4 = 2251799813685248 ∧
      book.TotalReadingTime ≠ 5 * book.CurrentPage / 4 :=
  ⟨{ Title := "G".toList, CurrentPage := 1801439850948199,
     TotalReadingTime := 2251799813685249 },
   by rfl, by rfl, by decide, by rfl, by decide, by decide⟩

/-! ## Reading time of a post -/

/-- After a match of a non-empty separator the rest is shorter. -/
theorem Index_drop_length (sep s : Str) (m : Nat) (hsep : sep ≠ []) (h : Index s sep = some m) :
    (s.drop (m + sep.length)).length < s.length := by
  have h1 := (Index_some sep s m h).1
  have h2 := congrArg List.length h1
  simp only [List.length_append] at h2
  have h3 : 0 < sep.length := List.length_pos.2 hsep
  omega

/-- The loop of `Count` needs no more iterations than the text has characters. -/
theorem countLoop_fuel (sep : Str) (hsep : sep ≠ []) : ∀ (fuel : Nat) (s : Str),
    s.length ≤ fuel → countLoop sep fuel s = countLoop sep s.length s := by
  intro fuel
  induction fuel using Nat.strong_induction_on with
  | _ fuel ih =>
    intro s hs
    cases fuel with
    | zero =>
      have : s.length = 0 := by omega
      rw [this]
    | succ f =>
      cases hl : s.length with
      | zero =>
        have hnil : s = [] := List.length_eq_zero.1 hl
        subst hnil
        simp [countLoop, Index, hsep]
      | succ l =>
        simp only [countLoop]
        cases hi : Index s sep with
        | none => rfl
        | some m =>
          simp only
          have hd := Index_drop_length sep s m hsep hi
          rw [ih f (Nat.lt_succ_self f) _ (by omega)]
          rw [ih l (by omega) _ (by omega)]

/-- The loop of `genSplit` makes no more cuts than the text has characters. -/
theorem genSplitLoop_fuel (sep : Str) (hsep : sep ≠ []) : ∀ (k : Nat) (s : Str),
    s.length ≤ k → genSplitLoop sep k s = genSplitLoop sep s.length s := by
  intro k
  induction k using Nat.strong_induction_on with
  | _ k ih =>
    intro s hs
    cases k with
    | zero =>
      have : s.length = 0 := by omega
      rw [this]
    | succ f =>
      cases hl : s.length with
      | zero =>
        have hnil : s = [] := List.length_eq_zero.1 hl
        subst hnil
        simp [genSplitLoop, Index, hsep]
      | succ l =>
        simp only [genSplitLoop]
        cases hi : Index s sep with
        | none => rfl
        | some m =>
          simp only
          have hd := Index_drop_length sep s m hsep hi
          rw [ih f (Nat.lt_succ_self f) _ (by omega)]
          rw [ih l (by omega) _ (by omega)]

/-- The recursion of `bitLen` stops before its bound. -/
theorem bitLenAux_fuel : ∀ (fuel n : Nat), n ≤ fuel → bitLenAux fuel n = bitLenAux n n := by
  intro fuel
  induction fuel using Nat.strong_induction_on with
  | _ fuel ih =>
    intro n hn
    cases fuel with
    | zero =>
      have : n = 0 := by omega
      rw [this]
    | succ f =>
      cases n with
      | zero => simp [bitLenAux]
      | succ l =>
        simp only [bitLenAux]
        have hlt : (l + 1) / 2 ≤ l := by omega
        rw [ih f (Nat.lt_succ_self f) _ (by omega)]
        rw [ih l (by omega) _ hlt]

/-- A positive number lies between the powers of two given by its number of bits. -/
theorem bitLen_spec : ∀ n : Nat, 0 < n → 2 ^ (bitLen n - 1) ≤ n ∧ n < 2 ^ bitLen n := by
  intro n
  induction n using Nat.strong_induction_on with
  | _ n ih =>
    intro hn
    unfold bitLen
    cases n with
    | zero => omega
    | succ l =>
      simp only [bitLenAux]
      rw [bitLenAux_fuel l ((l + 1) / 2) (by omega)]
      by_cases h1 : (l + 1) / 2 = 0
      · have hl : l = 0 := by omega
        subst hl
        simp [bitLenAux]
      · have hpos : 0 < (l + 1) / 2 := Nat.pos_of_ne_zero h1
        have := ih ((l + 1) / 2) (by omega) hpos
        unfold bitLen at this
        obtain ⟨h2, h3⟩ := this
        have hb : 1 ≤ bitLenAux ((l + 1) / 2) ((l + 1) / 2) := by
          cases hq : (l + 1) / 2 with
          | zero => omega
          | succ q => simp [bitLenAux]
        simp only [Nat.add_one_ne_zero, if_false]
        generalize bitLenAux ((l + 1) / 2) ((l + 1) / 2) = k at h2 h3 hb
        have e1 : 1 + k - 1 = (k - 1) + 1 := by omega
        rw [e1, Nat.pow_succ, Nat.add_comm 1 k, Nat.pow_succ]
        constructor <;> omega

theorem toNat_digitChar (d : Nat) (hd : d < 10) : (Char.ofNat (48 + d)).toNat = 48 + d := by
  interval_cases d <;> rfl

/-- The decimal text of a number reads back as the number: the recursion of `natDigits`
stops before its bound. -/
theorem digitsValue_natDigits : ∀ (fuel n : Nat), n < fuel →
    digitsValue (natDigits fuel n) = n := by
  intro fuel
  induction fuel with
  | zero => intro n h; omega
  | succ f ih =>
    intro n hn
    unfold natDigits
    split
    · rename_i h10
      simp [digitsValue, toNat_digitChar n h10]
    · rename_i h10
      have hq : n / 10 < f := by omega
      have := ih (n / 10) hq
      unfold digitsValue at this ⊢
      rw [List.foldl_append, this]
      simp only [List.foldl_cons, List.foldl_nil]
      rw [toNat_digitChar _ (Nat.mod_lt _ (by decide))]
      omega

/-- The rounding of a magnitude of more than 53 bits: the result has 53 significant bits
(or is the next power of two) and is a number of that format nearest to the magnitude,
the even one of two when the magnitude is half-way. -/
theorem F64.roundNat_nearest (n : Nat) (e : Int) (h : 2 ^ 53 ≤ n) :
    (F64.roundNat n e).2 = e + ((bitLen n - 53 : Nat) : Int) ∧
    2 ^ 52 ≤ (F64.roundNat n e).1 ∧ (F64.roundNat n e).1 ≤ 2 ^ 53 ∧
    2 * ((F64.roundNat n e).1 * 2 ^ (bitLen n - 53)) ≤ 2 * n + 2 ^ (bitLen n - 53) ∧
    2 * n ≤ 2 * ((F64.roundNat n e).1 * 2 ^ (bitLen n - 53)) + 2 ^ (bitLen n - 53) ∧
    (2 * n = 2 * ((F64.roundNat n e).1 * 2 ^ (bitLen n - 53)) + 2 ^ (bitLen n - 53) ∨
      2 * ((F64.roundNat n e).1 * 2 ^ (bitLen n - 53)) = 2 * n + 2 ^ (bitLen n - 53) →
      (F64.roundNat n e).1 % 2 = 0) := by
  have hpos : 0 < n := lt_of_lt_of_le (by decide) h
  obtain ⟨hlo, hhi⟩ := bitLen_spec n hpos
  have hL : 54 ≤ bitLen n := by
    by_contra hc
    have : bitLen n ≤ 53 := by omega
    have := Nat.pow_le_pow_right (by decide : 0 < 2) this
    omega
  obtain ⟨k, hk⟩ : ∃ k, bitLen n = 53 + (k + 1) := ⟨bitLen n - 54, by omega⟩
  have hk1 : bitLen n - 53 = k + 1 := by omega
  have hk2 : bitLen n - 1 = 52 + (k + 1) := by omega
  rw [hk2, Nat.pow_add] at hlo
  rw [hk, Nat.pow_add] at hhi
  unfold F64.roundNat
  have hn : ¬ n < 2 ^ 53 := by omega
  simp only [hn, if_false, hk1, Nat.add_sub_cancel]
  have hP : 2 ^ (k + 1) = 2 * 2 ^ k := by rw [Nat.pow_succ, Nat.mul_comm]
  have hPpos : 0 < 2 ^ k := Nat.pow_pos (by decide)
  rw [hP] at hlo hhi ⊢
  generalize 2 ^ k = H at hlo hhi hPpos ⊢
  have hdm := Nat.div_add_mod n (2 * H)
  have hr : n % (2 * H) < 2 * H := Nat.mod_lt _ (by omega)
  have hq1 : 2 ^ 52 ≤ n / (2 * H) := by
    rw [Nat.le_div_iff_mul_le (by omega)]; exact hlo
  have hq2 : n / (2 * H) < 2 ^ 53 := by
    rw [Nat.div_lt_iff_lt_mul (by omega)]; exact hhi
  generalize n / (2 * H) = q at hdm hq1 hq2 ⊢
  generalize n % (2 * H) = r at hdm hr ⊢
  have hmul : (q + 1) * (2 * H) = 2 * H * q + 2 * H := by ring
  have hmul2 : q * (2 * H) = 2 * H * q := by ring
  generalize hX : 2 * H * q = X at hdm hmul hmul2
  split
  · rename_i hup
    simp only [hmul]
    refine ⟨by push_cast, by omega, by omega, by omega, by omega, ?_⟩
    rintro (h1 | h1)
    · omega
    · have : r = H := by omega
      rcases hup with h2 | ⟨_, h2⟩
      · omega
      · omega
  · rename_i hdown
    simp only [hmul2]
    refine ⟨by push_cast, by omega, by omega, by omega, by omega, ?_⟩
    rintro (h1 | h1)
    · have hrH : r = H := by omega
      by_contra hodd
      apply hdown
      right
      exact ⟨hrH, by omega⟩
    · omega

/-- The quotient with sticky bit formed by `F64.div` has at least 56 bits. -/
theorem F64.div_quotient_large (a b : Nat) (ha : 0 < a) (hb : 0 < b) :
    2 ^ 54 ≤ a * 2 ^ (55 + bitLen b - bitLen a) / b := by
  obtain ⟨ha1, ha2⟩ := bitLen_spec a ha
  obtain ⟨hb1, hb2⟩ := bitLen_spec b hb
  have hLa : 1 ≤ bitLen a := by
    by_contra hc
    have : bitLen a = 0 := by omega
    rw [this] at ha2
    simp at ha2
    omega
  rw [Nat.le_div_iff_mul_le hb]
  have h1 : 2 ^ 54 * b ≤ 2 ^ 54 * 2 ^ bitLen b := Nat.mul_le_mul_left _ hb2.le
  have h2 : 2 ^ 54 * 2 ^ bitLen b ≤ 2 ^ (bitLen a - 1) * 2 ^ (55 + bitLen b - bitLen a) := by
    rw [← Nat.pow_add, ← Nat.pow_add]
    exact Nat.pow_le_pow_right (by decide) (by omega)
  have h3 : 2 ^ (bitLen a - 1) * 2 ^ (55 + bitLen b - bitLen a) ≤
      a * 2 ^ (55 + bitLen b - bitLen a) := Nat.mul_le_mul_right _ ha1
  exact h1.trans (h2.trans h3)

/-- The division is correctly rounded: with `A` the shifted numerator of `F64.div`, `N`
the doubled integer quotient with its sticky bit, `k` the number of bits dropped by the
rounding and `q` the significand returned, `|q * 2 ^ k - 2 * A / b| <= 2 ^ k / 2`, stated
without fractions. -/
theorem F64.div_nearest (a b : Nat) (e : Int) (ha : 0 < a) (hb : 0 < b) (A N k q : Nat)
    (hA : A = a * 2 ^ (55 + bitLen b - bitLen a))
    (hN : N = 2 * (A / b) + (if A % b = 0 then 0 else 1))
    (hk : k = bitLen N - 53) (hq : q = (F64.roundNat N e).1) :
    2 * (q * 2 ^ k * b) ≤ 4 * A + 2 ^ k * b ∧ 4 * A ≤ 2 * (q * 2 ^ k * b) + 2 ^ k * b := by
  subst hq hk hN hA
  have hQ := F64.div_quotient_large a b ha hb
  have hdm := Nat.div_add_mod (a * 2 ^ (55 + bitLen b - bitLen a)) b
  have hR := Nat.mod_lt (a * 2 ^ (55 + bitLen b - bitLen a)) hb
  generalize a * 2 ^ (55 + bitLen b - bitLen a) = A at hQ hdm hR ⊢
  generalize hQd : A / b = Q at hQ hdm ⊢
  generalize hRd : A % b = R at hdm hR ⊢
  generalize hN : 2 * Q + (if R = 0 then 0 else 1) = N
  have hNlarge : 2 ^ 55 ≤ N := by rw [← hN]; omega
  have hN53 : 2 ^ 53 ≤ N := le_trans (by decide) hNlarge
  obtain ⟨_, _, _, hup, hdown, htie⟩ := F64.roundNat_nearest N e hN53
  have hpos : 0 < N := lt_of_lt_of_le (by decide) hN53
  obtain ⟨hlo, hhi⟩ := bitLen_spec N hpos
  have hL : 56 ≤ bitLen N := by
    by_contra hc
    have : bitLen N ≤ 55 := by omega
    have := Nat.pow_le_pow_right (by decide : 0 < 2) this
    omega
  obtain ⟨j, hj⟩ : ∃ j, bitLen N - 53 = j + 2 := ⟨bitLen N - 55, by omega⟩
  rw [hj] at hup hdown htie ⊢
  have hP : 2 ^ (j + 2) = 4 * 2 ^ j := by rw [Nat.pow_add]; ring
  rw [hP] at hup hdown htie ⊢
  generalize 2 ^ j = G at hup hdown htie ⊢
  generalize (F64.roundNat N e).1 = q at hup hdown htie ⊢
  -- D = q * 2 ^ k is a multiple of 4
  have hD : q * (4 * G) = 4 * (q * G) := by ring
  rw [hD] at hup hdown htie ⊢
  generalize q * G = D at hup hdown htie ⊢
  have g1 : 2 * (4 * D * b) = 8 * (D * b) := by ring
  have g2 : 4 * G * b = 4 * (G * b) := by ring
  rw [g1, g2]
  by_cases hR0 : R = 0
  · simp only [hR0, if_true, Nat.add_zero] at hN
    have hA : A = b * Q := by omega
    have hup2 : 2 * (4 * D) * b ≤ (2 * N + 4 * G) * b := Nat.mul_le_mul_right b hup
    have hdown2 : (2 * N) * b ≤ (2 * (4 * D) + 4 * G) * b := Nat.mul_le_mul_right b hdown
    have hNb : N * b = 2 * (b * Q) := by rw [← hN]; ring
    have e1 : 2 * (4 * D) * b = 8 * (D * b) := by ring
    have e2 : (2 * N + 4 * G) * b = 2 * (N * b) + 4 * (G * b) := by ring
    have e3 : (2 * N) * b = 2 * (N * b) := by ring
    have e4 : (2 * (4 * D) + 4 * G) * b = 8 * (D * b) + 4 * (G * b) := by ring
    rw [e1, e2, hNb] at hup2
    rw [e3, e4, hNb] at hdown2
    constructor <;> omega
  · simp only [hR0, if_false] at hN
    have hup1 : 4 * D + 1 ≤ N + 2 * G := by omega
    have hdown1 : N + 1 ≤ 4 * D + 2 * G := by omega
    have hup2 : (4 * D + 1) * b ≤ (N + 2 * G) * b := Nat.mul_le_mul_right b hup1
    have hdown2 : (N + 1) * b ≤ (4 * D + 2 * G) * b := Nat.mul_le_mul_right b hdown1
    have hNb : N * b = 2 * (b * Q) + b := by rw [← hN]; ring
    have hRpos : 0 < R := Nat.pos_of_ne_zero hR0
    have e1 : (4 * D + 1) * b = 4 * (D * b) + b := by ring
    have e2 : (N + 2 * G) * b = N * b + 2 * (G * b) := by ring
    have e3 : (N + 1) * b = N * b + b := by ring
    have e4 : (4 * D + 2 * G) * b = 4 * (D * b) + 2 * (G * b) := by ring
    rw [e1, e2, hNb] at hup2
    rw [e3, e4, hNb] at hdown2
    constructor <;> omega

/-- Values of the model on known `float64` numbers: 0.1, 0.9, 0.8, 0.7 and 1/3 have the
significands `0x1999999999999A`, `0x1CCCCCCCCCCCCD`, `0x1999999999999A`, `0x16666666666666`
and `0x15555555555555`; `2 ^ 53 + 1` and
`2 ^ 53 + 3` are half-way between two numbers and go to the even ones, `2 ^ 53` and
`2 ^ 53 + 4`. -/
theorem F64.known_values :
    F64.ofDecimal 1 10 = ⟨0x1999999999999A, -56⟩ ∧
    F64.ofDecimal 9 10 = ⟨0x1CCCCCCCCCCCCD, -53⟩ ∧
    F64.ofDecimal 8 10 = ⟨0x1999999999999A, -53⟩ ∧
    F64.ofDecimal 7 10 = ⟨0x16666666666666, -53⟩ ∧
    F64.ofDecimal 1 3 = ⟨0x15555555555555, -54⟩ ∧
    F64.ofInt (2 ^ 53 + 1) = ⟨2 ^ 52, 1⟩ ∧
    F64.ofInt (2 ^ 53 + 3) = ⟨2 ^ 52 + 2, 1⟩ := by
  decide

/-! ## Concrete instances -/

/-- Fewer than three parts of the split mean that the delimiter does not occur twice. -/
theorem not_two_delims (s : Str) (h : (SplitN s delim 3).length < 3) :
    ¬ ∃ a b c, s = a ++ delim ++ b ++ delim ++ c := by
  rcases split_cases s with ⟨hno, _⟩ | ⟨a, b, c, _, _, _, hsplit⟩
  · exact hno
  · rw [hsplit] at h; simp at h

/-- C1, witness: the file `p.md` of `blogFS`, whose content holds three `---`. -/
theorem C1_frontmatter_split_witness :
    blogFS.readFile postPath = some postContent ∧
    (parseBookFile blogFS postPath = .error Err.invalidFrontmatter ↔
      ¬ ∃ a b c, postContent = a ++ delim ++ b ++ delim ++ c) ∧
    parseBlogPost idConvert blogFS postPath "p".toList = .ok parsedPost :=
  ⟨by rfl, (C1_frontmatter_split blogFS idConvert postPath "p".toList postContent (by rfl)).1,
   by rfl⟩

/-- C10, witness: the malformed file `bad.md` next to the book `b.md`. -/
theorem C10_malformed_book_skipped_witness :
    malformedBookFS.readDir readingDir = some (["b.md".toList] ++ "bad.md".toList :: []) ∧
    malformedBookFS.readFile (Join readingDir "bad.md".toList) = some malformedContent ∧
    (¬ ∃ a b c, malformedContent = a ++ delim ++ b ++ delim ++ c) ∧
    LoadBooksFromMarkdown malformedBookFS Time.zero =
      LoadBooksFromMarkdown
        (malformedBookFS.withListing readingDir (["b.md".toList] ++ [])) Time.zero :=
  ⟨by rfl, by rfl, not_two_delims malformedContent (by decide),
   C10_malformed_book_skipped malformedBookFS Time.zero readingDir ["b.md".toList] []
     "bad.md".toList malformedContent (Or.inl rfl) (by rfl) (by rfl)
     (not_two_delims malformedContent (by decide))⟩

/-! ## Frontmatter lines -/

/-- What `strings.Trim` and `strings.TrimSpace` do: the text is a run of dropped
characters, the result, and a run of dropped characters; the result neither begins nor ends
with a character to drop. -/
theorem trim_spec {α : Type} (p : α → Bool) (s : List α) :
    (∃ pre suf, s = pre ++ (s.dropWhile p).rdropWhile p ++ suf ∧
      (∀ c ∈ pre, p c = true) ∧ (∀ c ∈ suf, p c = true)) ∧
    (∀ c, ((s.dropWhile p).rdropWhile p).head? = some c → p c = false) ∧
    (∀ c, ((s.dropWhile p).rdropWhile p).getLast? = some c → p c = false) := by
  refine ⟨⟨s.takeWhile p, (s.dropWhile p).rtakeWhile p, ?_, ?_, ?_⟩, ?_, ?_⟩
  · have h1 : (s.dropWhile p).rdropWhile p ++ (s.dropWhile p).rtakeWhile p = s.dropWhile p := by
      unfold List.rdropWhile List.rtakeWhile
      rw [← List.reverse_append, List.takeWhile_append_dropWhile, List.reverse_reverse]
    rw [List.append_assoc, h1, List.takeWhile_append_dropWhile]
  · intro c hc; exact List.mem_takeWhile_imp hc
  · intro c hc; exact List.mem_rtakeWhile_imp hc
  · intro c hc
    have hpre : (s.dropWhile p).rdropWhile p <+: s.dropWhile p := List.rdropWhile_prefix p _
    obtain ⟨t, ht⟩ := hpre
    cases hr : (s.dropWhile p).rdropWhile p with
    | nil => rw [hr] at hc; cases hc
    | cons x xs =>
      rw [hr] at hc ht
      simp only [List.head?_cons, Option.some.injEq] at hc
      subst hc
      have hh := List.head?_dropWhile_not p s
      rw [← ht] at hh
      simpa using hh
  · intro c hc
    cases hr : (s.dropWhile p).rdropWhile p with
    | nil => rw [hr] at hc; cases hc
    | cons x xs =>
      have hne : (s.dropWhile p).rdropWhile p ≠ [] := by rw [hr]; exact List.cons_ne_nil _ _
      have hlast := List.rdropWhile_last_not p (s.dropWhile p) hne
      have e : ((s.dropWhile p).rdropWhile p).getLast? =
          some (((s.dropWhile p).rdropWhile p).getLast hne) := List.getLast?_eq_getLast _ hne
      rw [e] at hc
      cases hc
      simpa using hlast

/-- A text that neither begins nor ends with a character to drop is kept. -/
theorem trim_id {α : Type} (p : α → Bool) (s : List α)
    (hh : ∀ c, s.head? = some c → p c = false) (hl : ∀ c, s.getLast? = some c → p c = false) :
    (s.dropWhile p).rdropWhile p = s := by
  have h1 : s.dropWhile p = s := by
    cases s with
    | nil => rfl
    | cons x xs =>
      have := hh x rfl
      simp [List.dropWhile, this]
  rw [h1, List.rdropWhile_eq_self_iff]
  intro hne
  have e : s.getLast? = some (s.getLast hne) := List.getLast?_eq_getLast _ hne
  have := hl _ e
  simp [this]

/-- The first colon of a line is found by `Index`. -/
theorem Index_colon (k v : Str) (hk : ':' ∉ k) : Index (k ++ ':' :: v) [':'] = some k.length := by
  induction k with
  | nil => simp [Index, HasPrefix]
  | cons c cs ih =>
    have hc : c ≠ ':' := fun h => hk (by simp [h])
    have hcs : ':' ∉ cs := fun h => hk (List.mem_cons_of_mem _ h)
    simp only [List.cons_append, Index, HasPrefix]
    have hp : List.isPrefixOf [':'] (c :: (cs ++ ':' :: v)) = false := by
      simp [List.isPrefixOf, hc.symm]
    simp [hp, ih hcs]

/-- The line is cut in two at its first colon by `SplitN` with the limit 2. -/
theorem SplitN_colon (k v : Str) (hk : ':' ∉ k) :
    SplitN (k ++ ':' :: v) [':'] 2 = [k, v] := by
  unfold SplitN
  have hlen : ¬ ((2 : Int).toNat > (k ++ ':' :: v).length + 1) := by
    simp only [List.length_append, List.length_cons]
    have : (2 : Int).toNat = 2 := rfl
    omega
  have h2 : (2 : Int).toNat - 1 = 1 := rfl
  simp only [show ¬ ((2 : Int) = 0) by decide, if_false, show ¬ ([':'] = ([] : Str)) by simp,
    show ¬ ((2 : Int) < 0) by decide, hlen, h2]
  simp [genSplitLoop, Index_colon k v hk]

/-- The text before the position found by `Index` does not hold the colon. -/
theorem Index_colon_take (line : Str) (idx : Nat) (h : Index line [':'] = some idx) :
    line = line.take idx ++ ':' :: line.drop (idx + 1) ∧ ':' ∉ line.take idx := by
  obtain ⟨h1, h2⟩ := Index_some [':'] line idx h
  have h1' : line = line.take idx ++ ':' :: line.drop (idx + 1) := by
    simpa using h1
  refine ⟨h1', ?_⟩
  intro hmem
  obtain ⟨x, y, hxy⟩ := List.append_of_mem hmem
  have hlen : x.length < (line.take idx).length := by
    rw [hxy]; simp
  have hle : (line.take idx).length ≤ idx := List.length_take_le _ _
  have := h2 x (y ++ ':' :: line.drop (idx + 1)) (by
    conv_lhs => rw [h1', hxy]
    simp)
  omega

/-- A line of a book frontmatter either leaves the record as it is (blank line, line
without colon) or is `key: value` cut at its first colon, and acts as the `switch` on the
trimmed key and the normalised value. -/
theorem bookLine_cases (book : BookStats) (line0 : Str) :
    bookLine book line0 = book ∨
    ∃ k v, TrimSpace line0 = k ++ ':' :: v ∧ ':' ∉ k ∧
      bookLine book line0 = bookField book (TrimSpace k) (Trim (TrimSpace v) ['"']) := by
  unfold bookLine
  simp only
  split
  · left; rfl
  · cases hi : Index (TrimSpace line0) [':'] with
    | none => left; rfl
    | some idx =>
      right
      obtain ⟨h1, h2⟩ := Index_colon_take _ idx hi
      exact ⟨_, _, h1, h2, rfl⟩

/-- The action of a `key: value` line of a book frontmatter. -/
theorem bookLine_eq (book : BookStats) (line0 k v : Str)
    (hline : TrimSpace line0 = k ++ ':' :: v) (hk : ':' ∉ k) :
    bookLine book line0 = bookField book (TrimSpace k) (Trim (TrimSpace v) ['"']) := by
  unfold bookLine
  simp only
  have hne : TrimSpace line0 ≠ [] := by rw [hline]; simp
  have e1 : List.take k.length (k ++ ':' :: v) = k := by simp
  have e2 : List.drop (k.length + 1) (k ++ ':' :: v) = v := by
    rw [show k ++ ':' :: v = (k ++ [':']) ++ v by simp]
    exact List.drop_left' (by simp)
  rw [if_neg hne, hline, Index_colon k v hk]
  simp only [e1, e2]
  rfl

/-- The action of a `key: value` line of a post frontmatter in the build-time parser. -/
theorem postLine_eq (post : BlogPost) (line0 k v : Str)
    (hline : TrimSpace line0 = k ++ ':' :: v) (hk : ':' ∉ k) :
    postLine post line0 =
      (if TrimSpace k = "title".toList then
        { post with Title := Trim (TrimSpace v) ['"'] }
      else if TrimSpace k = "date".toList then
        match Time.Parse (Trim (TrimSpace v) ['"']) with
        | some parsedDate =>
          { post with Date := Trim (TrimSpace v) ['"'], RawDate := parsedDate }
        | none => { post with Date := Trim (TrimSpace v) ['"'] }
      else if TrimSpace k = "excerpt".toList then
        { post with Excerpt := Trim (TrimSpace v) ['"'] }
      else post) := by
  unfold postLine
  simp only
  have hne : TrimSpace line0 ≠ [] := by rw [hline]; simp
  rw [if_neg hne, hline, SplitN_colon k v hk]
  simp

/-- The two post parsers run the same loop body. -/
theorem metadataLine_eq_postLine : metadataLine = postLine := rfl

/-! ## Unparseable scalar fields -/

/-- A line whose key names an integer field and whose value is not scanned, or whose key
names a date field and whose value is not parsed, leaves the record as it is. -/
theorem bookField_fail (book : BookStats) (key value : Str) :
    ((key = "pages".toList ∨ key = "current_page".toList) → Sscanf_d value = none →
      bookField book key value = book) ∧
    ((key = "started".toList ∨ key = "last_updated".toList ∨ key = "finished".toList) →
      Time.Parse value = none → bookField book key value = book) := by
  constructor
  · rintro (h | h) hv <;> subst h <;> simp [bookField, hv]
  · rintro (h | h | h) hv <;> subst h <;> simp [bookField, hv]

/-- The `switch` changes no field other than the one named by the key. -/
theorem bookField_other (book : BookStats) (key value : Str) :
    (key ≠ "title".toList → (bookField book key value).Title = book.Title) ∧
    (key ≠ "author".toList → (bookField book key value).Author = book.Author) ∧
    (key ≠ "pages".toList → (bookField book key value).Pages = book.Pages) ∧
    (key ≠ "current_page".toList →
      (bookField book key value).CurrentPage = book.CurrentPage) ∧
    (key ≠ "started".toList → (bookField book key value).Started = book.Started) ∧
    (key ≠ "last_updated".toList → (bookField book key value).LastRead = book.LastRead) ∧
    (key ≠ "finished".toList → (bookField book key value).Finished = book.Finished) ∧
    (bookField book key value).Status = book.Status ∧
    (bookField book key value).Progress = book.Progress ∧
    (bookField book key value).TotalReadingTime = book.TotalReadingTime := by
  unfold bookField
  refine ⟨?_, ?_, ?_, ?_, ?_, ?_, ?_, ?_, ?_, ?_⟩
  · intro h; repeat' split
    all_goals first | rfl | exact absurd (by assumption) h
  · intro h; repeat' split
    all_goals rfl
  · intro h; repeat' split
    all_goals rfl
  · intro h; repeat' split
    all_goals rfl
  · intro h; repeat' split
    all_goals rfl
  · intro h; repeat' split
    all_goals rfl
  · intro h; repeat' split
    all_goals rfl
  · repeat' split
    all_goals rfl
  · repeat' split
    all_goals rfl
  · repeat' split
    all_goals rfl

/-- The derived fields are computed without touching the parsed ones. -/
theorem bookFromFrontmatter_fields (fm : Str) :
    (bookFromFrontmatter fm).Title = ((Split fm ['\n']).foldl bookLine {}).Title ∧
    (bookFromFrontmatter fm).Author = ((Split fm ['\n']).foldl bookLine {}).Author ∧
    (bookFromFrontmatter fm).Pages = ((Split fm ['\n']).foldl bookLine {}).Pages ∧
    (bookFromFrontmatter fm).CurrentPage = ((Split fm ['\n']).foldl bookLine {}).CurrentPage ∧
    (bookFromFrontmatter fm).Started = ((Split fm ['\n']).foldl bookLine {}).Started ∧
    (bookFromFrontmatter fm).LastRead = ((Split fm ['\n']).foldl bookLine {}).LastRead ∧
    (bookFromFrontmatter fm).Finished = ((Split fm ['\n']).foldl bookLine {}).Finished := by
  unfold bookFromFrontmatter withReadingTime withProgress
  refine ⟨?_, ?_, ?_, ?_, ?_, ?_, ?_⟩ <;> (simp only; (repeat' split) <;> rfl)

/-- A field that no line of the frontmatter sets keeps its value through the loop: `get`
reads the field named by `key`, and every line with that key carries a value that fails. -/
theorem foldl_bookLine_keep {α : Type} (get : BookStats → α) (key : Str) (fails : Str → Prop)
    (hother : ∀ book k value, k ≠ key → get (bookField book k value) = get book)
    (hfail : ∀ book value, fails value → bookField book key value = book)
    (lines : List Str)
    (hlines : ∀ line0 ∈ lines, ∀ k v, TrimSpace line0 = k ++ ':' :: v → ':' ∉ k →
      TrimSpace k = key → fails (Trim (TrimSpace v) ['"'])) :
    ∀ book, get (lines.foldl bookLine book) = get book := by
  induction lines with
  | nil => intro book; rfl
  | cons l ls ih =>
    intro book
    rw [List.foldl_cons, ih (fun l0 hl0 => hlines l0 (List.mem_cons_of_mem _ hl0))]
    rcases bookLine_cases book l with h | ⟨k, v, hl, hk, h⟩
    · rw [h]
    · rw [h]
      by_cases hkey : TrimSpace k = key
      · rw [hkey, hfail book _ (hlines l (List.mem_cons_self _ _) k v hl hk hkey)]
      · exact hother book _ _ hkey

/-- A digit is neither a space, nor a newline, nor a sign. -/
theorem isDigit_facts (c : Char) (h : isDigit c = true) :
    isSpace c = false ∧ c ≠ '\n' ∧ c ≠ '-' ∧ c ≠ '+' := by
  simp only [isDigit, Bool.and_eq_true, decide_eq_true_eq] at h
  refine ⟨?_, ?_, ?_, ?_⟩
  · simp only [isSpace, Bool.or_eq_false_iff, Bool.and_eq_false_iff, decide_eq_false_iff_not,
      beq_eq_false_iff_ne, ne_eq]
    omega
  · intro e; rw [e] at h; revert h; decide
  · intro e; rw [e] at h; revert h; decide
  · intro e; rw [e] at h; revert h; decide

/-- `Sscanf` with `%d` scans the digits a value begins with and ignores what follows. -/
theorem Sscanf_d_digits (ds rest : Str) (hne : ds ≠ [])
    (hds : ∀ c ∈ ds, isDigit c = true) (hrest : ∀ c, rest.head? = some c → isDigit c = false)
    (hrange : (digitsValue ds : Int) < 2 ^ 63) :
    Sscanf_d (ds ++ rest) = some (digitsValue ds : Int) := by
  cases ds with
  | nil => exact absurd rfl hne
  | cons d ds' =>
    obtain ⟨h1, h2, h3, h4⟩ := isDigit_facts d (hds d (List.mem_cons_self _ _))
    have htw : List.takeWhile isDigit ((d :: ds') ++ rest) = d :: ds' := by
      rw [List.takeWhile_append_of_pos hds]
      cases rest with
      | nil => simp
      | cons r rs =>
        have := hrest r rfl
        simp [List.takeWhile, this]
    unfold Sscanf_d
    simp only [List.cons_append, skipSpace, h2, if_false, h1, Bool.false_eq_true,
      List.head?_cons, Option.some.injEq, h3, h4, or_self, decide_False]
    have htw2 : List.takeWhile isDigit (d :: ds'.append rest) = d :: ds' := htw
    rw [htw2]
    simp only [List.cons_ne_nil, if_false]
    have hnn : -(2 : Int) ^ 63 ≤ (digitsValue (d :: ds') : Int) :=
      le_trans (by decide) (Int.ofNat_nonneg _)
    rw [if_pos ⟨hnn, hrange⟩]

/-- `Sscanf` with `%d` stores nothing when the value is empty or begins with a character
that is neither a digit, nor a space, nor a sign. -/
theorem Sscanf_d_none (value : Str)
    (h : ∀ c, value.head? = some c →
      isDigit c = false ∧ isSpace c = false ∧ c ≠ '-' ∧ c ≠ '+') :
    Sscanf_d value = none := by
  cases value with
  | nil => rfl
  | cons c cs =>
    obtain ⟨h1, h2, h3, h4⟩ := h c rfl
    unfold Sscanf_d
    by_cases hnl : c = '\n'
    · simp [skipSpace, hnl]
    · simp [skipSpace, hnl, h2, h3, h4, List.takeWhile, h1]

/-- A line whose value can be read stores it in the field its key names. -/
theorem bookField_store (book : BookStats) (key value : Str) :
    (key = "title".toList → bookField book key value = { book with Title := value }) ∧
    (key = "author".toList → bookField book key value = { book with Author := value }) ∧
    (key = "pages".toList → ∀ i, Sscanf_d value = some i →
      bookField book key value = { book with Pages := i }) ∧
    (key = "current_page".toList → ∀ i, Sscanf_d value = some i →
      bookField book key value = { book with CurrentPage := i }) ∧
    (key = "started".toList → ∀ t, Time.Parse value = some t →
      bookField book key value = { book with Started := t }) ∧
    (key = "last_updated".toList → ∀ t, Time.Parse value = some t →
      bookField book key value = { book with LastRead := t }) ∧
    (key = "finished".toList → ∀ t, Time.Parse value = some t →
      bookField book key value = { book with Finished := t }) := by
  refine ⟨?_, ?_, ?_, ?_, ?_, ?_, ?_⟩
  · intro h; subst h; rfl
  · intro h; subst h; rfl
  · intro h i hv; subst h; simp [bookField, hv]
  · intro h i hv; subst h; simp [bookField, hv]
  · intro h t hv; subst h; simp [bookField, hv]
  · intro h t hv; subst h; simp [bookField, hv]
  · intro h t hv; subst h; simp [bookField, hv]

/-- The digits a text begins with are the longest run of digits at its head. -/
theorem takeWhile_digits (ds rest : Str) (hds : ∀ c ∈ ds, isDigit c = true)
    (hrest : ∀ c, rest.head? = some c → isDigit c = false) :
    List.takeWhile isDigit (ds ++ rest) = ds := by
  rw [List.takeWhile_append_of_pos hds]
  cases rest with
  | nil => simp
  | cons r rs =>
    have := hrest r rfl
    simp [List.takeWhile, this]

/-- `Sscanf` with `%d` on a value that begins with a sign: the digits after the sign are
scanned and what follows them is ignored; the number must fit in 64 bits. -/
theorem Sscanf_d_signed (ds rest : Str) (hne : ds ≠ [])
    (hds : ∀ c ∈ ds, isDigit c = true) (hrest : ∀ c, rest.head? = some c → isDigit c = false) :
    ((digitsValue ds : Int) < 2 ^ 63 →
      Sscanf_d ('+' :: (ds ++ rest)) = some (digitsValue ds : Int)) ∧
    ((digitsValue ds : Int) ≤ 2 ^ 63 →
      Sscanf_d ('-' :: (ds ++ rest)) = some (-(digitsValue ds : Int))) ∧
    ((2 : Int) ^ 63 ≤ (digitsValue ds : Int) →
      Sscanf_d (ds ++ rest) = none ∧ Sscanf_d ('+' :: (ds ++ rest)) = none) ∧
    ((2 : Int) ^ 63 < (digitsValue ds : Int) → Sscanf_d ('-' :: (ds ++ rest)) = none) := by
  have htw := takeWhile_digits ds rest hds hrest
  have hnn : (0 : Int) ≤ (digitsValue ds : Int) := Int.ofNat_nonneg _
  have hplus : skipSpace ('+' :: (ds ++ rest)) = some ('+' :: (ds ++ rest)) := by
    simp [skipSpace, isSpace]
  have hminus : skipSpace ('-' :: (ds ++ rest)) = some ('-' :: (ds ++ rest)) := by
    simp [skipSpace, isSpace]
  refine ⟨?_, ?_, ?_, ?_⟩
  · intro hr
    unfold Sscanf_d
    rw [hplus]
    simp only [List.head?_cons, Option.some.injEq, List.tail_cons, or_true, if_true, htw, hne,
      if_false, Char.reduceEq, decide_False, Bool.false_eq_true, reduceCtorEq]
    rw [if_pos ⟨by omega, hr⟩]
  · intro hr
    unfold Sscanf_d
    rw [hminus]
    simp only [List.head?_cons, Option.some.injEq, List.tail_cons, true_or, if_true, htw, hne,
      if_false, decide_True]
    rw [if_pos ⟨by omega, by omega⟩]
  · intro hr
    constructor
    · cases ds with
      | nil => exact absurd rfl hne
      | cons d ds' =>
        obtain ⟨h1, h2, h3, h4⟩ := isDigit_facts d (hds d (List.mem_cons_self _ _))
        have htw2 : List.takeWhile isDigit (d :: ds'.append rest) = d :: ds' := htw
        unfold Sscanf_d
        simp only [List.cons_append, skipSpace, h2, if_false, h1, Bool.false_eq_true,
          List.head?_cons, Option.some.injEq, h3, h4, or_self, decide_False]
        rw [htw2]
        simp only [List.cons_ne_nil, if_false]
        rw [if_neg (by omega)]
    · unfold Sscanf_d
      rw [hplus]
      simp only [List.head?_cons, Option.some.injEq, List.tail_cons, or_true, if_true, htw, hne,
        if_false, Char.reduceEq, decide_False, Bool.false_eq_true, reduceCtorEq]
      rw [if_neg (by omega)]
  · intro hr
    unfold Sscanf_d
    rw [hminus]
    simp only [List.head?_cons, Option.some.injEq, List.tail_cons, true_or, if_true, htw, hne,
      if_false, decide_True]
    rw [if_neg (by omega)]

/-- `Sscanf` with `%d` stores nothing when a sign is not followed by a digit. -/
theorem Sscanf_d_sign_only (sgn : Char) (rest : Str) (hs : sgn = '-' ∨ sgn = '+')
    (hrest : ∀ c, rest.head? = some c → isDigit c = false) : Sscanf_d (sgn :: rest) = none := by
  have htw : List.takeWhile isDigit rest = [] := by
    cases rest with
    | nil => rfl
    | cons r rs => simp [List.takeWhile, hrest r rfl]
  rcases hs with h | h <;> subst h <;>
    simp [Sscanf_d, skipSpace, isSpace, htw]

/-- `Sscanf` with `%d` skips the spaces before the number and fails on a newline among
them. -/
theorem Sscanf_d_space (c : Char) (value : Str) :
    (isSpace c = true → c ≠ '\n' → Sscanf_d (c :: value) = Sscanf_d value) ∧
    Sscanf_d ('\n' :: value) = none := by
  constructor
  · intro hc hn
    simp [Sscanf_d, skipSpace, hc, hn]
  · simp [Sscanf_d, skipSpace]

/-- A record returned by `parseBookFile` is the record of the metadata block of the file
that was read. -/
theorem parseBookFile_block (fs : FS) (filePath : Str) (book : BookStats)
    (h : parseBookFile fs filePath = .ok book) :
    ∃ content a fm c, fs.readFile filePath = some content ∧
      content = a ++ delim ++ fm ++ delim ++ c ∧
      (∀ x y, content = x ++ delim ++ y → a.length ≤ x.length) ∧
      (∀ x y, fm ++ delim ++ c = x ++ delim ++ y → fm.length ≤ x.length) ∧
      book = bookFromFrontmatter fm := by
  unfold parseBookFile at h
  cases hr : fs.readFile filePath with
  | none => rw [hr] at h; cases h
  | some content =>
    rw [hr] at h
    rcases split_cases content with ⟨_, hlen⟩ | ⟨a, fm, c, habc, hmin1, hmin2, hs⟩
    · simp [parseBookContent, hlen] at h
    · simp only [parseBookContent, hs] at h
      simp at h
      exact ⟨content, a, fm, c, rfl, habc, hmin1, hmin2, h.symm⟩

/-- The `finished` date of the record of a block stays the zero time when no `finished`
line of the block has a value that parses as a date. -/
theorem bookFromFrontmatter_Finished_zero (fm : Str)
    (hl : ∀ line0 ∈ Split fm ['\n'], ∀ k v, TrimSpace line0 = k ++ ':' :: v → ':' ∉ k →
      TrimSpace k = "finished".toList → Time.Parse (Trim (TrimSpace v) ['"']) = none) :
    (bookFromFrontmatter fm).Finished = Time.zero := by
  rw [(bookFromFrontmatter_fields fm).2.2.2.2.2.2]
  exact foldl_bookLine_keep (fun bk => bk.Finished) "finished".toList
    (fun value => Time.Parse value = none)
    (fun book k value hk => (bookField_other book k value).2.2.2.2.2.2.1 hk)
    (fun book value hv => (bookField_fail book _ value).2 (Or.inr (Or.inr rfl)) hv)
    _ hl {}

/-! ## Aggregate statistics -/

theorem wrap64_add_left (a b : Int) : wrap64 (wrap64 a + b) = wrap64 (a + b) := by
  unfold wrap64
  omega

theorem wrap64_of_range (x : Int) (h1 : -(2 : Int) ^ 63 ≤ x) (h2 : x < (2 : Int) ^ 63) :
    wrap64 x = x := by
  unfold wrap64
  omega

/-- What is true of the empty statistics and kept by both loops and by the final sort is
true of the statistics returned by `LoadBooksFromMarkdown`. -/
theorem LoadBooksFromMarkdown_stats_inv (fs : FS) (now : Time) (P : ReadingStats → Prop)
    (h0 : P {})
    (hr : ∀ st name, P st → P (readingStep fs st name))
    (hf : ∀ st name, P st → P (finishedStep fs now.Year st name))
    (hsort : ∀ st : ReadingStats, P st →
      P { st with
        CurrentBooks := sortSlice (fun a b => a.LastRead.After b.LastRead) st.CurrentBooks
        FinishedBooks := sortSlice (fun a b => a.Finished.After b.Finished) st.FinishedBooks })
    (stats : ReadingStats) (h : LoadBooksFromMarkdown fs now = .ok stats) : P stats := by
  have hfoldr : ∀ (files : List Str) (st : ReadingStats), P st →
      P (files.foldl (readingStep fs) st) := by
    intro files
    induction files with
    | nil => intro st hst; exact hst
    | cons n ns ih => intro st hst; exact ih _ (hr st n hst)
  have hfoldf : ∀ (files : List Str) (st : ReadingStats), P st →
      P (files.foldl (finishedStep fs now.Year) st) := by
    intro files
    induction files with
    | nil => intro st hst; exact hst
    | cons n ns ih => intro st hst; exact ih _ (hf st n hst)
  unfold LoadBooksFromMarkdown at h
  simp only at h
  split at h
  · cases h
  · rename_i st1 hst1
    have hP1 : P st1 := by
      split at hst1
      · cases hd : fs.readDir readingDir with
        | none => rw [hd] at hst1; cases hst1
        | some files =>
          rw [hd] at hst1
          cases hst1
          exact hfoldr files _ h0
      · cases hst1; exact h0
    split at h
    · cases h
    · rename_i st2 hst2
      have hP2 : P st2 := by
        split at hst2
        · cases hd : fs.readDir finishedDir with
          | none => rw [hd] at hst2; cases hst2
          | some files =>
            rw [hd] at hst2
            cases hst2
            exact hfoldf files _ hP1
        · cases hst2; exact hP1
      cases h
      exact hsort st2 hP2

/-- The three totals as wrapped sums over the two lists. -/
theorem LoadBooksFromMarkdown_totals (fs : FS) (now : Time) (stats : ReadingStats)
    (h : LoadBooksFromMarkdown fs now = .ok stats) :
    stats.TotalBooks =
      wrap64 ((stats.CurrentBooks.length : Int) + (stats.FinishedBooks.length : Int)) ∧
    stats.TotalPagesRead =
      wrap64 ((stats.CurrentBooks.map (fun b => b.CurrentPage)).sum +
        (stats.FinishedBooks.map (fun b => b.CurrentPage)).sum) ∧
    stats.TotalReadingTime =
      wrap64 ((stats.CurrentBooks.map (fun b => b.TotalReadingTime)).sum +
        (stats.FinishedBooks.map (fun b => b.TotalReadingTime)).sum) := by
  refine LoadBooksFromMarkdown_stats_inv fs now
    (fun st => st.TotalBooks =
        wrap64 ((st.CurrentBooks.length : Int) + (st.FinishedBooks.length : Int)) ∧
      st.TotalPagesRead =
        wrap64 ((st.CurrentBooks.map (fun b => b.CurrentPage)).sum +
          (st.FinishedBooks.map (fun b => b.CurrentPage)).sum) ∧
      st.TotalReadingTime =
        wrap64 ((st.CurrentBooks.map (fun b => b.TotalReadingTime)).sum +
          (st.FinishedBooks.map (fun b => b.TotalReadingTime)).sum))
    ?_ ?_ ?_ ?_ stats h
  · exact ⟨by decide, by decide, by decide⟩
  · intro st name ⟨h1, h2, h3⟩
    unfold readingStep
    split
    · exact ⟨h1, h2, h3⟩
    · split
      · exact ⟨h1, h2, h3⟩
      · rename_i b0 _
        simp only [List.length_append, List.length_singleton, List.map_append, List.map_cons,
          List.map_nil, List.sum_append, List.sum_cons, List.sum_nil, Nat.cast_add, Nat.cast_one]
        rw [h1, h2, h3, wrap64_add_left, wrap64_add_left, wrap64_add_left]
        refine ⟨?_, ?_, ?_⟩ <;> congr 1 <;> ring
  · intro st name ⟨h1, h2, h3⟩
    unfold finishedStep
    split
    · exact ⟨h1, h2, h3⟩
    · split
      · exact ⟨h1, h2, h3⟩
      · rename_i b0 _
        simp only [List.length_append, List.length_singleton, List.map_append, List.map_cons,
          List.map_nil, List.sum_append, List.sum_cons, List.sum_nil, Nat.cast_add, Nat.cast_one]
        rw [h1, h2, h3, wrap64_add_left, wrap64_add_left, wrap64_add_left]
        refine ⟨?_, ?_, ?_⟩ <;> congr 1 <;> ring
  · intro st ⟨h1, h2, h3⟩
    have pc := sortSlice_perm (fun a b : BookStats => a.LastRead.After b.LastRead) st.CurrentBooks
    have pf := sortSlice_perm (fun a b : BookStats => a.Finished.After b.Finished) st.FinishedBooks
    simp only
    rw [pc.length_eq, pf.length_eq, (pc.map _).sum_eq, (pf.map _).sum_eq,
      (pc.map _).sum_eq, (pf.map _).sum_eq]
    exact ⟨h1, h2, h3⟩

/-- C11 (amended). For every successful load, the totals returned by
`LoadBooksFromMarkdown` are the sums taken in 64-bit integer arithmetic: `totalBooks` is
`length(currentBooks) + length(finishedBooks)`, `totalPagesRead` the sum of `currentPage`
(not `pages`) and `totalReadingTime` the sum of the records' `totalReadingTime` over both
lists, each wrapped around modulo 2^64, and so equal to the exact sum whenever that sum is
within the 64-bit range. -/
theorem C11_totals (fs : FS) (now : Time) (stats : ReadingStats)
    (h : LoadBooksFromMarkdown fs now = .ok stats) :
    (stats.TotalBooks =
        wrap64 ((stats.CurrentBooks.length : Int) + (stats.FinishedBooks.length : Int)) ∧
      ((stats.CurrentBooks.length : Int) + (stats.FinishedBooks.length : Int) < 2 ^ 63 →
        stats.TotalBooks =
          (stats.CurrentBooks.length : Int) + (stats.FinishedBooks.length : Int))) ∧
    (stats.TotalPagesRead =
        wrap64 (((stats.CurrentBooks ++ stats.FinishedBooks).map
          (fun b => b.CurrentPage)).sum) ∧
      (-(2 : Int) ^ 63 ≤ ((stats.CurrentBooks ++ stats.FinishedBooks).map
          (fun b => b.CurrentPage)).sum ∧
        ((stats.CurrentBooks ++ stats.FinishedBooks).map
          (fun b => b.CurrentPage)).sum < 2 ^ 63 →
        stats.TotalPagesRead =
          ((stats.CurrentBooks ++ stats.FinishedBooks).map (fun b => b.CurrentPage)).sum)) ∧
    (stats.TotalReadingTime =
        wrap64 (((stats.CurrentBooks ++ stats.FinishedBooks).map
          (fun b => b.TotalReadingTime)).sum) ∧
      (-(2 : Int) ^ 63 ≤ ((stats.CurrentBooks ++ stats.FinishedBooks).map
          (fun b => b.TotalReadingTime)).sum ∧
        ((stats.CurrentBooks ++ stats.FinishedBooks).map
          (fun b => b.TotalReadingTime)).sum < 2 ^ 63 →
        stats.TotalReadingTime =
          ((stats.CurrentBooks ++ stats.FinishedBooks).map
            (fun b => b.TotalReadingTime)).sum)) := by
  obtain ⟨h1, h2, h3⟩ := LoadBooksFromMarkdown_totals fs now stats h
  simp only [List.map_append, List.sum_append]
  refine ⟨⟨h1, fun hb => ?_⟩, ⟨h2, fun hb => ?_⟩, ⟨h3, fun hb => ?_⟩⟩
  · rw [h1]
    have hnn : (0 : Int) ≤
        (stats.CurrentBooks.length : Int) + (stats.FinishedBooks.length : Int) :=
      Int.add_nonneg (Int.ofNat_nonneg _) (Int.ofNat_nonneg _)
    have hneg : -(2 : Int) ^ 63 ≤ 0 := by decide
    exact wrap64_of_range _ (le_trans hneg hnn) hb
  · rw [h2]; exact wrap64_of_range _ hb.1 hb.2
  · rw [h3]; exact wrap64_of_range _ hb.1 hb.2

/-- C11, witness: the load of `libraryFS`, with totals 3, 158 and 197. -/
theorem C11_totals_witness :
    LoadBooksFromMarkdown libraryFS mid2024 = .ok libraryStats ∧
    libraryStats.TotalBooks = 3 ∧ libraryStats.TotalPagesRead = 158 ∧
    libraryStats.TotalReadingTime = 197 ∧
    libraryStats.TotalPagesRead =
      wrap64 (((libraryStats.CurrentBooks ++ libraryStats.FinishedBooks).map
        (fun b => b.CurrentPage)).sum) :=
  ⟨by rfl, by rfl, by rfl, by rfl,
   (C11_totals libraryFS mid2024 libraryStats (by rfl)).2.1.1⟩

/-- C11, counterexample to the claim as stated: two books at page 5000000000000000000
each are loaded with `totalPagesRead` -8446744073709551616 and `totalReadingTime`
-5946744073709551616, while the sums of the records' `currentPage` and `totalReadingTime`
are 10000000000000000000 and 12500000000000000000. -/
theorem C11_totals_overflow :
    ∃ stats, LoadBooksFromMarkdown overflowFS mid2024 = .ok stats ∧
      stats.CurrentBooks.map (fun b => b.CurrentPage) =
        [5000000000000000000, 5000000000000000000] ∧
      stats.CurrentBooks.map (fun b => b.TotalReadingTime) =
        [6250000000000000000, 6250000000000000000] ∧
      stats.FinishedBooks = [] ∧
      stats.TotalPagesRead = -8446744073709551616 ∧
      stats.TotalReadingTime = -5946744073709551616 ∧
      stats.TotalPagesRead ≠
        ((stats.CurrentBooks ++ stats.FinishedBooks).map (fun b => b.CurrentPage)).sum ∧
      stats.TotalReadingTime ≠
        ((stats.CurrentBooks ++ stats.FinishedBooks).map (fun b => b.TotalReadingTime)).sum :=
  ⟨overflowStats, by rfl, by rfl, by rfl, by rfl, by rfl, by rfl, by decide, by decide⟩

/-- The count of the finished books of the current year, as wrapped counter. -/
theorem LoadBooksFromMarkdown_BooksThisYear (fs : FS) (now : Time) (stats : ReadingStats)
    (h : LoadBooksFromMarkdown fs now = .ok stats) :
    stats.BooksThisYear =
      wrap64 ((stats.FinishedBooks.countP (fun b => decide (b.Finished.Year = now.Year)) : Nat) :
        Int) := by
  refine LoadBooksFromMarkdown_stats_inv fs now
    (fun st => st.BooksThisYear =
      wrap64 ((st.FinishedBooks.countP (fun b => decide (b.Finished.Year = now.Year)) : Nat) :
        Int))
    ?_ ?_ ?_ ?_ stats h
  · show (0 : Int) = wrap64 ((0 : Nat) : Int)
    decide
  · intro st name hst
    unfold readingStep
    split
    · exact hst
    · split
      · exact hst
      · exact hst
  · intro st name hst
    unfold finishedStep
    split
    · exact hst
    · split
      · exact hst
      · rename_i b0 _
        simp only [List.countP_append, List.countP_cons, List.countP_nil]
        by_cases hy : b0.Finished.Year = now.Year
        · simp only [hy, decide_True, if_true, Nat.zero_add, Nat.cast_add, Nat.cast_one]
          rw [hst, wrap64_add_left]
        · simp only [hy, decide_False, if_false, Nat.add_zero]
          exact hst
  · intro st hst
    have pf := sortSlice_perm (fun a b : BookStats => a.Finished.After b.Finished) st.FinishedBooks
    simp only
    rw [pf.countP_eq]
    exact hst

/-- The loop over the reading directory never changes `BooksThisYear`. -/
theorem foldl_readingStep_BooksThisYear (fs : FS) (files : List Str) :
    ∀ st : ReadingStats, (files.foldl (readingStep fs) st).BooksThisYear = st.BooksThisYear := by
  induction files with
  | nil => intro st; rfl
  | cons n ns ih =>
    intro st
    rw [List.foldl_cons, ih]
    unfold readingStep
    split
    · rfl
    · split <;> rfl

/-- C12. For every successful load evaluated at the current year `Y` of `now`,
`booksThisYear` is the number of records in `finishedBooks` whose `finished` date has year
`Y` (a 64-bit counter, exact for fewer than 2^63 records); the loop over the reading
directory never counts; every finished record carries the `finished` date of the metadata
block of a file that was read, and when no `finished` line of that block has a value that
parses as a date (the date is absent or unparseable) the record carries the zero time,
whose year is 1, and is not counted in any current year other than 1. -/
theorem C12_books_this_year (fs : FS) (now : Time) (stats : ReadingStats)
    (h : LoadBooksFromMarkdown fs now = .ok stats) :
    stats.BooksThisYear =
      wrap64 ((stats.FinishedBooks.countP (fun b => decide (b.Finished.Year = now.Year)) : Nat) :
        Int) ∧
    ((stats.FinishedBooks.length : Int) < 2 ^ 63 →
      stats.BooksThisYear =
        ((stats.FinishedBooks.countP (fun b => decide (b.Finished.Year = now.Year)) : Nat) :
          Int)) ∧
    (∀ (files : List Str) (st : ReadingStats),
      (files.foldl (readingStep fs) st).BooksThisYear = st.BooksThisYear) ∧
    Time.zero.Year = 1 ∧
    (now.Year ≠ 1 →
      stats.FinishedBooks.countP (fun b => decide (b.Finished.Year = now.Year)) =
        stats.FinishedBooks.countP
          (fun b => decide (b.Finished ≠ Time.zero ∧ b.Finished.Year = now.Year))) ∧
    (∀ b ∈ stats.FinishedBooks, ∃ filePath content a fm c,
      fs.readFile filePath = some content ∧
      content = a ++ delim ++ fm ++ delim ++ c ∧
      (∀ x y, content = x ++ delim ++ y → a.length ≤ x.length) ∧
      (∀ x y, fm ++ delim ++ c = x ++ delim ++ y → fm.length ≤ x.length) ∧
      b.Finished = (bookFromFrontmatter fm).Finished ∧
      ((∀ line0 ∈ Split fm ['\n'], ∀ k v, TrimSpace line0 = k ++ ':' :: v → ':' ∉ k →
          TrimSpace k = "finished".toList →
          Time.Parse (Trim (TrimSpace v) ['"']) = none) →
        b.Finished = Time.zero ∧ (now.Year ≠ 1 → b.Finished.Year ≠ now.Year))) := by
  have h1 := LoadBooksFromMarkdown_BooksThisYear fs now stats h
  have hz : Time.zero.Year = 1 := by decide
  have hinv := (LoadBooksFromMarkdown_inv fs now (fun _ => True)
    (fun b => ∃ filePath content a fm c,
      fs.readFile filePath = some content ∧
      content = a ++ delim ++ fm ++ delim ++ c ∧
      (∀ x y, content = x ++ delim ++ y → a.length ≤ x.length) ∧
      (∀ x y, fm ++ delim ++ c = x ++ delim ++ y → fm.length ≤ x.length) ∧
      b.Finished = (bookFromFrontmatter fm).Finished ∧
      ((∀ line0 ∈ Split fm ['\n'], ∀ k v, TrimSpace line0 = k ++ ':' :: v → ':' ∉ k →
          TrimSpace k = "finished".toList →
          Time.Parse (Trim (TrimSpace v) ['"']) = none) →
        b.Finished = Time.zero ∧ (now.Year ≠ 1 → b.Finished.Year ≠ now.Year)))
    (fun _ _ _ => trivial)
    (fun filePath b0 hb0 => by
      obtain ⟨content, a, fm, c, hread, habc, hmin1, hmin2, hb⟩ :=
        parseBookFile_block fs filePath b0 hb0
      refine ⟨filePath, content, a, fm, c, hread, habc, hmin1, hmin2, by rw [hb], ?_⟩
      intro hl
      have hzero : b0.Finished = Time.zero := by
        rw [hb]; exact bookFromFrontmatter_Finished_zero fm hl
      refine ⟨hzero, fun hnow => ?_⟩
      show b0.Finished.Year ≠ now.Year
      rw [hzero, hz]
      exact fun e => hnow e.symm)
    stats h).2
  refine ⟨h1, ?_, fun files st => foldl_readingStep_BooksThisYear fs files st, hz, ?_, hinv⟩
  · intro hlen
    rw [h1]
    have hle : stats.FinishedBooks.countP (fun b => decide (b.Finished.Year = now.Year)) ≤
        stats.FinishedBooks.length := List.countP_le_length _
    have hneg : -(2 : Int) ^ 63 ≤ 0 := by decide
    exact wrap64_of_range _ (le_trans hneg (Int.ofNat_nonneg _)) (by omega)
  · intro hnow
    apply List.countP_congr
    intro b _
    by_cases hb : b.Finished = Time.zero
    · have hne : ¬ Time.zero.Year = now.Year := by rw [hz]; exact fun e => hnow e.symm
      simp [hb, hne]
    · simp [hb]

/-- C12, witness: the load of `libraryFS` in 2024 counts the book finished on 2024-03-05
and not the finished book without date. -/
theorem C12_books_this_year_witness :
    LoadBooksFromMarkdown libraryFS mid2024 = .ok libraryStats ∧
    mid2024.Year = 2024 ∧ libraryStats.BooksThisYear = 1 ∧
    libraryStats.FinishedBooks.map (fun b => b.Finished.Year) = [2024, 1] ∧
    ((libraryStats.FinishedBooks.length : Int) < 2 ^ 63 →
      libraryStats.BooksThisYear =
        ((libraryStats.FinishedBooks.countP
          (fun b => decide (b.Finished.Year = mid2024.Year)) : Nat) : Int)) :=
  ⟨by rfl, by rfl, by rfl, by rfl,
   (C12_books_this_year libraryFS mid2024 libraryStats (by rfl)).2.1⟩

/-- C13. Every record in `finishedBooks` returned by `LoadBooksFromMarkdown` has status
`finished` and progress exactly 100, the `float64` of the integer 100, whatever its pages
and current page; every record in `currentBooks` has status `reading` and is otherwise the
record returned by `parseBookFile` for a file, with the progress computed there. -/
theorem C13_status_and_progress (fs : FS) (now : Time) (stats : ReadingStats)
    (h : LoadBooksFromMarkdown fs now = .ok stats) :
    (∀ b ∈ stats.FinishedBooks,
      b.Status = "finished".toList ∧ b.Progress = F64.ofInt 100 ∧
      F64.ofInt 100 = ⟨100, 0⟩) ∧
    (∀ b ∈ stats.CurrentBooks,
      b.Status = "reading".toList ∧
      ∃ path b0, parseBookFile fs path = .ok b0 ∧ b.Progress = b0.Progress ∧
        b = { b0 with Status := "reading".toList }) := by
  have hinv := LoadBooksFromMarkdown_inv fs now
    (fun b => b.Status = "reading".toList ∧
      ∃ path b0, parseBookFile fs path = .ok b0 ∧ b.Progress = b0.Progress ∧
        b = { b0 with Status := "reading".toList })
    (fun b => b.Status = "finished".toList ∧ b.Progress = F64.ofInt 100 ∧
      F64.ofInt 100 = ⟨100, 0⟩)
    (fun path b0 hb0 => ⟨rfl, path, b0, hb0, rfl, rfl⟩)
    (fun path b0 hb0 => ⟨rfl, rfl, by decide⟩)
    stats h
  exact ⟨hinv.2, hinv.1⟩

/-- C13, witness: in the load of `libraryFS` the finished book at page 50 of 200 and the
finished book without `pages` both have progress 100. -/
theorem C13_status_and_progress_witness :
    LoadBooksFromMarkdown libraryFS mid2024 = .ok libraryStats ∧
    libraryStats.FinishedBooks.map (fun b => (b.Pages, b.CurrentPage)) = [(200, 50), (0, 8)] ∧
    (∀ b ∈ libraryStats.FinishedBooks,
      b.Status = "finished".toList ∧ b.Progress = F64.ofInt 100 ∧
      F64.ofInt 100 = ⟨100, 0⟩) :=
  ⟨by rfl, by rfl, (C13_status_and_progress libraryFS mid2024 libraryStats (by rfl)).1⟩

/-! ## Malformed documents in the live feed -/

/-- A content without two delimiters is turned by `parseBlogPostMetadata` into the empty
post, without error. -/
theorem parseBlogPostMetadata_malformed (fs : FS) (filePath slug content : Str)
    (hread : fs.readFile filePath = some content)
    (hbad : ¬ ∃ a b c, content = a ++ delim ++ b ++ delim ++ c) :
    parseBlogPostMetadata fs filePath slug = .ok {} := by
  rcases split_cases content with ⟨_, hlen⟩ | ⟨a, b, c, habc, _⟩
  · simp [parseBlogPostMetadata, hread, hlen]
  · exact absurd ⟨a, b, c, habc⟩ hbad

/-- C14, the code at the failing input: the file `q.md` of `blogFS` has no closing `---`;
the build-time loader skips it, but `loadBlogPostsForRSS` appends the empty post for it, and
the feed of `RSS` has two items for one file with well-formed frontmatter, the second item
with the bare link `https://andrej.sh/blog/` and the date of the zero time. -/
theorem C14_malformed_post_kept :
    blogFS.readFile (Join blogDir "q.md".toList) = some malformedContent ∧
    (¬ ∃ a b c, malformedContent = a ++ delim ++ b ++ delim ++ c) ∧
    parseBlogPostMetadata blogFS (Join blogDir "q.md".toList) "q".toList = .ok {} ∧
    loadBlogPostsForRSS blogFS = .ok [parsedMetadata, {}] ∧
    (RSS blogFS mid2024).map (fun feed => feed.Channel.Items.length) = some 2 ∧
    (RSS blogFS mid2024).map (fun feed => feed.Channel.Items.map (fun it => it.Link)) =
      some ["https://andrej.sh/blog/p".toList, "https://andrej.sh/blog/".toList] ∧
    (RSS blogFS mid2024).map (fun feed => feed.Channel.Items.map (fun it => it.PubDate)) =
      some ["Sat, 01 Jun 2024 00:00:00 +0000".toList,
        "Mon, 01 Jan 0001 00:00:00 +0000".toList] ∧
    parseBlogPost idConvert blogFS (Join blogDir "q.md".toList) "q".toList =
      .error Err.invalidFrontmatter ∧
    loadBlogPosts idConvert blogFS = .ok [parsedPost] :=
  ⟨by rfl, not_two_delims malformedContent (by decide),
   parseBlogPostMetadata_malformed blogFS _ _ malformedContent (by rfl)
     (not_two_delims malformedContent (by decide)),
   by rfl, by rfl, by rfl, by rfl, by rfl, by rfl⟩

/-! ## Normalisation of the values -/

/-- C15 (amended). Frontmatter value normalisation: for every line whose trimmed text is
`key:value` cut at its first colon, the value stored by the three parsers for the text
fields (`title` and `author` of a book, `title`, `date` and `excerpt` of a post) is the text
after the first colon with surrounding whitespace trimmed and then with all leading and all
trailing double quotes removed, not one layer only: the stored value neither begins nor ends
with a quote; `""a""` is stored as `a`; a trimmed value that neither begins nor ends with a
quote is stored unchanged. -/
theorem C15_value_normalisation (line0 k v : Str)
    (hline : TrimSpace line0 = k ++ ':' :: v) (hk : ':' ∉ k) :
    (∀ book : BookStats,
      (TrimSpace k = "title".toList →
        (bookLine book line0).Title = Trim (TrimSpace v) ['"']) ∧
      (TrimSpace k = "author".toList →
        (bookLine book line0).Author = Trim (TrimSpace v) ['"'])) ∧
    (∀ post : BlogPost,
      (TrimSpace k = "title".toList →
        (postLine post line0).Title = Trim (TrimSpace v) ['"'] ∧
        (metadataLine post line0).Title = Trim (TrimSpace v) ['"']) ∧
      (TrimSpace k = "date".toList →
        (postLine post line0).Date = Trim (TrimSpace v) ['"'] ∧
        (metadataLine post line0).Date = Trim (TrimSpace v) ['"']) ∧
      (TrimSpace k = "excerpt".toList →
        (postLine post line0).Excerpt = Trim (TrimSpace v) ['"'] ∧
        (metadataLine post line0).Excerpt = Trim (TrimSpace v) ['"'])) ∧
    (∃ pre suf, v = pre ++ TrimSpace v ++ suf ∧
      (∀ c ∈ pre, isSpace c = true) ∧ (∀ c ∈ suf, isSpace c = true)) ∧
    (∀ c, (TrimSpace v).head? = some c → isSpace c = false) ∧
    (∀ c, (TrimSpace v).getLast? = some c → isSpace c = false) ∧
    (∃ i j, TrimSpace v =
      List.replicate i '"' ++ Trim (TrimSpace v) ['"'] ++ List.replicate j '"') ∧
    (Trim (TrimSpace v) ['"']).head? ≠ some '"' ∧
    (Trim (TrimSpace v) ['"']).getLast? ≠ some '"' ∧
    ((TrimSpace v).head? ≠ some '"' → (TrimSpace v).getLast? ≠ some '"' →
      Trim (TrimSpace v) ['"'] = TrimSpace v) ∧
    Trim "\"\"a\"\"".toList ['"'] = "a".toList := by
  have hq : ∀ c : Char, (['"'] : Str).contains c = true ↔ c = '"' := by
    intro c; simp
  have hqf : ∀ c : Char, (['"'] : Str).contains c = false ↔ c ≠ '"' := by
    intro c; simp
  obtain ⟨⟨pre, suf, hsp, hpre, hsuf⟩, hsh, hsl⟩ := trim_spec isSpace v
  obtain ⟨⟨qpre, qsuf, hqs, hqpre, hqsuf⟩, hqh, hql⟩ :=
    trim_spec (fun c => (['"'] : Str).contains c) (TrimSpace v)
  refine ⟨?_, ?_, ⟨pre, suf, hsp, hpre, hsuf⟩, hsh, hsl, ?_, ?_, ?_, ?_, by decide⟩
  · intro book
    rw [bookLine_eq book line0 k v hline hk]
    constructor
    · intro hkey; simp [bookField, hkey]
    · intro hkey
      have hne : ¬ ("author".toList = "title".toList) := by decide
      simp [bookField, hkey, hne]
  · intro post
    rw [metadataLine_eq_postLine, postLine_eq post line0 k v hline hk]
    refine ⟨?_, ?_, ?_⟩
    · intro hkey; simp [hkey]
    · intro hkey
      have hne : ¬ ("date".toList = "title".toList) := by decide
      simp only [hkey, hne, if_false, if_true]
      cases Time.Parse (Trim (TrimSpace v) ['"']) <;> simp
    · intro hkey
      have hne1 : ¬ ("excerpt".toList = "title".toList) := by decide
      have hne2 : ¬ ("excerpt".toList = "date".toList) := by decide
      simp [hkey, hne1, hne2]
  · refine ⟨qpre.length, qsuf.length, ?_⟩
    have e1 : qpre = List.replicate qpre.length '"' :=
      List.eq_replicate_length.2 (fun c hc => (hq c).1 (hqpre c hc))
    have e2 : qsuf = List.replicate qsuf.length '"' :=
      List.eq_replicate_length.2 (fun c hc => (hq c).1 (hqsuf c hc))
    rw [← e1, ← e2]
    exact hqs
  · intro h
    have := hqh '"' h
    simp at this
  · intro h
    have := hql '"' h
    simp at this
  · intro hh hl
    exact trim_id (fun c => (['"'] : Str).contains c) (TrimSpace v)
      (fun c hc => (hqf c).2 (fun e => hh (by rw [hc, e])))
      (fun c hc => (hqf c).2 (fun e => hl (by rw [hc, e])))

/-- C15, witness: the line `  title: "Dune"  `. -/
theorem C15_value_normalisation_witness :
    TrimSpace "  title: \"Dune\"  ".toList = "title".toList ++ ':' :: " \"Dune\"".toList ∧
    ':' ∉ "title".toList ∧
    (bookLine {} "  title: \"Dune\"  ".toList).Title = "Dune".toList ∧
    (TrimSpace "title".toList = "title".toList →
      (bookLine {} "  title: \"Dune\"  ".toList).Title =
        Trim (TrimSpace " \"Dune\"".toList) ['"']) :=
  ⟨by decide, by decide, by rfl,
   ((C15_value_normalisation "  title: \"Dune\"  ".toList "title".toList " \"Dune\"".toList
      (by decide) (by decide)).1 {}).1⟩

/-- C15, counterexample to the claim as stated: a book file with the line `title: ""a""`
gets the title `a`, not `"a"`, and with the line `author: "b` the author `b`; the post
parsers store `a` as well. -/
theorem C15_all_quotes_removed :
    ∃ book, parseBookFile quotedFS bookPath = .ok book ∧
      book.Title = "a".toList ∧ book.Title ≠ "\"a\"".toList ∧
      book.Author = "b".toList ∧
      (postLine {} "title: \"\"a\"\"".toList).Title = "a".toList ∧
      (metadataLine {} "title: \"\"a\"\"".toList).Title = "a".toList :=
  ⟨{ Title := "a".toList, Author := "b".toList }, by rfl, by rfl, by decide, by rfl, by rfl,
   by rfl⟩


/-! ## Values that cannot be read -/

/-- C16 (amended). Unparseable scalar fields in a book file: for every content with a
well-formed frontmatter split, `parseBookFile` returns the record of the metadata block
without error whatever the field values are. A date field is left at the zero time when no
line of the block gives it a valid `YYYY-MM-DD` date, and an integer field at 0 when
`Sscanf` scans no integer from the value of any of its lines. A line whose value cannot be
read leaves the whole record as it was before the line (not necessarily at zero), and a
line never changes a field other than the one its key names. A line whose value can be read
stores it: a `pages` or `current_page` line whose value scans as `i` sets that field to `i`,
a date line whose value parses as `t` sets its field to `t`, a `title` or `author` line
stores its value, and nothing else of the record changes; the scalar fields of the returned
record are those of the record after the last line. The integer scan is best-effort: a
value that begins with digits, or with a sign and digits, is stored as the number they
spell, whatever follows, provided the number fits in 64 bits; it stores nothing when the
number does not fit, when the value is empty, when a sign is not followed by a digit, or
when the value begins with a character that is neither a digit, nor a space, nor a sign;
spaces before the number are skipped. -/
theorem C16_unparseable_fields (fs : FS) (filePath content : Str)
    (hread : fs.readFile filePath = some content)
    (hsplit : ∃ a b c, content = a ++ delim ++ b ++ delim ++ c) :
    (∃ a b c, content = a ++ delim ++ b ++ delim ++ c ∧
      (∀ x y, content = x ++ delim ++ y → a.length ≤ x.length) ∧
      (∀ x y, b ++ delim ++ c = x ++ delim ++ y → b.length ≤ x.length) ∧
      parseBookFile fs filePath = .ok (bookFromFrontmatter b) ∧
      ((∀ line0 ∈ Split b ['\n'], ∀ k v, TrimSpace line0 = k ++ ':' :: v → ':' ∉ k →
          TrimSpace k = "pages".toList → Sscanf_d (Trim (TrimSpace v) ['"']) = none) →
        (bookFromFrontmatter b).Pages = 0) ∧
      ((∀ line0 ∈ Split b ['\n'], ∀ k v, TrimSpace line0 = k ++ ':' :: v → ':' ∉ k →
          TrimSpace k = "current_page".toList →
          Sscanf_d (Trim (TrimSpace v) ['"']) = none) →
        (bookFromFrontmatter b).CurrentPage = 0) ∧
      ((∀ line0 ∈ Split b ['\n'], ∀ k v, TrimSpace line0 = k ++ ':' :: v → ':' ∉ k →
          TrimSpace k = "started".toList → Time.Parse (Trim (TrimSpace v) ['"']) = none) →
        (bookFromFrontmatter b).Started = Time.zero) ∧
      ((∀ line0 ∈ Split b ['\n'], ∀ k v, TrimSpace line0 = k ++ ':' :: v → ':' ∉ k →
          TrimSpace k = "last_updated".toList →
          Time.Parse (Trim (TrimSpace v) ['"']) = none) →
        (bookFromFrontmatter b).LastRead = Time.zero) ∧
      ((∀ line0 ∈ Split b ['\n'], ∀ k v, TrimSpace line0 = k ++ ':' :: v → ':' ∉ k →
          TrimSpace k = "finished".toList → Time.Parse (Trim (TrimSpace v) ['"']) = none) →
        (bookFromFrontmatter b).Finished = Time.zero)) ∧
    (∀ (book : BookStats) (line0 : Str),
      bookLine book line0 = book ∨ ∃ k v, TrimSpace line0 = k ++ ':' :: v ∧ ':' ∉ k) ∧
    (∀ (book : BookStats) (line0 k v : Str), TrimSpace line0 = k ++ ':' :: v → ':' ∉ k →
      ((TrimSpace k = "pages".toList ∨ TrimSpace k = "current_page".toList) →
        Sscanf_d (Trim (TrimSpace v) ['"']) = none → bookLine book line0 = book) ∧
      ((TrimSpace k = "started".toList ∨ TrimSpace k = "last_updated".toList ∨
          TrimSpace k = "finished".toList) →
        Time.Parse (Trim (TrimSpace v) ['"']) = none → bookLine book line0 = book) ∧
      (TrimSpace k ≠ "title".toList → (bookLine book line0).Title = book.Title) ∧
      (TrimSpace k ≠ "author".toList → (bookLine book line0).Author = book.Author) ∧
      (TrimSpace k ≠ "pages".toList → (bookLine book line0).Pages = book.Pages) ∧
      (TrimSpace k ≠ "current_page".toList →
        (bookLine book line0).CurrentPage = book.CurrentPage) ∧
      (TrimSpace k ≠ "started".toList → (bookLine book line0).Started = book.Started) ∧
      (TrimSpace k ≠ "last_updated".toList →
        (bookLine book line0).LastRead = book.LastRead) ∧
      (TrimSpace k ≠ "finished".toList →
        (bookLine book line0).Finished = book.Finished)) ∧
    (∀ ds rest : Str, ds ≠ [] → (∀ c ∈ ds, isDigit c = true) →
      (∀ c, rest.head? = some c → isDigit c = false) → (digitsValue ds : Int) < 2 ^ 63 →
      Sscanf_d (ds ++ rest) = some (digitsValue ds : Int)) ∧
    (∀ value : Str,
      (∀ c, value.head? = some c →
        isDigit c = false ∧ isSpace c = false ∧ c ≠ '-' ∧ c ≠ '+') →
      Sscanf_d value = none) ∧
    (∀ (book : BookStats) (line0 k v : Str), TrimSpace line0 = k ++ ':' :: v → ':' ∉ k →
      (TrimSpace k = "title".toList →
        bookLine book line0 = { book with Title := Trim (TrimSpace v) ['"'] }) ∧
      (TrimSpace k = "author".toList →
        bookLine book line0 = { book with Author := Trim (TrimSpace v) ['"'] }) ∧
      (TrimSpace k = "pages".toList → ∀ i, Sscanf_d (Trim (TrimSpace v) ['"']) = some i →
        bookLine book line0 = { book with Pages := i }) ∧
      (TrimSpace k = "current_page".toList →
        ∀ i, Sscanf_d (Trim (TrimSpace v) ['"']) = some i →
        bookLine book line0 = { book with CurrentPage := i }) ∧
      (TrimSpace k = "started".toList →
        ∀ t, Time.Parse (Trim (TrimSpace v) ['"']) = some t →
        bookLine book line0 = { book with Started := t }) ∧
      (TrimSpace k = "last_updated".toList →
        ∀ t, Time.Parse (Trim (TrimSpace v) ['"']) = some t →
        bookLine book line0 = { book with LastRead := t }) ∧
      (TrimSpace k = "finished".toList →
        ∀ t, Time.Parse (Trim (TrimSpace v) ['"']) = some t →
        bookLine book line0 = { book with Finished := t })) ∧
    (∀ fm : Str,
      (bookFromFrontmatter fm).Title = ((Split fm ['\n']).foldl bookLine {}).Title ∧
      (bookFromFrontmatter fm).Author = ((Split fm ['\n']).foldl bookLine {}).Author ∧
      (bookFromFrontmatter fm).Pages = ((Split fm ['\n']).foldl bookLine {}).Pages ∧
      (bookFromFrontmatter fm).CurrentPage =
        ((Split fm ['\n']).foldl bookLine {}).CurrentPage ∧
      (bookFromFrontmatter fm).Started = ((Split fm ['\n']).foldl bookLine {}).Started ∧
      (bookFromFrontmatter fm).LastRead = ((Split fm ['\n']).foldl bookLine {}).LastRead ∧
      (bookFromFrontmatter fm).Finished = ((Split fm ['\n']).foldl bookLine {}).Finished) ∧
    (∀ ds rest : Str, ds ≠ [] → (∀ c ∈ ds, isDigit c = true) →
      (∀ c, rest.head? = some c → isDigit c = false) →
      ((digitsValue ds : Int) < 2 ^ 63 →
        Sscanf_d ('+' :: (ds ++ rest)) = some (digitsValue ds : Int)) ∧
      ((digitsValue ds : Int) ≤ 2 ^ 63 →
        Sscanf_d ('-' :: (ds ++ rest)) = some (-(digitsValue ds : Int))) ∧
      ((2 : Int) ^ 63 ≤ (digitsValue ds : Int) →
        Sscanf_d (ds ++ rest) = none ∧ Sscanf_d ('+' :: (ds ++ rest)) = none) ∧
      ((2 : Int) ^ 63 < (digitsValue ds : Int) → Sscanf_d ('-' :: (ds ++ rest)) = none)) ∧
    (∀ (sgn : Char) (rest : Str), sgn = '-' ∨ sgn = '+' →
      (∀ c, rest.head? = some c → isDigit c = false) → Sscanf_d (sgn :: rest) = none) ∧
    (∀ (c : Char) (value : Str),
      (isSpace c = true → c ≠ '\n' → Sscanf_d (c :: value) = Sscanf_d value) ∧
      Sscanf_d ('\n' :: value) = none) := by
  refine ⟨?_, ?_, ?_, Sscanf_d_digits, Sscanf_d_none, ?_, bookFromFrontmatter_fields,
    Sscanf_d_signed, Sscanf_d_sign_only, Sscanf_d_space⟩
  rotate_left 3
  · intro book line0 k v hl hk
    rw [bookLine_eq book line0 k v hl hk]
    exact bookField_store book (TrimSpace k) (Trim (TrimSpace v) ['"'])
  · have hbook : parseBookFile fs filePath = parseBookContent content := by
      simp [parseBookFile, hread]
    rcases split_cases content with ⟨hno, _⟩ | ⟨a, b, c, habc, hmin1, hmin2, hs⟩
    · exact absurd hsplit hno
    · obtain ⟨_, _, f3, f4, f5, f6, f7⟩ := bookFromFrontmatter_fields b
      refine ⟨a, b, c, habc, hmin1, hmin2, ?_, ?_, ?_, ?_, ?_, ?_⟩
      · rw [hbook]; simp [parseBookContent, hs]
      · intro hl
        rw [f3]
        exact foldl_bookLine_keep (fun bk => bk.Pages) "pages".toList
          (fun value => Sscanf_d value = none)
          (fun book k value hk => (bookField_other book k value).2.2.1 hk)
          (fun book value hv => (bookField_fail book _ value).1 (Or.inl rfl) hv)
          _ hl {}
      · intro hl
        rw [f4]
        exact foldl_bookLine_keep (fun bk => bk.CurrentPage) "current_page".toList
          (fun value => Sscanf_d value = none)
          (fun book k value hk => (bookField_other book k value).2.2.2.1 hk)
          (fun book value hv => (bookField_fail book _ value).1 (Or.inr rfl) hv)
          _ hl {}
      · intro hl
        rw [f5]
        exact foldl_bookLine_keep (fun bk => bk.Started) "started".toList
          (fun value => Time.Parse value = none)
          (fun book k value hk => (bookField_other book k value).2.2.2.2.1 hk)
          (fun book value hv => (bookField_fail book _ value).2 (Or.inl rfl) hv)
          _ hl {}
      · intro hl
        rw [f6]
        exact foldl_bookLine_keep (fun bk => bk.LastRead) "last_updated".toList
          (fun value => Time.Parse value = none)
          (fun book k value hk => (bookField_other book k value).2.2.2.2.2.1 hk)
          (fun book value hv => (bookField_fail book _ value).2 (Or.inr (Or.inl rfl)) hv)
          _ hl {}
      · intro hl
        rw [f7]
        exact foldl_bookLine_keep (fun bk => bk.Finished) "finished".toList
          (fun value => Time.Parse value = none)
          (fun book k value hk => (bookField_other book k value).2.2.2.2.2.2.1 hk)
          (fun book value hv => (bookField_fail book _ value).2 (Or.inr (Or.inr rfl)) hv)
          _ hl {}
  · intro book line0
    rcases bookLine_cases book line0 with h | ⟨k, v, hl, hk, _⟩
    · exact Or.inl h
    · exact Or.inr ⟨k, v, hl, hk⟩
  · intro book line0 k v hl hk
    rw [bookLine_eq book line0 k v hl hk]
    obtain ⟨o1, o2, o3, o4, o5, o6, o7, _⟩ :=
      bookField_other book (TrimSpace k) (Trim (TrimSpace v) ['"'])
    obtain ⟨g1, g2⟩ := bookField_fail book (TrimSpace k) (Trim (TrimSpace v) ['"'])
    exact ⟨g1, g2, o1, o2, o3, o4, o5, o6, o7⟩

/-- Witness for C16: a book file whose integer and date fields are all unreadable is
parsed without error and keeps those fields at their zero values. -/
theorem C16_unparseable_fields_witness :
    badFieldsFS.readFile bookPath = some badFieldsContent ∧
    (∃ a b c, badFieldsContent = a ++ delim ++ b ++ delim ++ c) ∧
    (∃ a b c, badFieldsContent = a ++ delim ++ b ++ delim ++ c ∧
      parseBookFile badFieldsFS bookPath = .ok (bookFromFrontmatter b)) ∧
    parseBookFile badFieldsFS bookPath = .ok { Title := "T".toList } :=
  ⟨by rfl,
   ⟨[], "\ntitle: T\npages: abc\ncurrent_page:\nstarted: 2024-13-01\nfinished: soon\n".toList,
     "\n".toList, by rfl⟩,
   (match (C16_unparseable_fields badFieldsFS bookPath badFieldsContent (by rfl)
      ⟨[], "\ntitle: T\npages: abc\ncurrent_page:\nstarted: 2024-13-01\nfinished: soon\n".toList,
        "\n".toList, by rfl⟩).1 with
    | ⟨a, b, c, habc, _, _, hp, _⟩ => ⟨a, b, c, habc, hp⟩),
   by rfl⟩

/-- Counterexample to C16 as stated: integer fields whose values are not well-formed
integers are stored as the number their leading digits spell (`12abc` gives 12 pages,
`7 of 12` gives current page 7), and a field written twice keeps the value of the readable
line (10 pages, finished 2024-03-05) although its last value cannot be read, instead of
being left at zero. -/
theorem C16_fields_not_zero :
    (∃ book, parseBookFile prefixFS bookPath = .ok book ∧
      book.Pages = 12 ∧ book.CurrentPage = 7 ∧
      "12abc".toList.all isDigit = false ∧ "7 of 12".toList.all isDigit = false) ∧
    (∃ book, parseBookFile duplicateFS bookPath = .ok book ∧
      book.Pages = 10 ∧ book.Finished = Time.Date 2024 3 5 ∧
      book.Finished ≠ Time.zero ∧
      Sscanf_d "ten".toList = none ∧ Time.Parse "soon".toList = none) :=
  ⟨⟨_, rfl, by rfl, by rfl, by rfl, by rfl⟩,
   ⟨_, rfl, by rfl, by rfl, by decide,
     by rfl, by rfl⟩⟩


/-! ## Agreement of the two post parsers -/

/-- A frontmatter line sets neither the slug, nor the content, nor the reading time. -/
theorem postLine_keeps (post : BlogPost) (line0 : Str) :
    (postLine post line0).Slug = post.Slug ∧
    (postLine post line0).Content = post.Content ∧
    (postLine post line0).ReadingTime = post.ReadingTime := by
  unfold postLine
  dsimp only
  refine ⟨?_, ?_, ?_⟩ <;> (repeat' split) <;> rfl

theorem foldl_postLine_keeps (lines : List Str) :
    ∀ post : BlogPost,
      (lines.foldl postLine post).Slug = post.Slug ∧
      (lines.foldl postLine post).Content = post.Content ∧
      (lines.foldl postLine post).ReadingTime = post.ReadingTime := by
  induction lines with
  | nil => intro post; exact ⟨rfl, rfl, rfl⟩
  | cons l ls ih =>
    intro post
    rw [List.foldl_cons]
    obtain ⟨h1, h2, h3⟩ := ih (postLine post l)
    obtain ⟨g1, g2, g3⟩ := postLine_keeps post l
    exact ⟨h1.trans g1, h2.trans g2, h3.trans g3⟩

/-- On a content with two delimiters the live parser returns the post of the frontmatter
block, and the build parser either fails to render or returns that post with content and
reading time added. -/
theorem parsers_agree_file (convert : Str → Option Str) (fs : FS)
    (filePath slug content : Str) (hread : fs.readFile filePath = some content)
    (hsplit : ∃ a b c, content = a ++ delim ++ b ++ delim ++ c) :
    ∃ m, parseBlogPostMetadata fs filePath slug = .ok m ∧ m.Slug = slug ∧
      ((parseBlogPost convert fs filePath slug = .error Err.render ∧
          ∃ markdown, convert markdown = none) ∨
        ∃ p, parseBlogPost convert fs filePath slug = .ok p ∧ metadataOf p = m) := by
  rcases split_cases content with ⟨hno, _⟩ | ⟨a, b, c, _, _, _, hs⟩
  · exact absurd hsplit hno
  · obtain ⟨k1, k2, k3⟩ := foldl_postLine_keeps (Split b ['\n']) { Slug := slug }
    refine ⟨(Split b ['\n']).foldl postLine { Slug := slug }, ?_, k1, ?_⟩
    · simp [parseBlogPostMetadata, hread, hs, metadataLine_eq_postLine]
    · cases hc : convert (TrimSpace c) with
      | none =>
        left
        refine ⟨?_, TrimSpace c, hc⟩
        simp [parseBlogPost, parseBlogContent, hread, hs, postFromParts, hc]
      | some html =>
        right
        refine ⟨{ (Split b ['\n']).foldl postLine { Slug := slug } with
          Content := html
          ReadingTime :=
            itoa (max (((Fields (TrimSpace c)).length : Int) / 200) 1) ++
              " min read".toList }, ?_, ?_⟩
        · simp [parseBlogPost, parseBlogContent, hread, hs, postFromParts, hc]
        · generalize (Split b ['\n']).foldl postLine { Slug := slug } = post at k2 k3 ⊢
          cases post
          simp only [metadataOf] at k2 k3 ⊢
          simp_all

theorem insertLeft_map {α β : Type} (f : α → β) (less : α → α → Bool) (less2 : β → β → Bool)
    (h : ∀ a b, less2 (f a) (f b) = less a b) (x : α) (l : List α) :
    insertLeft less2 (f x) (l.map f) = (insertLeft less x l).map f := by
  induction l with
  | nil => rfl
  | cons y ys ih =>
    simp only [List.map_cons, insertLeft, h]
    split
    · simp [ih]
    · simp

theorem foldl_insertLeft_map {α β : Type} (f : α → β) (less : α → α → Bool)
    (less2 : β → β → Bool) (h : ∀ a b, less2 (f a) (f b) = less a b) (s : List α) :
    ∀ acc : List α,
      (s.map f).foldl (fun sorted x => insertLeft less2 x sorted) (acc.map f) =
        (s.foldl (fun sorted x => insertLeft less x sorted) acc).map f := by
  induction s with
  | nil => intro acc; rfl
  | cons x xs ih =>
    intro acc
    rw [List.map_cons, List.foldl_cons, List.foldl_cons, insertLeft_map f less less2 h, ih]

/-- Sorting commutes with a map that respects the order. -/
theorem sortSlice_map {α β : Type} (f : α → β) (less : α → α → Bool) (less2 : β → β → Bool)
    (h : ∀ a b, less2 (f a) (f b) = less a b) (s : List α) :
    sortSlice less2 (s.map f) = (sortSlice less s).map f := by
  unfold sortSlice
  have := foldl_insertLeft_map f less less2 h s []
  rw [List.map_nil] at this
  rw [this, List.map_reverse]

theorem sortPosts_metadataOf (posts : List BlogPost) :
    sortPosts (posts.map metadataOf) = (sortPosts posts).map metadataOf :=
  sortSlice_map metadataOf _ _ (fun _ _ => rfl) posts

/-- The feed does not depend on the content and reading time of the posts. -/
theorem feedOf_metadataOf (now : Time) (posts : List BlogPost) :
    feedOf now (posts.map metadataOf) = feedOf now posts := by
  have hitems : feedItems (posts.map metadataOf) = feedItems posts := by
    rw [feedItems_eq_map, feedItems_eq_map, List.map_map]
    rfl
  have hdate : lastBuildDate now (posts.map metadataOf) = lastBuildDate now posts := by
    cases posts <;> rfl
  simp only [feedOf, hitems, hdate]

/-- The two loading loops, run over the same names, keep the live list equal to the
metadata of the build list when every markdown file that can be read has two delimiters
and renders. -/
theorem load_loops_agree (convert : Str → Option Str) (fs : FS) (files : List Str)
    (hfiles : ∀ name ∈ files, Ext name = ".md".toList →
      (∀ content, fs.readFile (Join blogDir name) = some content →
        ∃ a b c, content = a ++ delim ++ b ++ delim ++ c) ∧
      parseBlogPost convert fs (Join blogDir name) (TrimSuffix name ".md".toList) ≠
        .error Err.render) :
    ∀ posts : List BlogPost,
      files.foldl (fun posts name =>
        if Ext name ≠ ".md".toList then posts
        else
          match parseBlogPostMetadata fs (Join blogDir name) (TrimSuffix name ".md".toList) with
          | .error _ => posts
          | .ok post => posts ++ [post]) (posts.map metadataOf) =
      (files.foldl (fun posts name =>
        if Ext name ≠ ".md".toList then posts
        else
          match parseBlogPost convert fs (Join blogDir name) (TrimSuffix name ".md".toList) with
          | .error _ => posts
          | .ok post => posts ++ [post]) posts).map metadataOf := by
  induction files with
  | nil => intro posts; rfl
  | cons name names ih =>
    intro posts
    have hname := hfiles name (List.mem_cons_self _ _)
    have ih2 := ih (fun n hn => hfiles n (List.mem_cons_of_mem _ hn))
    rw [List.foldl_cons, List.foldl_cons]
    by_cases hext : Ext name = ".md".toList
    · obtain ⟨hsp, hrender⟩ := hname hext
      rw [if_neg (not_not.mpr hext), if_neg (not_not.mpr hext)]
      cases hread : fs.readFile (Join blogDir name) with
      | none =>
        have e1 : parseBlogPostMetadata fs (Join blogDir name)
            (TrimSuffix name ".md".toList) = .error Err.io := by
          simp [parseBlogPostMetadata, hread]
        have e2 : parseBlogPost convert fs (Join blogDir name)
            (TrimSuffix name ".md".toList) = .error Err.io := by
          simp [parseBlogPost, hread]
        rw [e1, e2]
        exact ih2 posts
      | some content =>
        obtain ⟨m, hm, _, hp⟩ := parsers_agree_file convert fs (Join blogDir name)
          (TrimSuffix name ".md".toList) content hread (hsp content hread)
        rcases hp with ⟨herr, _⟩ | ⟨p, hp, hpm⟩
        · exact absurd herr hrender
        · rw [hm, hp]
          have := ih2 (posts ++ [p])
          rw [List.map_append, List.map_singleton, hpm] at this
          exact this
    · rw [if_pos hext, if_pos hext]
      exact ih2 posts

/-- C17. The two blog frontmatter parsers agree: for every file content with at least two
`---` delimiters and every slug, the live-server `parseBlogPostMetadata` returns a post
with that slug, and the build-time `parseBlogPost` either fails in the markdown rendering
or returns a post with the same slug, title, date, raw date and excerpt, hence the same
feed item. For a blog directory in which every markdown file that can be read has two
delimiters and renders, the live loader returns the posts of the build loader without
content and reading time, in the same order, and the live feed (`RSS`) equals the built
feed (`main` calling `buildRSSFeed`) at the same time of the call; both are absent when
the directory cannot be read. -/
theorem C17_parsers_agree (convert : Str → Option Str) (fs : FS) (now : Time) :
    (∀ filePath slug content : Str, fs.readFile filePath = some content →
      (∃ a b c, content = a ++ delim ++ b ++ delim ++ c) →
      ∃ m, parseBlogPostMetadata fs filePath slug = .ok m ∧ m.Slug = slug ∧
        ((parseBlogPost convert fs filePath slug = .error Err.render ∧
            ∃ markdown, convert markdown = none) ∨
          ∃ p, parseBlogPost convert fs filePath slug = .ok p ∧
            p.Slug = m.Slug ∧ p.Title = m.Title ∧ p.Date = m.Date ∧
            p.RawDate = m.RawDate ∧ p.Excerpt = m.Excerpt ∧ itemOf p = itemOf m)) ∧
    (∀ files : List Str, fs.readDir blogDir = some files →
      (∀ name ∈ files, Ext name = ".md".toList →
        (∀ content, fs.readFile (Join blogDir name) = some content →
          ∃ a b c, content = a ++ delim ++ b ++ delim ++ c) ∧
        parseBlogPost convert fs (Join blogDir name) (TrimSuffix name ".md".toList) ≠
          .error Err.render) →
      ∃ posts, loadBlogPosts convert fs = .ok posts ∧
        loadBlogPostsForRSS fs = .ok (posts.map metadataOf) ∧
        RSS fs now = some (buildRSSFeed now (sortPosts posts)) ∧
        (mainBlog convert fs now).1 = some (buildRSSFeed now (sortPosts posts)) ∧
        RSS fs now = (mainBlog convert fs now).1) ∧
    (fs.readDir blogDir = none → RSS fs now = none ∧ (mainBlog convert fs now).1 = none) := by
  refine ⟨?_, ?_, ?_⟩
  · intro filePath slug content hread hsplit
    obtain ⟨m, hm, hslug, hp⟩ := parsers_agree_file convert fs filePath slug content hread hsplit
    refine ⟨m, hm, hslug, ?_⟩
    rcases hp with h | ⟨p, hp, hpm⟩
    · exact Or.inl h
    · right
      subst hpm
      exact ⟨p, hp, rfl, rfl, rfl, rfl, rfl, rfl⟩
  · intro files hdir hfiles
    have hloops := load_loops_agree convert fs files hfiles []
    have hbuild : loadBlogPosts convert fs = .ok (files.foldl (fun posts name =>
        if Ext name ≠ ".md".toList then posts
        else
          match parseBlogPost convert fs (Join blogDir name) (TrimSuffix name ".md".toList) with
          | .error _ => posts
          | .ok post => posts ++ [post]) []) := by
      simp only [loadBlogPosts, hdir]
    have hlive : loadBlogPostsForRSS fs = .ok (files.foldl (fun posts name =>
        if Ext name ≠ ".md".toList then posts
        else
          match parseBlogPostMetadata fs (Join blogDir name) (TrimSuffix name ".md".toList) with
          | .error _ => posts
          | .ok post => posts ++ [post]) []) := by
      simp only [loadBlogPostsForRSS, hdir]
    rw [List.map_nil] at hloops
    rw [hloops] at hlive
    have hrss : RSS fs now = some (buildRSSFeed now (sortPosts (files.foldl (fun posts name =>
        if Ext name ≠ ".md".toList then posts
        else
          match parseBlogPost convert fs (Join blogDir name) (TrimSuffix name ".md".toList) with
          | .error _ => posts
          | .ok post => posts ++ [post]) []))) := by
      simp only [RSS, hlive, buildRSSFeed, sortPosts_metadataOf, feedOf_metadataOf]
    have hmain : (mainBlog convert fs now).1 = some (buildRSSFeed now (sortPosts
        (files.foldl (fun posts name =>
        if Ext name ≠ ".md".toList then posts
        else
          match parseBlogPost convert fs (Join blogDir name) (TrimSuffix name ".md".toList) with
          | .error _ => posts
          | .ok post => posts ++ [post]) []))) := by
      simp only [mainBlog, hbuild]
    exact ⟨_, hbuild, hlive, hrss, hmain, hrss.trans hmain.symm⟩
  · intro hdir
    constructor
    · simp [RSS, loadBlogPostsForRSS, hdir]
    · simp [mainBlog, loadBlogPosts, hdir]

/-- Witness for C17: on the directory `twoPostsFS` both loaders succeed, the live posts
are the build posts without content and reading time, and the two feeds are equal, with
the later post first. -/
theorem C17_parsers_agree_witness :
    twoPostsFS.readDir blogDir = some ["a.md".toList, "notes.txt".toList, "p.md".toList] ∧
    loadBlogPosts idConvert twoPostsFS = .ok [earlierPost, parsedPost] ∧
    loadBlogPostsForRSS twoPostsFS = .ok [metadataOf earlierPost, metadataOf parsedPost] ∧
    (∃ m, parseBlogPostMetadata twoPostsFS postPath "p".toList = .ok m ∧
      m.Slug = "p".toList) ∧
    RSS twoPostsFS mid2024 = (mainBlog idConvert twoPostsFS mid2024).1 ∧
    RSS twoPostsFS mid2024 = some (feedOf mid2024 [parsedPost, earlierPost]) :=
  ⟨by rfl, by rfl, by rfl,
   (match (C17_parsers_agree idConvert twoPostsFS mid2024).1 postPath "p".toList postContent
      (by rfl) ⟨[], "\ntitle: \"P\"\ndate: 2024-06-01\n".toList,
        "\n\none --- two\nthree four\n".toList, by rfl⟩ with
    | ⟨m, hm, hslug, _⟩ => ⟨m, hm, hslug⟩),
   (match (C17_parsers_agree idConvert twoPostsFS mid2024).2.1
      ["a.md".toList, "notes.txt".toList, "p.md".toList] (by rfl)
      (by
        intro name hn hext
        simp only [List.mem_cons, List.mem_singleton, List.not_mem_nil, or_false] at hn
        rcases hn with h | h | h
        · subst h
          have hp : parseBlogPost idConvert twoPostsFS (Join blogDir "a.md".toList)
              (TrimSuffix "a.md".toList ".md".toList) = .ok earlierPost := by rfl
          refine ⟨fun content hc => ?_, fun e => ?_⟩
          swap
          · rw [hp] at e
            cases e
          have hc2 : some earlierContent = some content := hc
          cases hc2
          exact ⟨[], "\ntitle: A\ndate: 2024-01-01\nexcerpt: \"first\"\n".toList,
            "\nbody text\n".toList, by rfl⟩
        · subst h
          exact absurd hext (by decide)
        · subst h
          have hp : parseBlogPost idConvert twoPostsFS (Join blogDir "p.md".toList)
              (TrimSuffix "p.md".toList ".md".toList) = .ok parsedPost := by rfl
          refine ⟨fun content hc => ?_, fun e => ?_⟩
          swap
          · rw [hp] at e
            cases e
          have hc2 : some postContent = some content := hc
          cases hc2
          exact ⟨[], "\ntitle: \"P\"\ndate: 2024-06-01\n".toList,
            "\n\none --- two\nthree four\n".toList, by rfl⟩) with
    | ⟨_, _, _, _, _, h⟩ => h),
   by rfl⟩

end Site
